import Mathlib

/-! # OpenXLSX `XLCellValue`: classification, typed getters and setters

A shallow embedding of `library/implementation/sources/XLCellValue_Impl.cpp`.

The cell value object holds a handle `m_cellNode` to the `<c>` element of the worksheet
document and a pointer `m_sharedStrings` to the workbook's shared-string table.  Every
member function reads or rewrites that element through the XML library (`pugi::xml_node`,
`pugi::xml_attribute`, `pugi::xml_text`).  Here the element is a value, a mutation returns
the new element, and a getter that can throw returns `Except`.

Strings of the tree are the contents of NUL-terminated character buffers; a `const char*`
argument is copied up to its first NUL (`strlength`).
-/

namespace pugi

/-- Modelled from the spec: the attribute record of the StructuredNode collaborator
(`pugi::xml_attribute_struct`); the XML library is not part of the translated source.
A null `value` pointer reads as the empty string, so the value is a plain string. -/
structure xml_attribute_struct where
  name : String
  value : String
deriving DecidableEq, Repr

/-- Modelled from the spec: the node record of the StructuredNode collaborator
(`pugi::xml_node_struct`), restricted to the node kinds the default parser keeps below the
document element: elements (name, attributes in document order, children in document
order) and character data (`node_pcdata`, `node_cdata`), which has a value and no name. -/
inductive xml_node_struct where
  | node_element (name : String) (attributes : List xml_attribute_struct)
      (children : List xml_node_struct)
  | node_pcdata (value : String)
  | node_cdata (value : String)
deriving Repr

/-- Modelled from the spec: a non-null `pugi::xml_node` handle that refers to an element.
A handle that may be null is an `Option xml_node`. -/
structure xml_node where
  name : String
  attributes : List xml_attribute_struct
  children : List xml_node_struct
deriving Repr

/-- The element record a handle refers to. -/
def xml_node.internal_object (n : xml_node) : xml_node_struct :=
  .node_element n.name n.attributes n.children

/-- Modelled from the spec: `impl::strlength` followed by the copy in
`impl::strcpy_insitu`: the characters of a C string up to its terminator. -/
def strcpy_insitu (rhs : String) : String :=
  ⟨rhs.data.takeWhile (fun c => c != '\x00')⟩

/-- The first character of a C string (`*p`): the terminator when the string is empty. -/
def deref (p : String) : Char :=
  p.data.headD '\x00'

/-- Modelled from the spec: the search loop of `xml_node::attribute(name)`: the first
attribute with that name. -/
def find_attribute (name_ : String) : List xml_attribute_struct → Option xml_attribute_struct
  | [] => none
  | a :: rest => if a.name = name_ then some a else find_attribute name_ rest

/-- Modelled from the spec: the search loop of `xml_node::child(name)`: the first child
whose name is set and equal to `name_`.  Character data has no name. -/
def find_child (name_ : String) : List xml_node_struct → Option xml_node
  | [] => none
  | .node_element nm as cs :: rest =>
      if nm = name_ then some ⟨nm, as, cs⟩ else find_child name_ rest
  | _ :: rest => find_child name_ rest

/-- Modelled from the spec: `xml_node::attribute(name)` (get attribute by name). -/
def xml_node.attribute (n : xml_node) (name_ : String) : Option xml_attribute_struct :=
  find_attribute name_ n.attributes

/-- Modelled from the spec: `xml_node::child(name)` (get child by name). -/
def xml_node.child (n : xml_node) (name_ : String) : Option xml_node :=
  find_child name_ n.children

/-- Modelled from the spec: `xml_attribute::value()`: the value, or `""` on a null handle. -/
def xml_attribute.value : Option xml_attribute_struct → String
  | none => ""
  | some a => a.value

/-- Modelled from the spec: `xml_node::append_attribute(name)`: a new attribute with an
empty value after the last attribute. -/
def xml_node.append_attribute (n : xml_node) (name_ : String) : xml_node :=
  { n with attributes := n.attributes ++ [⟨strcpy_insitu name_, ""⟩] }

/-- Modelled from the spec: `xml_node::append_child(name)`: a new empty element after the
last child. -/
def xml_node.append_child (n : xml_node) (name_ : String) : xml_node :=
  { n with children := n.children ++ [.node_element (strcpy_insitu name_) [] []] }

/-- Rewrites the first attribute named `name_`; nothing changes when there is none (the
handle is null and the member function returns `false`). -/
def modify_attribute (name_ : String) (f : xml_attribute_struct → xml_attribute_struct) :
    List xml_attribute_struct → List xml_attribute_struct
  | [] => []
  | a :: rest => if a.name = name_ then f a :: rest else a :: modify_attribute name_ f rest

/-- Rewrites the first child element named `name_`; nothing changes when there is none. -/
def modify_child (name_ : String) (f : xml_node → xml_node) :
    List xml_node_struct → List xml_node_struct
  | [] => []
  | .node_element nm as cs :: rest =>
      if nm = name_ then (f ⟨nm, as, cs⟩).internal_object :: rest
      else .node_element nm as cs :: modify_child name_ f rest
  | x :: rest => x :: modify_child name_ f rest

/-- A member function applied through the handle `n.child(name)`: it acts on the first child
element with that name, and on nothing when the handle is null. -/
def xml_node.on_child (n : xml_node) (name_ : String) (f : xml_node → xml_node) : xml_node :=
  { n with children := modify_child name_ f n.children }

/-- Modelled from the spec: `n.attribute(name).set_value(rhs)`: the value of the first
attribute with that name becomes `rhs`; a null handle ignores the call. -/
def xml_node.set_attribute_value (n : xml_node) (name_ rhs : String) : xml_node :=
  { n with attributes :=
      modify_attribute name_ (fun a => { a with value := strcpy_insitu rhs }) n.attributes }

/-- Modelled from the spec: `xml_node::remove_attribute(name)`, which is
`remove_attribute(attribute(name))`: unlinks the first attribute with that name. -/
def erase_attribute (name_ : String) : List xml_attribute_struct → List xml_attribute_struct
  | [] => []
  | a :: rest => if a.name = name_ then rest else a :: erase_attribute name_ rest

/-- Modelled from the spec: `xml_node::remove_child(child(name))`: unlinks the first child
with that name. -/
def erase_child (name_ : String) : List xml_node_struct → List xml_node_struct
  | [] => []
  | .node_element nm as cs :: rest =>
      if nm = name_ then rest else .node_element nm as cs :: erase_child name_ rest
  | x :: rest => x :: erase_child name_ rest

/-- Modelled from the spec: remove-attribute-by-name on a node. -/
def xml_node.remove_attribute (n : xml_node) (name_ : String) : xml_node :=
  { n with attributes := erase_attribute name_ n.attributes }

/-- Modelled from the spec: remove-child-by-name on a node. -/
def xml_node.remove_child (n : xml_node) (name_ : String) : xml_node :=
  { n with children := erase_child name_ n.children }

/-- Modelled from the spec: `xml_text::_data()` on an element: its first character-data
child, if any. -/
def text_data : List xml_node_struct → Option String
  | [] => none
  | .node_pcdata v :: _ => some v
  | .node_cdata v :: _ => some v
  | _ :: rest => text_data rest

/-- Modelled from the spec: `xml_text::get()` (get text content): the value of the first
character-data child, `""` when there is none or the handle is null. -/
def xml_text.get : Option xml_node → String
  | none => ""
  | some n => (text_data n.children).getD ""

/-- Rewrites the value of the first character-data child, keeping its kind. -/
def set_text_data (rhs : String) : List xml_node_struct → List xml_node_struct
  | [] => []
  | .node_pcdata _ :: rest => .node_pcdata rhs :: rest
  | .node_cdata _ :: rest => .node_cdata rhs :: rest
  | x :: rest => x :: set_text_data rhs rest

/-- Modelled from the spec: the store performed by the `xml_text::set` overloads through
`_data_new()`: the first character-data child receives the characters; when the element
has none, a `node_pcdata` child is appended and receives them. -/
def xml_text.assign (n : xml_node) (chars : String) : xml_node :=
  match text_data n.children with
  | some _ => { n with children := set_text_data chars n.children }
  | none => { n with children := n.children ++ [.node_pcdata chars] }

/-- Modelled from the spec: `xml_text::set(const char_t*)` (set text content). -/
def xml_text.set (n : xml_node) (rhs : String) : xml_node :=
  xml_text.assign n (strcpy_insitu rhs)

/-- Modelled from the spec: the do-while loop of `impl::integer_to_string`: writes the
digits of `rest` from the end of the buffer towards its start.  The first argument counts
the free characters of the buffer. -/
def integer_to_string_loop : Nat → Nat → List Char → List Char
  | 0, _, buf => buf
  | room + 1, rest, buf =>
      let buf := Char.ofNat (48 + rest % 10) :: buf
      if rest / 10 = 0 then buf else integer_to_string_loop room (rest / 10) buf

/-- Modelled from the spec: `impl::integer_to_string<U>` for an unsigned type `U` of `bits`
bits and the 64-character buffer of `impl::set_value_integer`: `value` is the argument
cast to `U`, `negative` tells whether the argument was below zero. -/
def integer_to_string (bits : Nat) (value : Nat) (negative : Bool) : String :=
  let rest := if negative then (2 ^ bits - value % 2 ^ bits) % 2 ^ bits else value % 2 ^ bits
  let digits := integer_to_string_loop 64 rest []
  ⟨if negative then '-' :: digits else digits⟩

/-- Modelled from the spec: `xml_text::set(long long)`, the overload a 64-bit signed
argument selects: `set_value_integer<unsigned long long>(..., rhs, rhs < 0)`. -/
def xml_text.set_llong (n : xml_node) (rhs : Int) : xml_node :=
  xml_text.assign n (integer_to_string 64 (rhs % 2 ^ 64).toNat (decide (rhs < 0)))

/-- Modelled from the spec: `xml_text::set(int)`:
`set_value_integer<unsigned int>(..., rhs, rhs < 0)`. -/
def xml_text.set_int (n : xml_node) (rhs : Int) : xml_node :=
  xml_text.assign n (integer_to_string 32 (rhs % 2 ^ 32).toNat (decide (rhs < 0)))

/-- Character class `ct_space` of the XML library: carriage return, line feed, space, tab. -/
def is_space (c : Char) : Bool :=
  c == ' ' || c == '\t' || c == '\n' || c == '\r'

/-- The test `static_cast<unsigned>(c - '0') < 10`. -/
def is_decimal_digit (c : Char) : Bool :=
  decide (48 ≤ c.toNat) && decide (c.toNat < 58)

/-- The test `static_cast<unsigned>((c | ' ') - 'a') < 6`. -/
def is_hex_letter (c : Char) : Bool :=
  decide (97 ≤ c.toNat ||| 32) && decide (c.toNat ||| 32 < 103)

/-- The decimal accumulation loop of `impl::string_to_integer<unsigned long long>`:
returns the accumulated value (arithmetic modulo 2^64) and the number of digits read. -/
def decimal_loop : List Char → Nat → Nat → Nat × Nat
  | [], result, digits => (result, digits)
  | c :: s, result, digits =>
      if is_decimal_digit c then
        decimal_loop s ((result * 10 + (c.toNat - 48)) % 2 ^ 64) (digits + 1)
      else (result, digits)

/-- The hexadecimal accumulation loop of `impl::string_to_integer<unsigned long long>`. -/
def hex_loop : List Char → Nat → Nat → Nat × Nat
  | [], result, digits => (result, digits)
  | c :: s, result, digits =>
      if is_decimal_digit c then
        hex_loop s ((result * 16 + (c.toNat - 48)) % 2 ^ 64) (digits + 1)
      else if is_hex_letter c then
        hex_loop s ((result * 16 + ((c.toNat ||| 32) - 97 + 10)) % 2 ^ 64) (digits + 1)
      else (result, digits)

/-- Modelled from the spec: `impl::string_to_integer<unsigned long long>(value, minv, maxv)`
(parse text as integer): optional white space, optional sign, a `0x` prefix selects base
16, leading zeros are skipped, digits are accumulated modulo 2^64, and a value out of
range is clamped to `0 - minv` or `maxv`. -/
def string_to_integer (value : String) (minv maxv : Nat) : Nat :=
  let s := value.data.dropWhile is_space
  let negative := s.headD '\x00' == '-'
  let s := if s.headD '\x00' == '+' || s.headD '\x00' == '-' then s.tail else s
  let parsed : Nat × Bool :=
    if s.headD '\x00' == '0' && ((s.tail.headD '\x00').toNat ||| 32) == 120 then
      let r := hex_loop ((s.drop 2).dropWhile (fun c => c == '0')) 0 0
      (r.1, decide (r.2 > 16))
    else
      let start := s.dropWhile (fun c => c == '0')
      let r := decimal_loop start 0 0
      (r.1, decide (r.2 ≥ 20) &&
        !(r.2 == 20 && (decide ((start.headD '\x00').toNat < 49) ||
          (start.headD '\x00' == '1' && r.1 >>> 63 != 0))))
  let result := parsed.1
  let overflow := parsed.2
  if negative then
    if overflow || decide (result > minv) then (2 ^ 64 - minv) % 2 ^ 64
    else (2 ^ 64 - result) % 2 ^ 64
  else
    if overflow || decide (result > maxv) then maxv else result

/-- Modelled from the spec: `xml_text::as_llong()`: the text parsed with
`minv = 0 - LLONG_MIN`, `maxv = LLONG_MAX`, and the result read as a signed 64-bit value. -/
def xml_text.as_llong (n : Option xml_node) : Int :=
  let u := string_to_integer (xml_text.get n) (2 ^ 63) (2 ^ 63 - 1)
  if u < 2 ^ 63 then (u : Int) else (u : Int) - 2 ^ 64

/-- Modelled from the spec: `xml_text::as_ullong()`: the text parsed with `minv = 0`,
`maxv = ULLONG_MAX`. -/
def xml_text.as_ullong (n : Option xml_node) : Nat :=
  string_to_integer (xml_text.get n) 0 (2 ^ 64 - 1)

/-- Modelled from the spec: `impl::get_value_bool` (parse text as boolean): only the first
character is inspected, and `1`, `t`, `T`, `y`, `Y` mean true. -/
def get_value_bool (value : String) : Bool :=
  let first := deref value
  first == '1' || first == 't' || first == 'T' || first == 'y' || first == 'Y'

/-- Modelled from the spec: `xml_text::as_bool()`. -/
def xml_text.as_bool (n : Option xml_node) : Bool :=
  get_value_bool (xml_text.get n)

/-- The number of attributes called `name_` in an attribute list. -/
def count_attributes (name_ : String) : List xml_attribute_struct → Nat
  | [] => 0
  | a :: rest => (if a.name = name_ then 1 else 0) + count_attributes name_ rest

/-- The number of child elements called `name_` in a child list. -/
def count_children (name_ : String) : List xml_node_struct → Nat
  | [] => 0
  | .node_element nm _ _ :: rest => (if nm = name_ then 1 else 0) + count_children name_ rest
  | _ :: rest => count_children name_ rest

/-- The element carries the attribute `name_` at most once, as a well-formed start tag
does. -/
abbrev xml_node.attribute_at_most_once (n : xml_node) (name_ : String) : Prop :=
  count_attributes name_ n.attributes ≤ 1

/-- The element has at most one child element called `name_`, as the `<c>` element of a
worksheet has at most one `<v>`. -/
abbrev xml_node.child_at_most_once (n : xml_node) (name_ : String) : Prop :=
  count_children name_ n.children ≤ 1

/-- Modelled from the spec: `xml_node::set_value(rhs)` on the node record: only character
data stores a value; an element has no value, the call returns `false` and leaves the node
as it is. -/
def set_node_value (rhs : String) : xml_node_struct → xml_node_struct
  | .node_pcdata _ => .node_pcdata (strcpy_insitu rhs)
  | .node_cdata _ => .node_cdata (strcpy_insitu rhs)
  | .node_element nm as cs => .node_element nm as cs

/-- Modelled from the spec: `xml_node::set_value(rhs)` through a handle that refers to an
element. -/
def xml_node.set_value (n : xml_node) (rhs : String) : xml_node :=
  match set_node_value rhs n.internal_object with
  | .node_element nm as cs => ⟨nm, as, cs⟩
  | _ => n

/-- Modelled from the spec: `v.attribute(name)` on a handle that may be null; a null node
has no attributes. -/
def child_attribute (v : Option xml_node) (name_ : String) : Option xml_attribute_struct :=
  match v with
  | none => none
  | some n => n.attribute name_

/-- A finite `double`: the number `(-1)^sign * mantissa * 2^exponent`. -/
structure double where
  sign : Bool
  mantissa : Nat
  exponent : Int
deriving DecidableEq, Repr

/-- Search for the decimal exponent of `num / den ≥ 1`: the largest `k` with
`den * 10 ^ k ≤ num`. -/
def decimal_exponent_up : Nat → Nat → Nat → Nat → Nat
  | 0, _, _, k => k
  | fuel + 1, num, den, k =>
      if den * 10 ^ (k + 1) ≤ num then decimal_exponent_up fuel num den (k + 1) else k

/-- Search for the decimal exponent of `0 < num / den < 1`: the least `k` with
`den ≤ num * 10 ^ k`. -/
def decimal_exponent_down : Nat → Nat → Nat → Nat → Nat
  | 0, _, _, k => k
  | fuel + 1, num, den, k =>
      if den ≤ num * 10 ^ k then k else decimal_exponent_down fuel num den (k + 1)

/-- The quotient `n / m` rounded to the nearest integer, ties to even. -/
def round_half_even (n m : Nat) : Nat :=
  if 2 * (n % m) > m ∨ (2 * (n % m) = m ∧ n / m % 2 = 1) then n / m + 1 else n / m

/-- Removes the zeros at the end of a digit string. -/
def strip_trailing_zeros (ds : List Char) : List Char :=
  (ds.reverse.dropWhile (fun c => c == '0')).reverse

/-- The exponent part of the `e` style: a sign and at least two digits. -/
def exponent_chars (x : Int) : List Char :=
  let ds := integer_to_string_loop 64 x.natAbs []
  'e' :: (if x < 0 then '-' else '+') :: (if x.natAbs < 10 then '0' :: ds else ds)

/-- Modelled from the spec: the numeral's canonical textual form, which is the text
`snprintf(buf, "%.17g", value)` writes for a finite `double` (the conversion behind
`xml_text::set(double)`; the XML library is not part of the translated source): the value is
rounded to seventeen
significant decimal digits; with `X` the decimal exponent of the rounded value, the fixed
style is used when `-4 ≤ X < 17` and the exponent style otherwise; trailing zeros of the
fraction and a decimal point without fraction are dropped. -/
def snprintf_17g (value : double) : String :=
  let num := value.mantissa * 2 ^ value.exponent.toNat
  let den := 2 ^ (-value.exponent).toNat
  let body : List Char :=
    if value.mantissa = 0 then ['0']
    else
      let x0 : Int :=
        if den ≤ num then (decimal_exponent_up 400 num den 0 : Nat)
        else -(decimal_exponent_down 400 num den 1 : Nat)
      let d0 := round_half_even (num * 10 ^ (16 - x0).toNat) (den * 10 ^ (x0 - 16).toNat)
      let x : Int := if d0 ≥ 10 ^ 17 then x0 + 1 else x0
      let d := if d0 ≥ 10 ^ 17 then d0 / 10 else d0
      let ds := strip_trailing_zeros (integer_to_string_loop 64 d [])
      if x < -4 ∨ x ≥ 17 then
        (match ds with
          | [] => []
          | [c] => [c]
          | c :: rest => c :: '.' :: rest) ++ exponent_chars x
      else if x < 0 then
        '0' :: '.' :: (List.replicate (-x - 1).toNat '0' ++ ds)
      else if ds.length ≤ (x + 1).toNat then
        ds ++ List.replicate ((x + 1).toNat - ds.length) '0'
      else
        ds.take (x + 1).toNat ++ '.' :: ds.drop (x + 1).toNat
  ⟨if value.sign then '-' :: body else body⟩

/-- Modelled from the spec: `xml_text::set(double)`: stores the text of
`set_value_convert`, which is `snprintf_17g`. -/
def xml_text.set_double (n : xml_node) (rhs : double) : xml_node :=
  xml_text.assign n (snprintf_17g rhs)

/-- The triple is the IEEE-754 binary64 encoding of a finite number: a zero or subnormal
number has the least exponent and a mantissa below `2 ^ 52`; a normal number has a mantissa
of exactly 53 bits. -/
abbrev double.is_binary64 (x : double) : Prop :=
  (x.exponent = -1074 ∧ x.mantissa < 2 ^ 52) ∨
  (2 ^ 52 ≤ x.mantissa ∧ x.mantissa < 2 ^ 53 ∧ -1074 ≤ x.exponent ∧ x.exponent ≤ 971)

/-- What `strtod` returns: a finite `double`, an infinity or a NaN. -/
inductive strtod_result where
  | finite (value : double)
  | infinite (sign : Bool)
  | nan
deriving DecidableEq, Repr

/-- Search for the exponent of `num / den ≥ 1` in a base: the largest `k` with
`den * base ^ k ≤ num`, as far as the first argument allows. -/
def exponent_up (base : Nat) : Nat → Nat → Nat → Nat → Nat
  | 0, _, _, k => k
  | fuel + 1, num, den, k =>
      if den * base ^ (k + 1) ≤ num then exponent_up base fuel num den (k + 1) else k

/-- Search for the exponent of `0 < num / den < 1` in a base: the least `k` with
`den ≤ num * base ^ k`, as far as the first argument allows. -/
def exponent_down (base : Nat) : Nat → Nat → Nat → Nat → Nat
  | 0, _, _, k => k
  | fuel + 1, num, den, k =>
      if den ≤ num * base ^ k then k else exponent_down base fuel num den (k + 1)

/-- The `double` nearest to `num / den` (ties to even) with the given sign: the mantissa is
the quotient scaled to 53 bits, or to the least exponent for a subnormal result, and
rounded; a result beyond the largest finite `double` is an infinity.  A search that stops
at 1100 has left the range of finite exponents on either side. -/
def round_to_double (sign : Bool) (num den : Nat) : strtod_result :=
  if num = 0 then .finite ⟨sign, 0, -1074⟩
  else
    let e2 : Int :=
      if den ≤ num then (exponent_up 2 1100 num den 0 : Nat)
      else -(exponent_down 2 1100 num den 1 : Nat)
    let e : Int := max (e2 - 52) (-1074)
    let m := round_half_even (num * 2 ^ (-e).toNat) (den * 2 ^ e.toNat)
    let e1 : Int := if m = 2 ^ 53 then e + 1 else e
    let m1 := if m = 2 ^ 53 then 2 ^ 52 else m
    if e1 > 971 then .infinite sign else .finite ⟨sign, m1, e1⟩

/-- The character class `isspace` of the C locale. -/
def is_c_space (c : Char) : Bool :=
  c == ' ' || c == '\t' || c == '\n' || c.toNat == 11 || c.toNat == 12 || c == '\r'

/-- A hexadecimal digit. -/
def is_hex_digit (c : Char) : Bool :=
  is_decimal_digit c || is_hex_letter c

/-- The value of a decimal or hexadecimal digit. -/
def digit_value (c : Char) : Nat :=
  if is_decimal_digit c then c.toNat - 48 else (c.toNat ||| 32) - 97 + 10

/-- The number a digit string denotes in a base. -/
def digits_value (base : Nat) (ds : List Char) : Nat :=
  ds.foldl (fun acc c => acc * base + digit_value c) 0

/-- The characters start with the given lower-case letters, in either case. -/
def starts_with_letters : List Char → List Char → Bool
  | [], _ => true
  | _ :: _, [] => false
  | l :: ls, c :: cs => (c.toNat ||| 32) == l.toNat && starts_with_letters ls cs

/-- The exponent part of a floating-point numeral: the marker letter (`e` or `p`, in either
case), an optional sign and decimal digits; without digits there is no exponent part. -/
def exponent_part (marker : Char) (r : List Char) : Int :=
  if ((r.headD '\x00').toNat ||| 32) == marker.toNat then
    let t := r.tail
    let negative := t.headD '\x00' == '-'
    let t := if t.headD '\x00' == '+' || t.headD '\x00' == '-' then t.tail else t
    let ds := t.takeWhile is_decimal_digit
    if ds.isEmpty then 0
    else if negative then -(digits_value 10 ds : Int) else (digits_value 10 ds : Int)
  else 0

/-- Modelled from the spec: parse text as float, which is `strtod(value, 0)` behind
`xml_text::as_double` (the XML library is not part of the translated source), in the C
locale: white space is skipped, then an optional sign, then `inf`/`infinity`, `nan`, a
hexadecimal numeral after `0x`, or a decimal numeral (digits with an optional decimal
point and an optional exponent part); the number read is rounded to the nearest `double`;
when nothing can be read the result is zero. -/
def strtod (text : String) : strtod_result :=
  let s := text.data.dropWhile is_c_space
  let negative := s.headD '\x00' == '-'
  let s := if s.headD '\x00' == '+' || s.headD '\x00' == '-' then s.tail else s
  if starts_with_letters ['i', 'n', 'f'] s then .infinite negative
  else if starts_with_letters ['n', 'a', 'n'] s then .nan
  else
    let h := s.drop 2
    let hip := h.takeWhile is_hex_digit
    let hr := h.dropWhile is_hex_digit
    let hfp := if hr.headD '\x00' == '.' then hr.tail.takeWhile is_hex_digit else []
    let hrest := if hr.headD '\x00' == '.' then hr.tail.dropWhile is_hex_digit else hr
    if s.headD '\x00' == '0' && ((s.tail.headD '\x00').toNat ||| 32) == 120
        && !(hip.isEmpty && hfp.isEmpty) then
      let q : Int := exponent_part 'p' hrest - 4 * (hfp.length : Int)
      round_to_double negative (digits_value 16 (hip ++ hfp) * 2 ^ q.toNat) (2 ^ (-q).toNat)
    else
      let ip := s.takeWhile is_decimal_digit
      let r := s.dropWhile is_decimal_digit
      let fp := if r.headD '\x00' == '.' then r.tail.takeWhile is_decimal_digit else []
      let rest := if r.headD '\x00' == '.' then r.tail.dropWhile is_decimal_digit else r
      if ip.isEmpty && fp.isEmpty then .finite ⟨false, 0, -1074⟩
      else
        let q : Int := exponent_part 'e' rest - (fp.length : Int)
        round_to_double negative (digits_value 10 (ip ++ fp) * 10 ^ q.toNat) (10 ^ (-q).toNat)

end pugi

namespace OpenXLSX

open pugi

/-- The two exceptions a getter can leave with: `XLException(what)` thrown by the cell
value itself and `std::out_of_range` raised by the shared-string lookup. -/
inductive Exception where
  | XLException (what : String)
  | out_of_range
deriving DecidableEq, Repr

/-- Enumeration `XLCellType` (declared in the header of the class). -/
inductive XLCellType where
  | Empty | Number | Boolean | String | Error
deriving DecidableEq, Repr

/-- Enumeration `XLValueType` (declared in the header of the class). -/
inductive XLValueType where
  | Empty | Integer | Float | Boolean | String | Error
deriving DecidableEq, Repr

/-- Enumeration `XLNumberType` (declared in the header of the class). -/
inductive XLNumberType where
  | Integer | Float
deriving DecidableEq, Repr

/-- Modelled from the spec: the SharedStringTable collaborator (`XLSharedStrings`, not part
of the translated source): the interned strings in index order. -/
structure XLSharedStrings where
  strings : List String
deriving Repr

/-- Modelled from the spec: `XLSharedStrings::GetString(index)`,
`resolve(index: non-negative integer) -> string`, which fails if the index is out of
range. -/
def XLSharedStrings.GetString (t : XLSharedStrings) (index : Nat) : Except Exception String :=
  match t.strings.get? index with
  | some s => .ok s
  | none => .error .out_of_range

/-- Position search `std::string::find(pattern)`; `none` is `npos`. -/
def string_find (pattern : List Char) : List Char → Option Nat
  | [] => if pattern.isEmpty then some 0 else none
  | c :: s =>
      if pattern.isPrefixOf (c :: s) then some 0
      else (string_find pattern s).map (fun i => i + 1)

/-- The cell value object: the handle to its `<c>` element and the shared-string table. -/
structure XLCellValue where
  m_cellNode : xml_node
  m_sharedStrings : XLSharedStrings
deriving Repr

namespace XLCellValue

/-- `Impl::XLCellValue::DetermineNumberType`. -/
def DetermineNumberType (numberString : String) : XLNumberType :=
  if (string_find ['.'] numberString.data).isSome
      || (string_find ['E', '-'] numberString.data).isSome
      || (string_find ['e', '-'] numberString.data).isSome then
    XLNumberType.Float
  else XLNumberType.Integer

/-- `Impl::XLCellValue::CellType`. -/
def CellType (self : XLCellValue) : XLCellType :=
  let t := self.m_cellNode.attribute "t"
  let v := self.m_cellNode.child "v"
  if t.isNone && v.isNone then XLCellType.Empty
  else if (t.isNone || deref (xml_attribute.value t) == 'n') && v.isSome then XLCellType.Number
  else if t.isSome && deref (xml_attribute.value t) == 's' then XLCellType.String
  else if t.isSome && xml_attribute.value t == "inlineStr" then XLCellType.String
  else if t.isSome && xml_attribute.value t == "str" then XLCellType.String
  else if t.isSome && deref (xml_attribute.value t) == 'b' then XLCellType.Boolean
  else XLCellType.Error

/-- `Impl::XLCellValue::ValueType`. -/
def ValueType (self : XLCellValue) : XLValueType :=
  match self.CellType with
  | XLCellType.Empty => XLValueType.Empty
  | XLCellType.Error => XLValueType.Error
  | XLCellType.Number =>
      if DetermineNumberType (xml_text.get (self.m_cellNode.child "v")) = XLNumberType.Integer then
        XLValueType.Integer
      else XLValueType.Float
  | XLCellType.Boolean => XLValueType.Boolean
  | _ => XLValueType.String

/-- `Impl::XLCellValue::Set(const char*)`.  The last statement addresses the `xml:space`
attribute of the cell element itself. -/
def Set (self : XLCellValue) (stringValue : String) : XLCellValue :=
  let n := self.m_cellNode
  let n := if (n.attribute "t").isNone then n.append_attribute "t" else n
  let n := if (n.child "v").isNone then n.append_child "v" else n
  let n := n.set_attribute_value "t" "str"
  let n := n.on_child "v" (fun v => xml_text.set v stringValue)
  let n := n.set_attribute_value "xml:space" "preserve"
  { self with m_cellNode := n }

/-- `Impl::XLCellValue::Set(const std::string&)`: passes `stringValue.c_str()` on. -/
def Set_string (self : XLCellValue) (stringValue : String) : XLCellValue :=
  self.Set stringValue

/-- `Impl::XLCellValue::Clear`. -/
def Clear (self : XLCellValue) : XLCellValue :=
  let n := self.m_cellNode
  let n := n.remove_child "v"
  let n := n.remove_attribute "t"
  { self with m_cellNode := n }

/-- `Impl::XLCellValue::AsString`. -/
def AsString (self : XLCellValue) : Except Exception String :=
  if xml_attribute.value (self.m_cellNode.attribute "t") = "b" then
    if xml_text.get (self.m_cellNode.child "v") = "0" then .ok "FALSE"
    else .ok "TRUE"
  else if xml_attribute.value (self.m_cellNode.attribute "t") = "s" then
    self.m_sharedStrings.GetString (xml_text.as_ullong (self.m_cellNode.child "v"))
  else .ok (xml_text.get (self.m_cellNode.child "v"))

/-- `Impl::XLCellValue::SetInteger`. -/
def SetInteger (self : XLCellValue) (numberValue : Int) : XLCellValue :=
  let n := self.m_cellNode
  let n := if (n.child "v").isNone then n.append_child "v" else n
  let n := n.remove_attribute "t"
  let n := n.on_child "v" (fun v => xml_text.set_llong v numberValue)
  let n := n.on_child "v" (fun v => v.set_attribute_value "xml:space" "default")
  { self with m_cellNode := n }

/-- `Impl::XLCellValue::SetBoolean`. -/
def SetBoolean (self : XLCellValue) (numberValue : Bool) : XLCellValue :=
  let n := self.m_cellNode
  let n := if (n.attribute "t").isNone then n.append_attribute "t" else n
  let n := if (n.child "v").isNone then n.append_child "v" else n
  let n := n.set_attribute_value "t" "b"
  let n := n.on_child "v" (fun v => xml_text.set_int v (if numberValue then 1 else 0))
  let n := n.on_child "v" (fun v => v.set_attribute_value "xml:space" "default")
  { self with m_cellNode := n }

/-- `Impl::XLCellValue::GetInteger`. -/
def GetInteger (self : XLCellValue) : Except Exception Int :=
  if self.ValueType ≠ XLValueType.Integer then
    .error (.XLException "Cell value is not Integer")
  else .ok (xml_text.as_llong (self.m_cellNode.child "v"))

/-- `Impl::XLCellValue::GetBoolean`. -/
def GetBoolean (self : XLCellValue) : Except Exception Bool :=
  if self.ValueType ≠ XLValueType.Boolean then
    .error (.XLException "Cell value is not Boolean")
  else .ok (xml_text.as_bool (self.m_cellNode.child "v"))

/-- `Impl::XLCellValue::GetFloat`.  The conversion `xml_text::as_double` of the character
data to a floating-point number is the parameter `as_double`; the library converts with
`pugi.strtod`, and the widening of the result to `long double` changes no value. -/
def GetFloat {F : Type} (as_double : String → F) (self : XLCellValue) : Except Exception F :=
  if self.ValueType ≠ XLValueType.Float then
    .error (.XLException "Cell value is not Float")
  else .ok (as_double (xml_text.get (self.m_cellNode.child "v")))

/-- `Impl::XLCellValue::GetString`. -/
def GetString (self : XLCellValue) : Except Exception String :=
  if self.ValueType ≠ XLValueType.String then
    .error (.XLException "Cell value is not String")
  else if xml_attribute.value (self.m_cellNode.attribute "t") = "str" then
    .ok (xml_text.get (self.m_cellNode.child "v"))
  else if xml_attribute.value (self.m_cellNode.attribute "t") = "s" then
    self.m_sharedStrings.GetString (xml_text.as_ullong (self.m_cellNode.child "v"))
  else .error (.XLException "Unknown string type")

/-- `Impl::XLCellValue::SetFloat`. -/
def SetFloat (self : XLCellValue) (numberValue : double) : XLCellValue :=
  let n := self.m_cellNode
  let n := if (n.child "v").isNone then n.append_child "v" else n
  let n := n.remove_attribute "t"
  let n := n.on_child "v" (fun v => xml_text.set_double v numberValue)
  let n := n.on_child "v" (fun v => v.set_attribute_value "xml:space" "default")
  { self with m_cellNode := n }

/-- `Impl::XLCellValue::operator=(const XLCellValue&)`, the body under `&other != this`, for
a source object `other` bound to another node than the target.  The source is only read. -/
def operator_assign (self other : XLCellValue) : XLCellValue :=
  let n := self.m_cellNode
  let n := if (n.attribute "t").isNone then n.append_attribute "t" else n
  let n := if (n.child "v").isNone then n.append_child "v" else n
  let n := n.on_child "v" (fun v => v.set_value
    (if (other.m_cellNode.child "v").isNone then ""
      else xml_text.get (other.m_cellNode.child "v")))
  let n := n.on_child "v" (fun v => v.set_attribute_value "xml:space"
    (xml_attribute.value (child_attribute (other.m_cellNode.child "v") "xml:space")))
  let n := n.set_attribute_value "t"
    (if (other.m_cellNode.attribute "t").isNone then ""
      else xml_attribute.value (other.m_cellNode.attribute "t"))
  { self with m_cellNode := n }

/-- `Impl::XLCellValue::operator=(XLCellValue&&)`: the same statements as the copy
assignment. -/
def operator_assign_move (self other : XLCellValue) : XLCellValue :=
  let n := self.m_cellNode
  let n := if (n.attribute "t").isNone then n.append_attribute "t" else n
  let n := if (n.child "v").isNone then n.append_child "v" else n
  let n := n.on_child "v" (fun v => v.set_value
    (if (other.m_cellNode.child "v").isNone then ""
      else xml_text.get (other.m_cellNode.child "v")))
  let n := n.on_child "v" (fun v => v.set_attribute_value "xml:space"
    (xml_attribute.value (child_attribute (other.m_cellNode.child "v") "xml:space")))
  let n := n.set_attribute_value "t"
    (if (other.m_cellNode.attribute "t").isNone then ""
      else xml_attribute.value (other.m_cellNode.attribute "t"))
  { self with m_cellNode := n }

end XLCellValue

end OpenXLSX

/-! ## The words of the specification -/

namespace OpenXLSX

open pugi

/-- The lexical test in the words of the specification: the text contains a decimal point
or a negative-exponent marker (`E-` or `e-`). -/
def has_decimal_point_or_negative_exponent (text : String) : Prop :=
  '.' ∈ text.data ∨ ['E', '-'] <:+: text.data ∨ ['e', '-'] <:+: text.data

/-- A numeral text: an optional sign, digits, an optional fraction after a decimal point and
an optional exponent. -/
def is_numeral_text (text : String) : Bool :=
  let s := text.data
  let s := if s.headD '\x00' == '-' || s.headD '\x00' == '+' then s.tail else s
  let after_digits := s.dropWhile is_decimal_digit
  let after_fraction :=
    if after_digits.headD '\x00' == '.' then after_digits.tail.dropWhile is_decimal_digit
    else after_digits
  is_decimal_digit (s.headD '\x00') &&
    (match after_fraction with
      | [] => true
      | c :: r =>
          (c == 'e' || c == 'E') &&
            (let r := if r.headD '\x00' == '-' || r.headD '\x00' == '+' then r.tail else r
             !r.isEmpty && r.all is_decimal_digit))

/-- The rows of the encoding table of the specification. -/
inductive EncodingRow where
  | Empty | Number | Boolean | StringShared | StringInline | StringOrdinary | Error
deriving DecidableEq, Repr

/-- The Cell Type Code of a row of the encoding table. -/
def EncodingRow.code : EncodingRow → XLCellType
  | .Empty => XLCellType.Empty
  | .Number => XLCellType.Number
  | .Boolean => XLCellType.Boolean
  | .StringShared => XLCellType.String
  | .StringInline => XLCellType.String
  | .StringOrdinary => XLCellType.String
  | .Error => XLCellType.Error

/-- The encoding table in the words of the specification: what a row demands of the type
attribute and of the value node of the cell.

| Cell Type Code | type attribute value | value-node content |
| Empty | absent | absent |
| Number | absent or "n" | numeral text |
| Boolean | "b" | "0" or "1" |
| String (shared) | "s" | non-negative integer index |
| String (inline) | "inlineStr" | literal text |
| String (ordinary) | "str" | literal text |
| Error | any other value | error code text | -/
def encoding_row_holds (self : XLCellValue) : EncodingRow → Prop
  | .Empty => self.m_cellNode.attribute "t" = none ∧ self.m_cellNode.child "v" = none
  | .Number =>
      (self.m_cellNode.attribute "t" = none ∨
        ∃ a, self.m_cellNode.attribute "t" = some a ∧ a.value = "n") ∧
      (self.m_cellNode.child "v").isSome = true ∧
      is_numeral_text (xml_text.get (self.m_cellNode.child "v")) = true
  | .Boolean =>
      (∃ a, self.m_cellNode.attribute "t" = some a ∧ a.value = "b") ∧
      (self.m_cellNode.child "v").isSome = true ∧
      (xml_text.get (self.m_cellNode.child "v") = "0" ∨
        xml_text.get (self.m_cellNode.child "v") = "1")
  | .StringShared =>
      (∃ a, self.m_cellNode.attribute "t" = some a ∧ a.value = "s") ∧
      (self.m_cellNode.child "v").isSome = true ∧
      ∃ i : Nat, xml_text.get (self.m_cellNode.child "v") = Nat.repr i
  | .StringInline =>
      (∃ a, self.m_cellNode.attribute "t" = some a ∧ a.value = "inlineStr") ∧
      (self.m_cellNode.child "v").isSome = true
  | .StringOrdinary =>
      (∃ a, self.m_cellNode.attribute "t" = some a ∧ a.value = "str") ∧
      (self.m_cellNode.child "v").isSome = true
  | .Error =>
      ∃ a, self.m_cellNode.attribute "t" = some a ∧
        a.value ≠ "n" ∧ a.value ≠ "b" ∧ a.value ≠ "s" ∧ a.value ≠ "inlineStr" ∧ a.value ≠ "str"

/-- The attributes of the cell node other than the type attribute `t`, in document order. -/
def other_attributes (n : xml_node) : List xml_attribute_struct :=
  n.attributes.filter (fun a => a.name != "t")

/-- The children of the cell node other than the value child `v`, in document order. -/
def other_children (n : xml_node) : List xml_node_struct :=
  n.children.filter (fun c =>
    match c with
    | .node_element nm _ _ => nm != "v"
    | _ => true)

end OpenXLSX

/-! ## The XML library: lookups after an update -/

namespace pugi

theorem strcpy_insitu_of_not_mem (s : String) (h : '\x00' ∉ s.data) : strcpy_insitu s = s := by
  have : s.data.takeWhile (fun c => c != '\x00') = s.data := by
    rw [List.takeWhile_eq_self_iff]
    intro c hc
    have : c ≠ '\x00' := fun e => h (e ▸ hc)
    simpa using this
  simp [strcpy_insitu, this]

theorem find_attribute_append (name_ : String) (a : xml_attribute_struct)
    (as : List xml_attribute_struct) (h : find_attribute name_ as = none) :
    find_attribute name_ (as ++ [a]) = if a.name = name_ then some a else none := by
  induction as with
  | nil => simp [find_attribute]
  | cons b rest ih =>
    simp only [find_attribute, List.cons_append] at h ⊢
    split at h
    · cases h
    · rename_i hb
      simp [hb, ih h]

theorem find_attribute_modify (name_ : String) (f : xml_attribute_struct → xml_attribute_struct)
    (hf : ∀ a, (f a).name = a.name) (as : List xml_attribute_struct) :
    find_attribute name_ (modify_attribute name_ f as) = (find_attribute name_ as).map f := by
  induction as with
  | nil => simp [find_attribute, modify_attribute]
  | cons b rest ih =>
    simp only [find_attribute, modify_attribute]
    split
    · rename_i hb
      simp [find_attribute, hf, hb]
    · rename_i hb
      simp [find_attribute, hb, ih]

theorem find_attribute_modify_ne (name_ other : String) (hne : other ≠ name_)
    (f : xml_attribute_struct → xml_attribute_struct)
    (hf : ∀ a, (f a).name = a.name) (as : List xml_attribute_struct) :
    find_attribute name_ (modify_attribute other f as) = find_attribute name_ as := by
  induction as with
  | nil => simp [find_attribute, modify_attribute]
  | cons b rest ih =>
    simp only [modify_attribute]
    split
    · rename_i hb
      have h1 : ¬ b.name = name_ := fun e => hne (hb.symm.trans e)
      simp [find_attribute, hf, h1]
    · simp [find_attribute, ih]

theorem find_child_append (name_ nm : String) (as : List xml_attribute_struct)
    (gs cs : List xml_node_struct) (h : find_child name_ cs = none) :
    find_child name_ (cs ++ [.node_element nm as gs]) =
      if nm = name_ then some ⟨nm, as, gs⟩ else none := by
  induction cs with
  | nil => simp [find_child]
  | cons b rest ih =>
    cases b with
    | node_element bn bas bcs =>
      simp only [find_child, List.cons_append] at h ⊢
      split at h
      · cases h
      · rename_i hb
        simp [hb, ih h]
    | node_pcdata v => simpa [find_child] using ih (by simpa [find_child] using h)
    | node_cdata v => simpa [find_child] using ih (by simpa [find_child] using h)

theorem find_child_modify (name_ : String) (f : xml_node → xml_node)
    (hf : ∀ n, (f n).name = n.name) (cs : List xml_node_struct) :
    find_child name_ (modify_child name_ f cs) = (find_child name_ cs).map f := by
  induction cs with
  | nil => simp [find_child, modify_child]
  | cons b rest ih =>
    cases b with
    | node_element bn bas bcs =>
      simp only [find_child, modify_child]
      split
      · rename_i hb
        subst hb
        have := hf ⟨bn, bas, bcs⟩
        simp only at this
        simp only [find_child, xml_node.internal_object, this, if_true, Option.map_some']
        generalize f ⟨bn, bas, bcs⟩ = r at this
        cases r
        simp at this
        simp [this]
      · rename_i hb
        simp [find_child, hb, ih]
    | node_pcdata v => simpa [find_child, modify_child] using ih
    | node_cdata v => simpa [find_child, modify_child] using ih

theorem text_data_set (chars : String) (cs : List xml_node_struct) (h : (text_data cs).isSome) :
    text_data (set_text_data chars cs) = some chars := by
  induction cs with
  | nil => simp [text_data] at h
  | cons b rest ih =>
    cases b with
    | node_element bn bas bcs => simpa [text_data, set_text_data] using ih (by simpa [text_data] using h)
    | node_pcdata v => simp [text_data, set_text_data]
    | node_cdata v => simp [text_data, set_text_data]

theorem text_data_append (chars : String) (cs : List xml_node_struct) (h : text_data cs = none) :
    text_data (cs ++ [.node_pcdata chars]) = some chars := by
  induction cs with
  | nil => simp [text_data]
  | cons b rest ih =>
    cases b with
    | node_element bn bas bcs => simpa [text_data] using ih (by simpa [text_data] using h)
    | node_pcdata v => simp [text_data] at h
    | node_cdata v => simp [text_data] at h

theorem text_get_assign (n : xml_node) (chars : String) :
    xml_text.get (some (xml_text.assign n chars)) = chars := by
  unfold xml_text.assign
  split
  · rename_i v hv
    simp [xml_text.get, text_data_set chars n.children (by simp [hv])]
  · rename_i hv
    simp [xml_text.get, text_data_append chars n.children hv]

theorem assign_name (n : xml_node) (chars : String) : (xml_text.assign n chars).name = n.name := by
  unfold xml_text.assign
  split <;> rfl

theorem find_attribute_name (name_ : String) (as : List xml_attribute_struct)
    (a : xml_attribute_struct) (h : find_attribute name_ as = some a) : a.name = name_ := by
  induction as with
  | nil => simp [find_attribute] at h
  | cons b rest ih =>
    simp only [find_attribute] at h
    split at h
    · rename_i hb
      cases h
      exact hb
    · exact ih h

theorem find_child_name (name_ : String) (cs : List xml_node_struct)
    (n : xml_node) (h : find_child name_ cs = some n) : n.name = name_ := by
  induction cs with
  | nil => simp [find_child] at h
  | cons b rest ih =>
    cases b with
    | node_element bn bas bcs =>
      simp only [find_child] at h
      split at h
      · rename_i hb
        cases h
        exact hb
      · exact ih h
    | node_pcdata v => exact ih (by simpa [find_child] using h)
    | node_cdata v => exact ih (by simpa [find_child] using h)

theorem strcpy_insitu_t : strcpy_insitu "t" = "t" := by decide

theorem strcpy_insitu_v : strcpy_insitu "v" = "v" := by decide

theorem strcpy_insitu_b : strcpy_insitu "b" = "b" := by decide

theorem strcpy_insitu_str : strcpy_insitu "str" = "str" := by decide

theorem strcpy_insitu_default : strcpy_insitu "default" = "default" := by decide

theorem strcpy_insitu_preserve : strcpy_insitu "preserve" = "preserve" := by decide

@[simp] theorem on_child_attribute (n : xml_node) (nm x : String) (f : xml_node → xml_node) :
    (n.on_child nm f).attribute x = n.attribute x := rfl

theorem on_child_child (n : xml_node) (nm : String) (f : xml_node → xml_node)
    (hf : ∀ m, (f m).name = m.name) :
    (n.on_child nm f).child nm = (n.child nm).map f :=
  find_child_modify nm f hf n.children

@[simp] theorem set_attribute_value_child (n : xml_node) (nm v x : String) :
    (n.set_attribute_value nm v).child x = n.child x := rfl

theorem set_attribute_value_attribute (n : xml_node) (nm v : String) :
    (n.set_attribute_value nm v).attribute nm =
      (n.attribute nm).map (fun a => { a with value := strcpy_insitu v }) :=
  find_attribute_modify nm (fun a => { a with value := strcpy_insitu v }) (fun _ => rfl)
    n.attributes

theorem set_attribute_value_attribute_ne (n : xml_node) (nm other v : String)
    (hne : other ≠ nm) :
    (n.set_attribute_value other v).attribute nm = n.attribute nm :=
  find_attribute_modify_ne nm other hne (fun a => { a with value := strcpy_insitu v })
    (fun _ => rfl) n.attributes

@[simp] theorem append_attribute_child (n : xml_node) (nm x : String) :
    (n.append_attribute nm).child x = n.child x := rfl

@[simp] theorem append_child_attribute (n : xml_node) (nm x : String) :
    (n.append_child nm).attribute x = n.attribute x := rfl

@[simp] theorem remove_attribute_child (n : xml_node) (nm x : String) :
    (n.remove_attribute nm).child x = n.child x := rfl

@[simp] theorem remove_child_attribute (n : xml_node) (nm x : String) :
    (n.remove_child nm).attribute x = n.attribute x := rfl

/-- After `if (!n.attribute("t")) n.append_attribute("t")` the attribute exists. -/
theorem ensure_attribute_t (n : xml_node) :
    ∃ a, (if (n.attribute "t").isNone then n.append_attribute "t" else n).attribute "t" = some a
      ∧ a.name = "t" := by
  cases h : n.attribute "t" with
  | none =>
    refine ⟨⟨"t", ""⟩, ?_, rfl⟩
    simp only [Option.isNone_none, if_true]
    have := find_attribute_append "t" ⟨"t", ""⟩ n.attributes h
    simpa [xml_node.attribute, xml_node.append_attribute, strcpy_insitu_t] using this
  | some a =>
    exact ⟨a, by simp [h], find_attribute_name "t" n.attributes a h⟩

/-- After `if (!n.child("v")) n.append_child("v")` the child exists. -/
theorem ensure_child_v (n : xml_node) :
    ∃ v, (if (n.child "v").isNone then n.append_child "v" else n).child "v" = some v
      ∧ v.name = "v" := by
  cases h : n.child "v" with
  | none =>
    refine ⟨⟨"v", [], []⟩, ?_, rfl⟩
    simp only [Option.isNone_none, if_true]
    have := find_child_append "v" "v" [] [] n.children h
    simpa [xml_node.child, xml_node.append_child, strcpy_insitu_v] using this
  | some v =>
    exact ⟨v, by simp [h], find_child_name "v" n.children v h⟩

theorem ite_append_child_attribute (n : xml_node) (c : Prop) [Decidable c] (nm x : String) :
    (if c then n.append_child nm else n).attribute x = n.attribute x := by
  split <;> rfl

theorem ite_append_attribute_child (n : xml_node) (c : Prop) [Decidable c] (nm x : String) :
    (if c then n.append_attribute nm else n).child x = n.child x := by
  split <;> rfl

theorem set_name (n : xml_node) (rhs : String) : (xml_text.set n rhs).name = n.name :=
  assign_name n _

theorem set_llong_name (n : xml_node) (rhs : Int) : (xml_text.set_llong n rhs).name = n.name :=
  assign_name n _

theorem set_int_name (n : xml_node) (rhs : Int) : (xml_text.set_int n rhs).name = n.name :=
  assign_name n _

theorem text_get_set_attribute_value (v : xml_node) (nm rhs : String) :
    xml_text.get (some (v.set_attribute_value nm rhs)) = xml_text.get (some v) := rfl

theorem find_attribute_of_count_zero (name_ : String) (as : List xml_attribute_struct)
    (h : count_attributes name_ as = 0) : find_attribute name_ as = none := by
  induction as with
  | nil => rfl
  | cons b rest ih =>
    simp only [count_attributes] at h
    by_cases hb : b.name = name_
    · simp [hb] at h
    · simp only [find_attribute, hb, if_false]
      exact ih (by simpa [hb] using h)

theorem find_attribute_erase (name_ : String) (as : List xml_attribute_struct)
    (h : count_attributes name_ as ≤ 1) :
    find_attribute name_ (erase_attribute name_ as) = none := by
  induction as with
  | nil => rfl
  | cons b rest ih =>
    simp only [count_attributes] at h
    by_cases hb : b.name = name_
    · simp only [erase_attribute, hb, if_true]
      exact find_attribute_of_count_zero name_ rest (by simp [hb] at h; omega)
    · simp only [erase_attribute, find_attribute, hb, if_false]
      exact ih (by simpa [hb] using h)

theorem erase_attribute_of_none (name_ : String) (as : List xml_attribute_struct)
    (h : find_attribute name_ as = none) : erase_attribute name_ as = as := by
  induction as with
  | nil => rfl
  | cons b rest ih =>
    simp only [find_attribute] at h
    by_cases hb : b.name = name_
    · simp [hb] at h
    · simp only [erase_attribute, hb, if_false]
      rw [ih (by simpa [hb] using h)]

theorem find_child_of_count_zero (name_ : String) (cs : List xml_node_struct)
    (h : count_children name_ cs = 0) : find_child name_ cs = none := by
  induction cs with
  | nil => rfl
  | cons b rest ih =>
    cases b with
    | node_element bn bas bcs =>
      simp only [count_children] at h
      by_cases hb : bn = name_
      · simp [hb] at h
      · simp only [find_child, hb, if_false]
        exact ih (by simpa [hb] using h)
    | node_pcdata v => exact ih (by simpa [count_children] using h)
    | node_cdata v => exact ih (by simpa [count_children] using h)

theorem find_child_erase (name_ : String) (cs : List xml_node_struct)
    (h : count_children name_ cs ≤ 1) :
    find_child name_ (erase_child name_ cs) = none := by
  induction cs with
  | nil => rfl
  | cons b rest ih =>
    cases b with
    | node_element bn bas bcs =>
      simp only [count_children] at h
      by_cases hb : bn = name_
      · simp only [erase_child, hb, if_true]
        exact find_child_of_count_zero name_ rest (by simp [hb] at h; omega)
      · simp only [erase_child, find_child, hb, if_false]
        exact ih (by simpa [hb] using h)
    | node_pcdata v => exact ih (by simpa [count_children] using h)
    | node_cdata v => exact ih (by simpa [count_children] using h)

theorem erase_child_of_none (name_ : String) (cs : List xml_node_struct)
    (h : find_child name_ cs = none) : erase_child name_ cs = cs := by
  induction cs with
  | nil => rfl
  | cons b rest ih =>
    cases b with
    | node_element bn bas bcs =>
      simp only [find_child] at h
      by_cases hb : bn = name_
      · simp [hb] at h
      · simp only [erase_child, hb, if_false]
        rw [ih (by simpa [hb] using h)]
    | node_pcdata v =>
      simp only [erase_child]
      rw [ih (by simpa [find_child] using h)]
    | node_cdata v =>
      simp only [erase_child]
      rw [ih (by simpa [find_child] using h)]

end pugi

/-! ## The node after a setter -/

namespace OpenXLSX

open pugi

namespace XLCellValue

theorem Set_attribute_t (self : XLCellValue) (s : String) :
    (self.Set s).m_cellNode.attribute "t" = some ⟨"t", "str"⟩ := by
  obtain ⟨a, ha, hn⟩ := ensure_attribute_t self.m_cellNode
  simp only [Set]
  generalize (if (self.m_cellNode.attribute "t").isNone then
        self.m_cellNode.append_attribute "t" else self.m_cellNode) = n1 at ha ⊢
  rw [set_attribute_value_attribute_ne _ _ _ _ (by decide), on_child_attribute,
    set_attribute_value_attribute, ite_append_child_attribute, ha]
  cases a
  simp only at hn
  simp [hn, strcpy_insitu_str]

theorem Set_child_v (self : XLCellValue) (s : String) :
    ∃ v, (self.Set s).m_cellNode.child "v" = some v ∧
      xml_text.get (some v) = strcpy_insitu s := by
  simp only [Set]
  generalize (if (self.m_cellNode.attribute "t").isNone then
        self.m_cellNode.append_attribute "t" else self.m_cellNode) = n1
  obtain ⟨v, hv, -⟩ := ensure_child_v n1
  refine ⟨xml_text.set v s, ?_, text_get_assign v _⟩
  rw [set_attribute_value_child, on_child_child _ _ _ (fun m => set_name m s),
    set_attribute_value_child, hv]
  rfl

theorem SetBoolean_attribute_t (self : XLCellValue) (b : Bool) :
    (self.SetBoolean b).m_cellNode.attribute "t" = some ⟨"t", "b"⟩ := by
  obtain ⟨a, ha, hn⟩ := ensure_attribute_t self.m_cellNode
  simp only [SetBoolean]
  generalize (if (self.m_cellNode.attribute "t").isNone then
        self.m_cellNode.append_attribute "t" else self.m_cellNode) = n1 at ha ⊢
  rw [on_child_attribute, on_child_attribute,
    set_attribute_value_attribute, ite_append_child_attribute, ha]
  cases a
  simp only at hn
  simp [hn, strcpy_insitu_b]

theorem SetBoolean_child_v (self : XLCellValue) (b : Bool) :
    ∃ v, (self.SetBoolean b).m_cellNode.child "v" = some v ∧
      xml_text.get (some v) = if b then "1" else "0" := by
  simp only [SetBoolean]
  generalize (if (self.m_cellNode.attribute "t").isNone then
        self.m_cellNode.append_attribute "t" else self.m_cellNode) = n1
  obtain ⟨v, hv, -⟩ := ensure_child_v n1
  refine ⟨(xml_text.set_int v (if b then 1 else 0)).set_attribute_value "xml:space" "default",
    ?_, ?_⟩
  · rw [on_child_child _ _ (fun v => v.set_attribute_value "xml:space" "default") (fun m => rfl),
      on_child_child _ _ _ (fun m => set_int_name m _),
      set_attribute_value_child, hv]
    rfl
  · rw [text_get_set_attribute_value, xml_text.set_int, text_get_assign]
    cases b <;> rfl

end XLCellValue

end OpenXLSX

/-! ## Round trips of the direct setters -/

namespace OpenXLSX

open pugi

/-- C2. String round trip: for every string `s` without an embedded NUL character and every
prior state of the cell node, after `Set(s)` the type attribute is `t="str"`, `ValueType()`
returns `String` and `GetString()` succeeds and returns `s`. -/
theorem Set_string_round_trip (self : XLCellValue) (s : String) (h : '\x00' ∉ s.data) :
    (self.Set_string s).m_cellNode.attribute "t" = some ⟨"t", "str"⟩ ∧
    (self.Set_string s).ValueType = XLValueType.String ∧
    (self.Set_string s).GetString = .ok s := by
  obtain ⟨v, hv, hget⟩ := XLCellValue.Set_child_v self s
  have ht := XLCellValue.Set_attribute_t self s
  rw [strcpy_insitu_of_not_mem s h] at hget
  have hvt : (self.Set s).ValueType = XLValueType.String := by
    simp [XLCellValue.ValueType, XLCellValue.CellType, ht, hv, xml_attribute.value, deref]
  refine ⟨ht, hvt, ?_⟩
  simp [XLCellValue.Set_string, XLCellValue.GetString, hvt, ht, hv, xml_attribute.value, hget]

/-- Witness for C2: a number-like string written over a shared-string cell. -/
theorem Set_string_round_trip_witness :
    '\x00' ∉ "1.5".data ∧
    ((XLCellValue.mk ⟨"c", [⟨"r", "A1"⟩, ⟨"t", "s"⟩], [.node_element "v" [] [.node_pcdata "0"]]⟩
        ⟨["Hello"]⟩).Set_string "1.5").GetString = .ok "1.5" :=
  ⟨by decide, (Set_string_round_trip _ "1.5" (by decide)).2.2⟩

/-- C3. Boolean round trip: for every boolean `b` and every prior state of the cell node,
after `SetBoolean(b)` the type attribute is `t="b"`, the value text is `"1"` for true and
`"0"` for false, `ValueType()` returns `Boolean` and `GetBoolean()` succeeds and returns
`b`. -/
theorem SetBoolean_round_trip (self : XLCellValue) (b : Bool) :
    (self.SetBoolean b).m_cellNode.attribute "t" = some ⟨"t", "b"⟩ ∧
    xml_text.get ((self.SetBoolean b).m_cellNode.child "v") = (if b then "1" else "0") ∧
    ((self.SetBoolean b).m_cellNode.child "v").isSome ∧
    (self.SetBoolean b).ValueType = XLValueType.Boolean ∧
    (self.SetBoolean b).GetBoolean = .ok b := by
  obtain ⟨v, hv, hget⟩ := XLCellValue.SetBoolean_child_v self b
  have ht := XLCellValue.SetBoolean_attribute_t self b
  have hvt : (self.SetBoolean b).ValueType = XLValueType.Boolean := by
    simp [XLCellValue.ValueType, XLCellValue.CellType, ht, hv, xml_attribute.value, deref]
  refine ⟨ht, by rw [hv, hget], by simp [hv], hvt, ?_⟩
  simp only [XLCellValue.GetBoolean, hvt, ne_eq, not_true_eq_false, if_false, hv,
    xml_text.as_bool, hget]
  cases b <;> rfl

end OpenXLSX

/-! ## Clear -/

namespace OpenXLSX

open pugi

/-- C4 fails on the code: on `<c><v>1</v><v>2</v></c>` the call `Clear()` unlinks the first
`<v>` only, so afterwards `CellType()` returns `Number` and a second `Clear()` changes the
node again; on `<c t="b" t="b"/>` it unlinks the first `t` only and `CellType()` returns
`Boolean`. -/
theorem Clear_leaves_second_value_node :
    (XLCellValue.mk ⟨"c", [], [.node_element "v" [] [.node_pcdata "1"],
      .node_element "v" [] [.node_pcdata "2"]]⟩ ⟨[]⟩).Clear.m_cellNode
      = ⟨"c", [], [.node_element "v" [] [.node_pcdata "2"]]⟩ ∧
    (XLCellValue.mk ⟨"c", [], [.node_element "v" [] [.node_pcdata "1"],
      .node_element "v" [] [.node_pcdata "2"]]⟩ ⟨[]⟩).Clear.CellType = XLCellType.Number ∧
    (XLCellValue.mk ⟨"c", [], [.node_element "v" [] [.node_pcdata "1"],
      .node_element "v" [] [.node_pcdata "2"]]⟩ ⟨[]⟩).Clear.Clear.m_cellNode
      = ⟨"c", [], []⟩ ∧
    (XLCellValue.mk ⟨"c", [⟨"t", "b"⟩, ⟨"t", "b"⟩], []⟩ ⟨[]⟩).Clear.m_cellNode
      = ⟨"c", [⟨"t", "b"⟩], []⟩ ∧
    (XLCellValue.mk ⟨"c", [⟨"t", "b"⟩, ⟨"t", "b"⟩], []⟩ ⟨[]⟩).Clear.CellType
      = XLCellType.Boolean := by
  refine ⟨rfl, by decide, rfl, rfl, by decide⟩

/-- C4, amended. `Clear()` resets to Empty and is idempotent: for every prior state of the
cell node with at most one type attribute `t` and at most one value child `v`, after
`Clear()` the node has neither a value node nor a type attribute, `CellType()` and
`ValueType()` return `Empty`, and a second `Clear()` leaves exactly the same node. -/
theorem Clear_resets_and_is_idempotent (self : XLCellValue)
    (ht : self.m_cellNode.attribute_at_most_once "t")
    (hv : self.m_cellNode.child_at_most_once "v") :
    self.Clear.m_cellNode.child "v" = none ∧
    self.Clear.m_cellNode.attribute "t" = none ∧
    self.Clear.CellType = XLCellType.Empty ∧
    self.Clear.ValueType = XLValueType.Empty ∧
    self.Clear.Clear = self.Clear := by
  have h1 : self.Clear.m_cellNode.child "v" = none :=
    find_child_erase "v" self.m_cellNode.children hv
  have h2 : self.Clear.m_cellNode.attribute "t" = none :=
    find_attribute_erase "t" self.m_cellNode.attributes ht
  have h3 : self.Clear.CellType = XLCellType.Empty := by
    simp [XLCellValue.CellType, h1, h2]
  refine ⟨h1, h2, h3, by simp [XLCellValue.ValueType, h3], ?_⟩
  have e1 := erase_child_of_none "v" _ h1
  have e2 := erase_attribute_of_none "t" _ h2
  simp only [XLCellValue.Clear, xml_node.remove_child, xml_node.remove_attribute] at e1 e2 ⊢
  simp only [e1, e2]

/-- Witness for the amended C4: a boolean cell with other attributes and surrounding white
space. -/
theorem Clear_resets_and_is_idempotent_witness :
    (pugi.xml_node.mk "c" [⟨"r", "B2"⟩, ⟨"t", "b"⟩, ⟨"s", "3"⟩]
      [.node_pcdata " ", .node_element "v" [] [.node_pcdata "1"]]).attribute_at_most_once "t" ∧
    (pugi.xml_node.mk "c" [⟨"r", "B2"⟩, ⟨"t", "b"⟩, ⟨"s", "3"⟩]
      [.node_pcdata " ", .node_element "v" [] [.node_pcdata "1"]]).child_at_most_once "v" ∧
    (XLCellValue.mk ⟨"c", [⟨"r", "B2"⟩, ⟨"t", "b"⟩, ⟨"s", "3"⟩],
        [.node_pcdata " ", .node_element "v" [] [.node_pcdata "1"]]⟩ ⟨[]⟩).Clear.ValueType
      = XLValueType.Empty ∧
    (XLCellValue.mk ⟨"c", [⟨"r", "B2"⟩, ⟨"t", "b"⟩, ⟨"s", "3"⟩],
        [.node_pcdata " ", .node_element "v" [] [.node_pcdata "1"]]⟩ ⟨[]⟩).Clear.Clear
      = (XLCellValue.mk ⟨"c", [⟨"r", "B2"⟩, ⟨"t", "b"⟩, ⟨"s", "3"⟩],
        [.node_pcdata " ", .node_element "v" [] [.node_pcdata "1"]]⟩ ⟨[]⟩).Clear :=
  ⟨by decide, by decide,
    (Clear_resets_and_is_idempotent (XLCellValue.mk ⟨"c", [⟨"r", "B2"⟩, ⟨"t", "b"⟩, ⟨"s", "3"⟩],
        [.node_pcdata " ", .node_element "v" [] [.node_pcdata "1"]]⟩ ⟨[]⟩)
      (by decide) (by decide)).2.2.2.1,
    (Clear_resets_and_is_idempotent (XLCellValue.mk ⟨"c", [⟨"r", "B2"⟩, ⟨"t", "b"⟩, ⟨"s", "3"⟩],
        [.node_pcdata " ", .node_element "v" [] [.node_pcdata "1"]]⟩ ⟨[]⟩)
      (by decide) (by decide)).2.2.2.2⟩

end OpenXLSX

/-! ## Decimal numerals: printing and parsing -/

namespace pugi

theorem digit_toNat (d : Nat) (h : d < 10) : (Char.ofNat (48 + d)).toNat = 48 + d := by
  interval_cases d <;> rfl

theorem digit_is_decimal_digit (d : Nat) (h : d < 10) :
    is_decimal_digit (Char.ofNat (48 + d)) = true := by
  simp only [is_decimal_digit, digit_toNat d h]
  simp
  omega

theorem loop_append (room rest : Nat) (buf : List Char) :
    integer_to_string_loop room rest buf = integer_to_string_loop room rest [] ++ buf := by
  induction room generalizing rest buf with
  | zero => simp [integer_to_string_loop]
  | succ room ih =>
    simp only [integer_to_string_loop]
    split
    · simp
    · rw [ih (rest / 10) (Char.ofNat (48 + rest % 10) :: buf),
        ih (rest / 10) [Char.ofNat (48 + rest % 10)]]
      simp

theorem loop_small (room rest : Nat) (h : rest < 10) :
    integer_to_string_loop (room + 1) rest [] = [Char.ofNat (48 + rest)] := by
  have h1 : rest / 10 = 0 := by omega
  have h2 : rest % 10 = rest := by omega
  simp [integer_to_string_loop, h1, h2]

theorem loop_large (room rest : Nat) (h : 10 ≤ rest) :
    integer_to_string_loop (room + 1) rest [] =
      integer_to_string_loop room (rest / 10) [] ++ [Char.ofNat (48 + rest % 10)] := by
  have h1 : ¬ rest / 10 = 0 := by omega
  simp only [integer_to_string_loop, h1, if_false]
  exact loop_append _ _ _

/-- Every character the printing loop writes is a decimal digit. -/
theorem loop_all_digits (room rest : Nat) :
    ∀ c ∈ integer_to_string_loop room rest [], is_decimal_digit c = true := by
  induction room generalizing rest with
  | zero => simp [integer_to_string_loop]
  | succ room ih =>
    by_cases h : rest < 10
    · rw [loop_small room rest h]
      intro c hc
      simp only [List.mem_singleton] at hc
      subst hc
      exact digit_is_decimal_digit rest h
    · rw [loop_large room rest (by omega)]
      intro c hc
      simp only [List.mem_append, List.mem_singleton] at hc
      rcases hc with hc | hc
      · exact ih _ c hc
      · subst hc
        exact digit_is_decimal_digit _ (Nat.mod_lt _ (by decide))

/-- A positive number is printed with a leading digit other than zero. -/
theorem loop_head (room rest : Nat) (hpos : 0 < rest) (h : rest < 10 ^ room) :
    ∃ c l, integer_to_string_loop room rest [] = c :: l ∧ is_decimal_digit c = true ∧ c ≠ '0' := by
  induction room generalizing rest with
  | zero => simp at h; omega
  | succ room ih =>
    by_cases hs : rest < 10
    · refine ⟨Char.ofNat (48 + rest), [], loop_small room rest hs,
        digit_is_decimal_digit rest hs, ?_⟩
      intro e
      have := congrArg Char.toNat e
      rw [digit_toNat rest hs] at this
      have h0 : ('0' : Char).toNat = 48 := rfl
      omega
    · have hdiv : rest / 10 < 10 ^ room := by
        rw [Nat.div_lt_iff_lt_mul (by decide)]
        rw [pow_succ] at h
        exact h
      obtain ⟨c, l, hl, hc, hc0⟩ := ih (rest / 10) (by omega) hdiv
      refine ⟨c, l ++ [Char.ofNat (48 + rest % 10)], ?_, hc, hc0⟩
      rw [loop_large room rest (by omega), hl]
      rfl

/-- A number below `10 ^ k` is printed with at most `k` digits. -/
theorem loop_length_le (room k rest : Nat) (hk : 0 < k) (h : rest < 10 ^ k) :
    (integer_to_string_loop room rest []).length ≤ k := by
  induction room generalizing rest k with
  | zero => simp [integer_to_string_loop]
  | succ room ih =>
    by_cases hs : rest < 10
    · rw [loop_small room rest hs]
      simpa using hk
    · rw [loop_large room rest (by omega)]
      obtain ⟨j, rfl⟩ : ∃ j, k = j + 1 := ⟨k - 1, by omega⟩
      have hj : 0 < j := by
        rcases Nat.eq_zero_or_pos j with h0 | h0
        · subst h0
          simp at h
          omega
        · exact h0
      have hdiv : rest / 10 < 10 ^ j := by
        rw [Nat.div_lt_iff_lt_mul (by decide)]
        rw [pow_succ] at h
        exact h
      have := ih j (rest / 10) hj hdiv
      simp only [List.length_append, List.length_singleton]
      omega

/-- Reading back what the printing loop wrote: the accumulator is shifted by the number of
digits and the printed number is added, as long as the sum stays below `2 ^ 64`. -/
theorem decimal_loop_loop (room rest : Nat) (tail : List Char) (r k : Nat)
    (h : rest < 10 ^ room)
    (hr : r * 10 ^ (integer_to_string_loop room rest []).length + rest < 2 ^ 64) :
    decimal_loop (integer_to_string_loop room rest [] ++ tail) r k =
      decimal_loop tail (r * 10 ^ (integer_to_string_loop room rest []).length + rest)
        (k + (integer_to_string_loop room rest []).length) := by
  induction room generalizing rest tail r k with
  | zero =>
    simp at h
    subst h
    simp [integer_to_string_loop]
  | succ room ih =>
    by_cases hs : rest < 10
    · rw [loop_small room rest hs] at hr ⊢
      simp only [List.length_singleton, pow_one] at hr
      simp only [List.singleton_append, decimal_loop, digit_is_decimal_digit rest hs, if_true,
        digit_toNat rest hs, List.length_singleton, pow_one]
      rw [Nat.add_sub_cancel_left, Nat.mod_eq_of_lt hr]
      rfl
    · rw [loop_large room rest (by omega)] at hr ⊢
      have hdiv : rest / 10 < 10 ^ room := by
        rw [Nat.div_lt_iff_lt_mul (by decide)]
        rw [pow_succ] at h
        exact h
      generalize hL : (integer_to_string_loop room (rest / 10) []).length = L at hr
      simp only [List.length_append, List.length_singleton, hL] at hr ⊢
      rw [show (10 : ℕ) ^ (L + 1) = 10 ^ L * 10 from pow_succ 10 L] at hr ⊢
      have hdm := Nat.div_add_mod rest 10
      have hd := Nat.mod_lt rest (show 0 < 10 by decide)
      have e : (r * 10 ^ L + rest / 10) * 10 + rest % 10 = r * (10 ^ L * 10) + rest := by
        rw [Nat.add_mul, Nat.mul_assoc, Nat.add_assoc]
        congr 1
        omega
      have hr' : r * 10 ^ L + rest / 10 < 2 ^ 64 := by
        rw [← e] at hr
        omega
      have hih := ih (rest / 10) (Char.ofNat (48 + rest % 10) :: tail) r k hdiv (by rw [hL]; exact hr')
      rw [hL] at hih
      rw [List.append_assoc, List.singleton_append, hih]
      simp only [decimal_loop, digit_is_decimal_digit _ hd, if_true, digit_toNat _ hd]
      rw [Nat.add_sub_cancel_left, e, Nat.mod_eq_of_lt hr, Nat.add_assoc]

theorem decimal_digit_facts (c : Char) (h : is_decimal_digit c = true) :
    is_space c = false ∧ (c == '-') = false ∧ (c == '+') = false := by
  refine ⟨?_, ?_, ?_⟩
  · cases hs : is_space c with
    | false => rfl
    | true =>
      simp only [is_space, Bool.or_eq_true, beq_iff_eq] at hs
      rcases hs with ((hs | hs) | hs) | hs <;> subst hs <;> revert h <;> decide
  · cases hs : (c == '-') with
    | false => rfl
    | true =>
      simp only [beq_iff_eq] at hs
      subst hs
      revert h
      decide
  · cases hs : (c == '+') with
    | false => rfl
    | true =>
      simp only [beq_iff_eq] at hs
      subst hs
      revert h
      decide

/-- The parser on a numeral without sign that starts with a digit other than zero: base 10
is selected and no character is skipped before the accumulation loop. -/
theorem string_to_integer_unsigned (c : Char) (l : List Char) (minv maxv : Nat)
    (hc : is_decimal_digit c = true) (h0 : c ≠ '0') :
    string_to_integer ⟨c :: l⟩ minv maxv =
      if (decide ((decimal_loop (c :: l) 0 0).2 ≥ 20) &&
          !((decimal_loop (c :: l) 0 0).2 == 20 && (decide (c.toNat < 49) ||
            (c == '1' && (decimal_loop (c :: l) 0 0).1 >>> 63 != 0))))
          || decide ((decimal_loop (c :: l) 0 0).1 > maxv)
      then maxv else (decimal_loop (c :: l) 0 0).1 := by
  obtain ⟨h1, h2, h3⟩ := decimal_digit_facts c hc
  have h4 : (c == '0') = false := by simpa using h0
  simp only [string_to_integer, List.dropWhile_cons, h1, List.headD_cons, h2, h3, h4,
    Bool.or_self, Bool.false_and, Bool.false_eq_true, if_false]

/-- The parser on a numeral with a minus sign followed by a digit other than zero. -/
theorem string_to_integer_negative (c : Char) (l : List Char) (minv maxv : Nat)
    (h0 : c ≠ '0') :
    string_to_integer ⟨'-' :: c :: l⟩ minv maxv =
      if (decide ((decimal_loop (c :: l) 0 0).2 ≥ 20) &&
          !((decimal_loop (c :: l) 0 0).2 == 20 && (decide (c.toNat < 49) ||
            (c == '1' && (decimal_loop (c :: l) 0 0).1 >>> 63 != 0))))
          || decide ((decimal_loop (c :: l) 0 0).1 > minv)
      then (2 ^ 64 - minv) % 2 ^ 64 else (2 ^ 64 - (decimal_loop (c :: l) 0 0).1) % 2 ^ 64 := by
  have h4 : (c == '0') = false := by simpa using h0
  have hs : is_space '-' = false := by decide
  simp only [string_to_integer, List.dropWhile_cons, hs, List.headD_cons, h4, beq_self_eq_true,
    Bool.or_true, List.tail_cons, Bool.false_and, Bool.false_eq_true, if_false, if_true]

theorem decimal_loop_printed (m : Nat) (h : m < 2 ^ 64) :
    decimal_loop (integer_to_string_loop 64 m []) 0 0 =
      (m, (integer_to_string_loop 64 m []).length) := by
  have h64 : m < 10 ^ 64 := lt_of_lt_of_le h (by norm_num)
  have := decimal_loop_loop 64 m [] 0 0 h64 (by simpa using h)
  simpa [decimal_loop] using this

/-- Unsigned numerals of fewer than twenty digits parse to the number printed, clamped to
`maxv`. -/
theorem string_to_integer_printed (m minv maxv : Nat) (hpos : 0 < m) (h : m < 10 ^ 19) :
    string_to_integer ⟨integer_to_string_loop 64 m []⟩ minv maxv =
      if m > maxv then maxv else m := by
  have h64 : m < 10 ^ 64 := lt_of_lt_of_le h (by norm_num)
  have h2 : m < 2 ^ 64 := lt_of_lt_of_le h (by norm_num)
  obtain ⟨c, l, hl, hc, hc0⟩ := loop_head 64 m hpos h64
  have hlen := loop_length_le 64 19 m (by decide) h
  have hd := decimal_loop_printed m h2
  rw [hl] at hd hlen
  rw [hl, string_to_integer_unsigned c l minv maxv hc hc0, hd]
  have : ¬ 19 ≤ l.length := by
    simp only [List.length_cons] at hlen
    omega
  simp [this]

/-- Numerals with a minus sign and fewer than twenty digits parse to the two's complement
of the number printed, clamped to `0 - minv`. -/
theorem string_to_integer_printed_negative (m minv maxv : Nat) (hpos : 0 < m)
    (h : m < 10 ^ 19) :
    string_to_integer ⟨'-' :: integer_to_string_loop 64 m []⟩ minv maxv =
      if m > minv then (2 ^ 64 - minv) % 2 ^ 64 else (2 ^ 64 - m) % 2 ^ 64 := by
  have h64 : m < 10 ^ 64 := lt_of_lt_of_le h (by norm_num)
  have h2 : m < 2 ^ 64 := lt_of_lt_of_le h (by norm_num)
  obtain ⟨c, l, hl, hc, hc0⟩ := loop_head 64 m hpos h64
  have hlen := loop_length_le 64 19 m (by decide) h
  have hd := decimal_loop_printed m h2
  rw [hl] at hd hlen
  rw [hl, string_to_integer_negative c l minv maxv hc0, hd]
  have : ¬ 19 ≤ l.length := by
    simp only [List.length_cons] at hlen
    omega
  simp [this]

/-- The text `xml_text::set(long long)` stores for a signed 64-bit argument: an optional
minus sign and the digits of the absolute value. -/
theorem integer_to_string_llong (n : Int) (hlo : -2 ^ 63 ≤ n) (hhi : n < 2 ^ 63) :
    integer_to_string 64 (n % 2 ^ 64).toNat (decide (n < 0)) =
      ⟨if n < 0 then '-' :: integer_to_string_loop 64 n.natAbs []
        else integer_to_string_loop 64 n.natAbs []⟩ := by
  by_cases hn : n < 0
  · have hv : (n % 2 ^ 64).toNat = 2 ^ 64 - n.natAbs := by omega
    have hrest : (2 ^ 64 - (2 ^ 64 - n.natAbs) % 2 ^ 64) % 2 ^ 64 = n.natAbs := by omega
    simp only [integer_to_string, hn, decide_True, if_true, hv, hrest]
  · have hv : (n % 2 ^ 64).toNat = n.natAbs := by omega
    have hrest : n.natAbs % 2 ^ 64 = n.natAbs := by omega
    simp only [integer_to_string, hn, decide_False, Bool.false_eq_true, if_false, hv, hrest]

/-- Reading a stored signed 64-bit integer back with `as_llong` returns it. -/
theorem as_llong_printed (v : xml_node) (n : Int) (hlo : -2 ^ 63 ≤ n) (hhi : n < 2 ^ 63)
    (hv : xml_text.get (some v) = integer_to_string 64 (n % 2 ^ 64).toNat (decide (n < 0))) :
    xml_text.as_llong (some v) = n := by
  rw [integer_to_string_llong n hlo hhi] at hv
  simp only [xml_text.as_llong, hv]
  rcases lt_trichotomy n 0 with hn | hn | hn
  · have hm : 0 < n.natAbs := by omega
    have hm19 : n.natAbs < 10 ^ 19 := by
      have : n.natAbs ≤ 2 ^ 63 := by omega
      exact lt_of_le_of_lt this (by norm_num)
    simp only [hn, if_true]
    rw [string_to_integer_printed_negative n.natAbs _ _ hm hm19]
    have h1 : ¬ n.natAbs > 2 ^ 63 := by omega
    simp only [h1, if_false]
    have h2 : (2 ^ 64 - n.natAbs) % 2 ^ 64 = 2 ^ 64 - n.natAbs := by omega
    rw [h2]
    have h3 : ¬ (2 ^ 64 - n.natAbs < 2 ^ 63) := by omega
    simp only [h3, if_false]
    omega
  · subst hn
    rfl
  · have hm : 0 < n.natAbs := by omega
    have hm19 : n.natAbs < 10 ^ 19 := by
      have : n.natAbs < 2 ^ 63 := by omega
      exact lt_trans this (by norm_num)
    have hneg : ¬ n < 0 := by omega
    simp only [hneg, if_false]
    rw [string_to_integer_printed n.natAbs _ _ hm hm19]
    have h1 : ¬ n.natAbs > 2 ^ 63 - 1 := by omega
    simp only [h1, if_false]
    have h3 : n.natAbs < 2 ^ 63 := by omega
    simp only [h3, if_true]
    omega

theorem loop_step (room rest : Nat) (buf : List Char) :
    integer_to_string_loop (room + 1) rest buf =
      if rest / 10 = 0 then Char.ofNat (48 + rest % 10) :: buf
      else integer_to_string_loop room (rest / 10) (Char.ofNat (48 + rest % 10) :: buf) := rfl

/-- The number of free buffer characters does not matter once it suffices. -/
theorem loop_room (f g n : Nat) (buf : List Char) (hf : n < 10 ^ (f + 1))
    (hg : n < 10 ^ (g + 1)) :
    integer_to_string_loop (f + 1) n buf = integer_to_string_loop (g + 1) n buf := by
  induction f generalizing g n buf with
  | zero =>
    have h1 : n / 10 = 0 := by
      simp at hf
      omega
    simp [integer_to_string_loop, h1]
  | succ f ih =>
    by_cases h1 : n / 10 = 0
    · simp [integer_to_string_loop, h1]
    · have hdf : n / 10 < 10 ^ (f + 1) := by
        rw [Nat.div_lt_iff_lt_mul (by decide)]
        rw [pow_succ] at hf
        exact hf
      cases g with
      | zero =>
        simp at hg
        omega
      | succ g =>
        have hdg : n / 10 < 10 ^ (g + 1) := by
          rw [Nat.div_lt_iff_lt_mul (by decide)]
          rw [pow_succ] at hg
          exact hg
        have := ih g (n / 10) (Char.ofNat (48 + n % 10) :: buf) hdf hdg
        rw [loop_step (f + 1), loop_step (g + 1)]
        simp only [h1, if_false]
        exact this

theorem digitChar_eq (d : Nat) (h : d < 10) : Nat.digitChar d = Char.ofNat (48 + d) := by
  interval_cases d <;> rfl

theorem toDigitsCore_eq_loop (fuel n : Nat) (buf : List Char) :
    Nat.toDigitsCore 10 fuel n buf = integer_to_string_loop fuel n buf := by
  induction fuel generalizing n buf with
  | zero => rfl
  | succ fuel ih =>
    simp only [Nat.toDigitsCore, integer_to_string_loop,
      digitChar_eq (n % 10) (Nat.mod_lt _ (by decide)), ih]

/-- The canonical decimal numeral of a number below `2 ^ 64` is what the printing loop of
the XML library writes. -/
theorem repr_eq_loop (n : Nat) (h : n < 2 ^ 64) :
    Nat.repr n = ⟨integer_to_string_loop 64 n []⟩ := by
  have h1 : n < 10 ^ (n + 1) :=
    lt_trans (Nat.lt_pow_self (by decide) n) (Nat.pow_lt_pow_right (by decide) (Nat.lt_succ_self n))
  have h2 : n < 10 ^ (63 + 1) := lt_of_lt_of_le h (by norm_num)
  simp only [Nat.repr, Nat.toDigits, toDigitsCore_eq_loop, List.asString]
  rw [loop_room n 63 n [] h1 h2]

/-- A number between `10 ^ k` and `2 * 10 ^ k` is printed as the digit one followed by `k`
digits. -/
theorem loop_leading_one (k room m : Nat) (hlo : 10 ^ k ≤ m) (hhi : m < 2 * 10 ^ k)
    (hroom : k < room) :
    ∃ l, integer_to_string_loop room m [] = '1' :: l ∧ l.length = k := by
  induction k generalizing room m with
  | zero =>
    obtain ⟨r, rfl⟩ : ∃ r, room = r + 1 := ⟨room - 1, by omega⟩
    have hm : m = 1 := by
      simp at hlo hhi
      omega
    subst hm
    exact ⟨[], loop_small r 1 (by decide), rfl⟩
  | succ k ih =>
    obtain ⟨r, rfl⟩ : ∃ r, room = r + 1 := ⟨room - 1, by omega⟩
    have h10 : 10 ≤ m := by
      have : 1 ≤ 10 ^ k := Nat.one_le_pow _ _ (by decide)
      rw [pow_succ] at hlo
      omega
    have hlo' : 10 ^ k ≤ m / 10 := by
      rw [Nat.le_div_iff_mul_le (by decide)]
      rw [pow_succ] at hlo
      exact hlo
    have hhi' : m / 10 < 2 * 10 ^ k := by
      rw [Nat.div_lt_iff_lt_mul (by decide)]
      rw [pow_succ] at hhi
      omega
    obtain ⟨l, hl, hlen⟩ := ih r (m / 10) hlo' hhi' (by omega)
    refine ⟨l ++ [Char.ofNat (48 + m % 10)], ?_, by simp [hlen]⟩
    rw [loop_large r m h10, hl]
    rfl

/-- Unsigned numerals of twenty digits below `2 ^ 64` pass the overflow test of the parser
and parse to the number printed. -/
theorem string_to_integer_printed_twenty (m : Nat) (hlo : 10 ^ 19 ≤ m) (hhi : m < 2 ^ 64) :
    string_to_integer ⟨integer_to_string_loop 64 m []⟩ 0 (2 ^ 64 - 1) = m := by
  obtain ⟨l, hl, hlen⟩ := loop_leading_one 19 64 m hlo
    (lt_of_lt_of_le hhi (by norm_num)) (by decide)
  have hd := decimal_loop_printed m hhi
  rw [hl] at hd
  rw [hl, string_to_integer_unsigned '1' l 0 (2 ^ 64 - 1) (by decide) (by decide), hd]
  have hshift : m >>> 63 ≠ 0 := by
    rw [Nat.shiftRight_eq_div_pow]
    have : 2 ^ 63 ≤ m := le_trans (by norm_num) hlo
    have := Nat.div_pos this (by norm_num : 0 < 2 ^ 63)
    omega
  have hmax : ¬ m > 2 ^ 64 - 1 := by omega
  simp [hlen, hshift]
  omega

/-- Reading the canonical decimal numeral of an unsigned 64-bit index with `as_ullong`
returns the index. -/
theorem as_ullong_repr (v : Option xml_node) (i : Nat) (hi : i < 2 ^ 64)
    (hv : xml_text.get v = Nat.repr i) : xml_text.as_ullong v = i := by
  simp only [xml_text.as_ullong, hv, repr_eq_loop i hi]
  rcases Nat.eq_zero_or_pos i with h0 | hpos
  · subst h0
    rfl
  · by_cases h19 : i < 10 ^ 19
    · rw [string_to_integer_printed i _ _ hpos h19]
      have : ¬ i > 2 ^ 64 - 1 := by omega
      simp only [this, if_false]
    · exact string_to_integer_printed_twenty i (by omega) hi

end pugi

/-! ## Integers: the node after `SetInteger` and what the getters read from it -/

namespace OpenXLSX

open pugi

theorem string_find_of_not_mem (c : Char) (p s : List Char) (h : c ∉ s) :
    string_find (c :: p) s = none := by
  induction s with
  | nil => simp [string_find]
  | cons d s ih =>
    have hd : c ≠ d := fun e => h (by simp [e])
    have hs : c ∉ s := fun e => h (by simp [e])
    simp [string_find, List.isPrefixOf, hd, ih hs]

/-- A text made of a minus sign and decimal digits is an `Integer` numeral for
`DetermineNumberType`. -/
theorem DetermineNumberType_of_digits (s : String)
    (h : ∀ c ∈ s.data, c = '-' ∨ is_decimal_digit c = true) :
    XLCellValue.DetermineNumberType s = XLNumberType.Integer := by
  have notin : ∀ x : Char, x ≠ '-' → is_decimal_digit x = false → x ∉ s.data := by
    intro x hx hd hmem
    rcases h x hmem with e | e
    · exact hx e
    · rw [hd] at e
      cases e
  have h1 := string_find_of_not_mem '.' [] s.data (notin '.' (by decide) (by decide))
  have h2 := string_find_of_not_mem 'E' ['-'] s.data (notin 'E' (by decide) (by decide))
  have h3 := string_find_of_not_mem 'e' ['-'] s.data (notin 'e' (by decide) (by decide))
  simp [XLCellValue.DetermineNumberType, h1, h2, h3]

theorem integer_to_string_chars (bits value : Nat) (negative : Bool) :
    ∀ c ∈ (integer_to_string bits value negative).data, c = '-' ∨ is_decimal_digit c = true := by
  intro c hc
  simp only [integer_to_string] at hc
  split at hc
  · simp only [List.mem_cons] at hc
    rcases hc with hc | hc
    · exact Or.inl hc
    · exact Or.inr (loop_all_digits _ _ c hc)
  · exact Or.inr (loop_all_digits _ _ c hc)

namespace XLCellValue

theorem SetInteger_attribute_t (self : XLCellValue) (n : Int)
    (ht : self.m_cellNode.attribute_at_most_once "t") :
    (self.SetInteger n).m_cellNode.attribute "t" = none := by
  simp only [SetInteger]
  rw [on_child_attribute, on_child_attribute]
  have : (if (self.m_cellNode.child "v").isNone then self.m_cellNode.append_child "v"
      else self.m_cellNode).attributes = self.m_cellNode.attributes := by
    split <;> rfl
  simp only [xml_node.remove_attribute, xml_node.attribute, this]
  exact find_attribute_erase "t" _ ht

theorem SetInteger_child_v (self : XLCellValue) (n : Int) :
    ∃ v, (self.SetInteger n).m_cellNode.child "v" = some v ∧
      xml_text.get (some v) = integer_to_string 64 (n % 2 ^ 64).toNat (decide (n < 0)) := by
  simp only [SetInteger]
  obtain ⟨v, hv, -⟩ := ensure_child_v self.m_cellNode
  refine ⟨(xml_text.set_llong v n).set_attribute_value "xml:space" "default", ?_, ?_⟩
  · rw [on_child_child _ _ (fun v => v.set_attribute_value "xml:space" "default") (fun m => rfl),
      on_child_child _ _ _ (fun m => set_llong_name m _), remove_attribute_child, hv]
    rfl
  · rw [text_get_set_attribute_value, xml_text.set_llong, text_get_assign]

end XLCellValue

/-- C1 fails on the code: the cell `<c t="b" t="b"><v>1</v></c>` carries the type attribute
twice; `SetInteger(5)` unlinks the first one only, so afterwards `ValueType()` returns
`Boolean` and `GetInteger()` fails with the type-mismatch error. -/
theorem SetInteger_duplicate_type_attribute :
    ((XLCellValue.mk ⟨"c", [⟨"t", "b"⟩, ⟨"t", "b"⟩], [.node_element "v" [] [.node_pcdata "1"]]⟩
      ⟨[]⟩).SetInteger 5).m_cellNode
      = ⟨"c", [⟨"t", "b"⟩], [.node_element "v" [] [.node_pcdata "5"]]⟩ ∧
    ((XLCellValue.mk ⟨"c", [⟨"t", "b"⟩, ⟨"t", "b"⟩], [.node_element "v" [] [.node_pcdata "1"]]⟩
      ⟨[]⟩).SetInteger 5).ValueType = XLValueType.Boolean ∧
    ((XLCellValue.mk ⟨"c", [⟨"t", "b"⟩, ⟨"t", "b"⟩], [.node_element "v" [] [.node_pcdata "1"]]⟩
      ⟨[]⟩).SetInteger 5).GetInteger = .error (.XLException "Cell value is not Integer") := by
  refine ⟨rfl, by decide, rfl⟩

/-- C1, amended. Integer round trip: for every signed 64-bit integer `n` and every prior
state of the cell node that carries the type attribute `t` at most once (Empty, Number,
Boolean, String or Error encoded), after `SetInteger(n)` `ValueType()` returns `Integer` and
`GetInteger()` succeeds and returns `n`. -/
theorem SetInteger_round_trip (self : XLCellValue) (n : Int)
    (hlo : -2 ^ 63 ≤ n) (hhi : n < 2 ^ 63)
    (ht : self.m_cellNode.attribute_at_most_once "t") :
    (self.SetInteger n).ValueType = XLValueType.Integer ∧
    (self.SetInteger n).GetInteger = .ok n := by
  obtain ⟨v, hv, hget⟩ := XLCellValue.SetInteger_child_v self n
  have hattr := XLCellValue.SetInteger_attribute_t self n ht
  have hnum : XLCellValue.DetermineNumberType (xml_text.get (some v)) = XLNumberType.Integer := by
    rw [hget]
    exact DetermineNumberType_of_digits _ (integer_to_string_chars _ _ _)
  have hvt : (self.SetInteger n).ValueType = XLValueType.Integer := by
    simp [XLCellValue.ValueType, XLCellValue.CellType, hattr, hv, hnum]
  refine ⟨hvt, ?_⟩
  simp only [XLCellValue.GetInteger, hvt, ne_eq, not_true_eq_false, if_false, hv]
  rw [as_llong_printed v n hlo hhi hget]

/-- Witness for the amended C1: the least 64-bit integer written over a boolean cell. -/
theorem SetInteger_round_trip_witness :
    (-2 ^ 63 ≤ (-9223372036854775808 : Int)) ∧ ((-9223372036854775808 : Int) < 2 ^ 63) ∧
    (pugi.xml_node.mk "c" [⟨"r", "A1"⟩, ⟨"t", "b"⟩]
      [.node_element "v" [] [.node_pcdata "1"]]).attribute_at_most_once "t" ∧
    ((XLCellValue.mk ⟨"c", [⟨"r", "A1"⟩, ⟨"t", "b"⟩], [.node_element "v" [] [.node_pcdata "1"]]⟩
        ⟨[]⟩).SetInteger (-9223372036854775808)).GetInteger = .ok (-9223372036854775808) :=
  ⟨by decide, by decide, by decide,
    (SetInteger_round_trip _ (-9223372036854775808) (by decide) (by decide) (by decide)).2⟩

end OpenXLSX

/-! ## Typed getters: the type check -/

namespace OpenXLSX

open pugi

/-- The shared-string lookup fails with `std::out_of_range` only. -/
theorem XLSharedStrings.GetString_ne_XLException (t : XLSharedStrings) (index : Nat)
    (what : String) : t.GetString index ≠ .error (.XLException what) := by
  unfold XLSharedStrings.GetString
  split <;> simp

/-- C5. Type mismatch raises-iff: for every cell node state, `GetInteger()` fails with the
type-mismatch error (`"Cell value is not Integer"`) exactly when `ValueType()` is not
`Integer`, `GetFloat()` exactly when it is not `Float`, `GetBoolean()` exactly when it is not
`Boolean`, `GetString()` exactly when it is not `String`; on an Empty cell (no type
attribute, no value node) all four getters fail with their type-mismatch error. -/
theorem getters_type_mismatch_iff {F : Type} (as_double : String → F) (self : XLCellValue) :
    (self.GetInteger = .error (.XLException "Cell value is not Integer") ↔
      self.ValueType ≠ XLValueType.Integer) ∧
    (self.GetFloat as_double = .error (.XLException "Cell value is not Float") ↔
      self.ValueType ≠ XLValueType.Float) ∧
    (self.GetBoolean = .error (.XLException "Cell value is not Boolean") ↔
      self.ValueType ≠ XLValueType.Boolean) ∧
    (self.GetString = .error (.XLException "Cell value is not String") ↔
      self.ValueType ≠ XLValueType.String) ∧
    (self.m_cellNode.attribute "t" = none → self.m_cellNode.child "v" = none →
      self.GetInteger = .error (.XLException "Cell value is not Integer") ∧
      self.GetFloat as_double = .error (.XLException "Cell value is not Float") ∧
      self.GetBoolean = .error (.XLException "Cell value is not Boolean") ∧
      self.GetString = .error (.XLException "Cell value is not String")) := by
  refine ⟨?_, ?_, ?_, ?_, ?_⟩
  · unfold XLCellValue.GetInteger
    split <;> simp_all
  · unfold XLCellValue.GetFloat
    split <;> simp_all
  · unfold XLCellValue.GetBoolean
    split <;> simp_all
  · unfold XLCellValue.GetString
    split
    · simp_all
    · rename_i h
      have h' : self.ValueType = XLValueType.String := by simpa using h
      simp only [h', ne_eq, not_true_eq_false, iff_false]
      split
      · simp
      · split
        · exact XLSharedStrings.GetString_ne_XLException _ _ _
        · simp only [Except.error.injEq, Exception.XLException.injEq]
          decide
  · intro ht hv
    have hvt : self.ValueType = XLValueType.Empty := by
      simp [XLCellValue.ValueType, XLCellValue.CellType, ht, hv]
    simp [XLCellValue.GetInteger, XLCellValue.GetFloat, XLCellValue.GetBoolean,
      XLCellValue.GetString, hvt]

end OpenXLSX

namespace OpenXLSX

open pugi

/-- Witness for C5: the four getters on an empty cell `<c r="A1"/>`. -/
theorem getters_type_mismatch_iff_witness :
    (XLCellValue.mk ⟨"c", [⟨"r", "A1"⟩], []⟩ ⟨[]⟩).GetInteger
        = .error (.XLException "Cell value is not Integer") ∧
    (XLCellValue.mk ⟨"c", [⟨"r", "A1"⟩], []⟩ ⟨[]⟩).GetFloat String.length
        = .error (.XLException "Cell value is not Float") ∧
    (XLCellValue.mk ⟨"c", [⟨"r", "A1"⟩], []⟩ ⟨[]⟩).GetBoolean
        = .error (.XLException "Cell value is not Boolean") ∧
    (XLCellValue.mk ⟨"c", [⟨"r", "A1"⟩], []⟩ ⟨[]⟩).GetString
        = .error (.XLException "Cell value is not String") :=
  (getters_type_mismatch_iff String.length
    (XLCellValue.mk ⟨"c", [⟨"r", "A1"⟩], []⟩ ⟨[]⟩)).2.2.2.2 rfl rfl

end OpenXLSX

/-! ## Classification by type code -/

namespace OpenXLSX

open pugi

/-- C6 fails on the code: the type codes of `<c t="sx"><v>0</v></c>` and
`<c t="shared"><v>0</v></c>` are none of `"s"`, `"inlineStr"`, `"str"`, and `CellType()`
returns `String` for both cells, not `Error`. -/
theorem CellType_String_not_by_exact_code :
    ("sx" ≠ "s" ∧ "sx" ≠ "inlineStr" ∧ "sx" ≠ "str") ∧
    (XLCellValue.mk ⟨"c", [⟨"t", "sx"⟩], [.node_element "v" [] [.node_pcdata "0"]]⟩
      ⟨[]⟩).CellType = XLCellType.String ∧
    ("shared" ≠ "s" ∧ "shared" ≠ "inlineStr" ∧ "shared" ≠ "str") ∧
    (XLCellValue.mk ⟨"c", [⟨"t", "shared"⟩], [.node_element "v" [] [.node_pcdata "0"]]⟩
      ⟨[]⟩).CellType = XLCellType.String := by
  decide

/-- C6, amended. String classification is by first character: for every cell node state,
`CellType()` returns `String` if and only if the type attribute is present and its value
begins with `s` (as `"s"` and `"str"` do, and `"sx"` or `"shared"` too) or equals
`"inlineStr"`; a present type-attribute value that begins with none of `n`, `s`, `b` and is
not `"inlineStr"` is classified `Error`. -/
theorem CellType_String_iff (self : XLCellValue) :
    (self.CellType = XLCellType.String ↔
      ∃ a, self.m_cellNode.attribute "t" = some a ∧
        (deref a.value = 's' ∨ a.value = "inlineStr")) ∧
    (∀ a, self.m_cellNode.attribute "t" = some a → deref a.value ≠ 'n' →
      deref a.value ≠ 's' → deref a.value ≠ 'b' → a.value ≠ "inlineStr" →
      self.CellType = XLCellType.Error) := by
  have hstr : deref "str" = 's' := rfl
  have hinl : deref "inlineStr" = 'i' := rfl
  constructor
  · cases ht : self.m_cellNode.attribute "t" with
    | none =>
      cases hv : self.m_cellNode.child "v" <;> simp [XLCellValue.CellType, ht, hv]
    | some a =>
      simp only [XLCellValue.CellType, ht, xml_attribute.value, Option.isNone_some,
        Option.isSome_some, Bool.false_and, Bool.false_or, Bool.true_and, Bool.false_eq_true,
        if_false, beq_iff_eq, Bool.and_eq_true, Option.some.injEq, exists_eq_left']
      by_cases hs : deref a.value = 's'
      · have hn : ¬ deref a.value = 'n' := by rw [hs]; decide
        simp [hs, hn]
      · by_cases hi : a.value = "inlineStr"
        · have hn : ¬ deref "inlineStr" = 'n' := by rw [hinl]; decide
          have hs' : ¬ deref "inlineStr" = 's' := by rw [hinl]; decide
          simp [hi, hn, hs']
        · by_cases hst : a.value = "str"
          · exact absurd (by rw [hst, hstr]) hs
          · simp only [hs, hi, hst, if_false, or_self, iff_false]
            split
            · simp
            · split <;> simp
  · intro a ht hn hs hb hi
    have hst : ¬ a.value = "str" := by
      intro e
      exact hs (by rw [e, hstr])
    simp [XLCellValue.CellType, ht, xml_attribute.value, hn, hs, hb, hi, hst]

/-- Witness for the amended C6: the error cell `<c t="e"><v>#DIV/0!</v></c>` is classified
`Error`, and `<c t="str"><v>abc</v></c>` is classified `String`. -/
theorem CellType_String_iff_witness :
    (XLCellValue.mk ⟨"c", [⟨"t", "e"⟩], [.node_element "v" [] [.node_pcdata "#DIV/0!"]]⟩
      ⟨[]⟩).CellType = XLCellType.Error ∧
    (XLCellValue.mk ⟨"c", [⟨"t", "str"⟩], [.node_element "v" [] [.node_pcdata "abc"]]⟩
      ⟨[]⟩).CellType = XLCellType.String :=
  ⟨(CellType_String_iff (XLCellValue.mk ⟨"c", [⟨"t", "e"⟩],
      [.node_element "v" [] [.node_pcdata "#DIV/0!"]]⟩ ⟨[]⟩)).2 ⟨"t", "e"⟩ rfl
      (by decide) (by decide) (by decide) (by decide),
   (CellType_String_iff (XLCellValue.mk ⟨"c", [⟨"t", "str"⟩],
      [.node_element "v" [] [.node_pcdata "abc"]]⟩ ⟨[]⟩)).1.mpr
      ⟨⟨"t", "str"⟩, rfl, Or.inl rfl⟩⟩

/-- C7 fails on the code: the inline-string cell
`<c t="inlineStr"><is><t>Hi</t></is></c>` has `ValueType() == String`, and `GetString()`
leaves with the unknown-string-type error. -/
theorem GetString_inlineStr_unknown_string_type :
    (XLCellValue.mk ⟨"c", [⟨"t", "inlineStr"⟩],
        [.node_element "is" [] [.node_element "t" [] [.node_pcdata "Hi"]]]⟩
      ⟨[]⟩).ValueType = XLValueType.String ∧
    (XLCellValue.mk ⟨"c", [⟨"t", "inlineStr"⟩],
        [.node_element "is" [] [.node_element "t" [] [.node_pcdata "Hi"]]]⟩
      ⟨[]⟩).GetString = .error (.XLException "Unknown string type") := by
  constructor
  · decide
  · rfl

/-- C7, amended: for every cell node state for which `ValueType()` returns `String`,
`GetString()` fails with the unknown-string-type error exactly when the type attribute is
neither `"str"` nor `"s"`; a cell whose type attribute is `"inlineStr"` is such a cell. -/
theorem GetString_unknown_string_type_iff (self : XLCellValue)
    (h : self.ValueType = XLValueType.String) :
    (self.GetString = .error (.XLException "Unknown string type") ↔
      xml_attribute.value (self.m_cellNode.attribute "t") ≠ "str" ∧
      xml_attribute.value (self.m_cellNode.attribute "t") ≠ "s") := by
  have hne := XLSharedStrings.GetString_ne_XLException self.m_sharedStrings
    (xml_text.as_ullong (self.m_cellNode.child "v")) "Unknown string type"
  simp only [XLCellValue.GetString, h, ne_eq, not_true_eq_false, if_false]
  by_cases h1 : xml_attribute.value (self.m_cellNode.attribute "t") = "str"
  · simp [h1]
  · by_cases h2 : xml_attribute.value (self.m_cellNode.attribute "t") = "s"
    · have e : ¬ ("s" = "str") := by decide
      simp only [h2, e, if_false, if_true, hne, not_true_eq_false, and_false]
    · simp [h1, h2]

/-- Witness for the amended C7: the inline-string cell
`<c t="inlineStr"><is><t>Hi</t></is></c>`. -/
theorem GetString_unknown_string_type_iff_witness :
    (XLCellValue.mk ⟨"c", [⟨"t", "inlineStr"⟩],
        [.node_element "is" [] [.node_element "t" [] [.node_pcdata "Hi"]]]⟩
      ⟨[]⟩).ValueType = XLValueType.String ∧
    ((XLCellValue.mk ⟨"c", [⟨"t", "inlineStr"⟩],
        [.node_element "is" [] [.node_element "t" [] [.node_pcdata "Hi"]]]⟩
      ⟨[]⟩).GetString = .error (.XLException "Unknown string type") ↔
      xml_attribute.value ((XLCellValue.mk ⟨"c", [⟨"t", "inlineStr"⟩],
        [.node_element "is" [] [.node_element "t" [] [.node_pcdata "Hi"]]]⟩
      ⟨[]⟩).m_cellNode.attribute "t") ≠ "str" ∧
      xml_attribute.value ((XLCellValue.mk ⟨"c", [⟨"t", "inlineStr"⟩],
        [.node_element "is" [] [.node_element "t" [] [.node_pcdata "Hi"]]]⟩
      ⟨[]⟩).m_cellNode.attribute "t") ≠ "s") :=
  ⟨by decide, GetString_unknown_string_type_iff
    (XLCellValue.mk ⟨"c", [⟨"t", "inlineStr"⟩],
        [.node_element "is" [] [.node_element "t" [] [.node_pcdata "Hi"]]]⟩ ⟨[]⟩)
    (by decide)⟩

/-- C8 fails on the code: the cell `<c t="bx"><v>0</v></c>` has `ValueType() == Boolean`
and the value text `"0"`, and `AsString()` returns the raw text `"0"`, not `"FALSE"`. -/
theorem AsString_Boolean_raw_text :
    (XLCellValue.mk ⟨"c", [⟨"t", "bx"⟩], [.node_element "v" [] [.node_pcdata "0"]]⟩
      ⟨[]⟩).ValueType = XLValueType.Boolean ∧
    xml_text.get ((XLCellValue.mk ⟨"c", [⟨"t", "bx"⟩],
      [.node_element "v" [] [.node_pcdata "0"]]⟩ ⟨[]⟩).m_cellNode.child "v") = "0" ∧
    (XLCellValue.mk ⟨"c", [⟨"t", "bx"⟩], [.node_element "v" [] [.node_pcdata "0"]]⟩
      ⟨[]⟩).AsString = .ok "0" := by
  refine ⟨by decide, by decide, rfl⟩

/-- C8, amended. Boolean display: for every cell node state whose type attribute is exactly
`"b"`, `ValueType()` returns `Boolean` and `AsString()` returns `"FALSE"` when the value
text is exactly `"0"` and `"TRUE"` for any other value text. -/
theorem AsString_Boolean_display (self : XLCellValue)
    (h : xml_attribute.value (self.m_cellNode.attribute "t") = "b") :
    self.ValueType = XLValueType.Boolean ∧
    self.AsString =
      .ok (if xml_text.get (self.m_cellNode.child "v") = "0" then "FALSE" else "TRUE") := by
  have e1 : ¬ ("" = "b") := by decide
  constructor
  · cases ht : self.m_cellNode.attribute "t" with
    | none =>
      rw [ht] at h
      simp only [xml_attribute.value, e1] at h
    | some a =>
      rw [ht] at h
      simp only [xml_attribute.value] at h
      simp [XLCellValue.ValueType, XLCellValue.CellType, ht, xml_attribute.value, h, deref]
  · simp only [XLCellValue.AsString, h, if_true]
    split <;> rfl

/-- Witness for the amended C8: the cells `<c t="b"><v>0</v></c>` and
`<c t="b"><v>1</v></c>`. -/
theorem AsString_Boolean_display_witness :
    (XLCellValue.mk ⟨"c", [⟨"t", "b"⟩], [.node_element "v" [] [.node_pcdata "0"]]⟩
      ⟨[]⟩).AsString = .ok "FALSE" ∧
    (XLCellValue.mk ⟨"c", [⟨"t", "b"⟩], [.node_element "v" [] [.node_pcdata "1"]]⟩
      ⟨[]⟩).AsString = .ok "TRUE" :=
  ⟨(AsString_Boolean_display (XLCellValue.mk ⟨"c", [⟨"t", "b"⟩],
      [.node_element "v" [] [.node_pcdata "0"]]⟩ ⟨[]⟩) rfl).2,
   (AsString_Boolean_display (XLCellValue.mk ⟨"c", [⟨"t", "b"⟩],
      [.node_element "v" [] [.node_pcdata "1"]]⟩ ⟨[]⟩) rfl).2⟩

/-- C10 fails on the code: the cell `<c t=""><v>7</v></c>`, a value node together with a
type attribute whose value is the empty string, has `CellType() == Error`, not `Number`. -/
theorem empty_type_attribute_classified_Error :
    ((XLCellValue.mk ⟨"c", [⟨"t", ""⟩], [.node_element "v" [] [.node_pcdata "7"]]⟩
      ⟨[]⟩).m_cellNode.child "v").isSome = true ∧
    (XLCellValue.mk ⟨"c", [⟨"t", ""⟩], [.node_element "v" [] [.node_pcdata "7"]]⟩
      ⟨[]⟩).m_cellNode.attribute "t" = some ⟨"t", ""⟩ ∧
    (XLCellValue.mk ⟨"c", [⟨"t", ""⟩], [.node_element "v" [] [.node_pcdata "7"]]⟩
      ⟨[]⟩).CellType = XLCellType.Error := by
  decide

/-- C10, amended: for every cell node state in which a value node is present, `CellType()`
returns `Number` when the type attribute is absent or has the value `"n"`, and returns
`Error` (so `ValueType()` is `Error`) when the type attribute is present with the empty
string as its value. -/
theorem CellType_empty_type_attribute (self : XLCellValue)
    (hv : (self.m_cellNode.child "v").isSome = true) :
    (self.m_cellNode.attribute "t" = none → self.CellType = XLCellType.Number) ∧
    (∀ a, self.m_cellNode.attribute "t" = some a → a.value = "n" →
      self.CellType = XLCellType.Number) ∧
    (∀ a, self.m_cellNode.attribute "t" = some a → a.value = "" →
      self.CellType = XLCellType.Error ∧ self.ValueType = XLValueType.Error) := by
  obtain ⟨v, hv⟩ := Option.isSome_iff_exists.mp hv
  refine ⟨?_, ?_, ?_⟩
  · intro ht
    simp [XLCellValue.CellType, ht, hv]
  · intro a ht ha
    simp [XLCellValue.CellType, ht, hv, xml_attribute.value, ha, deref]
  · intro a ht ha
    have hc : self.CellType = XLCellType.Error := by
      simp [XLCellValue.CellType, ht, hv, xml_attribute.value, ha, deref]
    exact ⟨hc, by simp [XLCellValue.ValueType, hc]⟩

/-- Witness for the amended C10: the cell `<c t=""><v>7</v></c>`. -/
theorem CellType_empty_type_attribute_witness :
    ((XLCellValue.mk ⟨"c", [⟨"t", ""⟩], [.node_element "v" [] [.node_pcdata "7"]]⟩
      ⟨[]⟩).m_cellNode.child "v").isSome = true ∧
    (XLCellValue.mk ⟨"c", [⟨"t", ""⟩], [.node_element "v" [] [.node_pcdata "7"]]⟩
      ⟨[]⟩).ValueType = XLValueType.Error :=
  ⟨rfl, ((CellType_empty_type_attribute (XLCellValue.mk ⟨"c", [⟨"t", ""⟩],
    [.node_element "v" [] [.node_pcdata "7"]]⟩ ⟨[]⟩) rfl).2.2 ⟨"t", ""⟩ rfl rfl).2⟩

end OpenXLSX

/-! ## Shared strings -/

namespace OpenXLSX

open pugi

/-- C9. Shared-string resolution: for every shared-string table `T` and every index `i` in
range for `T` (an unsigned 64-bit index), a cell node whose type attribute is `"s"` and
whose value text is the decimal numeral of `i` has `ValueType() == String` and
`GetString() == T[i]`. -/
theorem shared_string_resolution (self : XLCellValue) (i : Nat) (a : xml_attribute_struct)
    (hi : i < self.m_sharedStrings.strings.length) (h64 : i < 2 ^ 64)
    (ht : self.m_cellNode.attribute "t" = some a) (ha : a.value = "s")
    (hv : xml_text.get (self.m_cellNode.child "v") = Nat.repr i) :
    self.ValueType = XLValueType.String ∧
    self.GetString = .ok (self.m_sharedStrings.strings.get ⟨i, hi⟩) := by
  have hvt : self.ValueType = XLValueType.String := by
    simp [XLCellValue.ValueType, XLCellValue.CellType, ht, xml_attribute.value, ha, deref]
  refine ⟨hvt, ?_⟩
  have hne : ¬ ("s" = "str") := by decide
  have hidx := as_ullong_repr (self.m_cellNode.child "v") i h64 hv
  simp only [XLCellValue.GetString, hvt, ne_eq, not_true_eq_false, if_false, ht,
    xml_attribute.value, ha, hne, if_true, hidx, XLSharedStrings.GetString]
  rw [List.get?_eq_get hi]

/-- Witness for C9: the table `{0: "Hello"}` and the cell `<c t="s"><v>0</v></c>`. -/
theorem shared_string_resolution_witness :
    (XLCellValue.mk ⟨"c", [⟨"t", "s"⟩], [.node_element "v" [] [.node_pcdata "0"]]⟩
      ⟨["Hello"]⟩).ValueType = XLValueType.String ∧
    (XLCellValue.mk ⟨"c", [⟨"t", "s"⟩], [.node_element "v" [] [.node_pcdata "0"]]⟩
      ⟨["Hello"]⟩).GetString = .ok "Hello" :=
  shared_string_resolution
    (XLCellValue.mk ⟨"c", [⟨"t", "s"⟩], [.node_element "v" [] [.node_pcdata "0"]]⟩ ⟨["Hello"]⟩)
    0 ⟨"t", "s"⟩ (by decide) (by decide) rfl rfl rfl

end OpenXLSX

/-! ## Classification: numbers, empty cells and cells without a value node -/

namespace OpenXLSX

open pugi

theorem deref_eq_iff (s : String) (c : Char) (hc : c ≠ '\x00') :
    deref s = c ↔ s.data.head? = some c := by
  unfold deref
  cases s.data with
  | nil =>
    simp only [List.headD_nil, List.head?_nil]
    constructor
    · intro h
      exact absurd h.symm hc
    · intro h
      cases h
  | cons d l => simp

/-- `CellType()` on a cell that carries a type attribute, branch by branch. -/
theorem CellType_of_some (self : XLCellValue) (a : xml_attribute_struct)
    (ht : self.m_cellNode.attribute "t" = some a) :
    self.CellType =
      if deref a.value = 'n' ∧ (self.m_cellNode.child "v").isSome then XLCellType.Number
      else if deref a.value = 's' then XLCellType.String
      else if a.value = "inlineStr" then XLCellType.String
      else if a.value = "str" then XLCellType.String
      else if deref a.value = 'b' then XLCellType.Boolean
      else XLCellType.Error := by
  simp [XLCellValue.CellType, ht, xml_attribute.value]

/-- `CellType()` on a cell without a type attribute. -/
theorem CellType_of_none (self : XLCellValue) (ht : self.m_cellNode.attribute "t" = none) :
    self.CellType =
      if (self.m_cellNode.child "v").isSome then XLCellType.Number else XLCellType.Empty := by
  cases hv : self.m_cellNode.child "v" <;> simp [XLCellValue.CellType, ht, hv]

/-- C14. Number classification: for every cell node state, `CellType()` returns `Number` if
and only if a value node is present and the type attribute is either absent or has a value
whose first character is `n`; and `CellType()` returns `Empty` if and only if both the type
attribute and the value node are absent. -/
theorem CellType_Number_iff (self : XLCellValue) :
    (self.CellType = XLCellType.Number ↔
      (self.m_cellNode.child "v").isSome = true ∧
        (self.m_cellNode.attribute "t" = none ∨
          ∃ a, self.m_cellNode.attribute "t" = some a ∧ a.value.data.head? = some 'n')) ∧
    (self.CellType = XLCellType.Empty ↔
      self.m_cellNode.attribute "t" = none ∧ self.m_cellNode.child "v" = none) := by
  cases ht : self.m_cellNode.attribute "t" with
  | none =>
    rw [CellType_of_none self ht]
    cases hv : self.m_cellNode.child "v" <;> simp
  | some a =>
    have hd := deref_eq_iff a.value 'n' (by decide)
    simp only [Option.some.injEq, exists_eq_left', reduceCtorEq, false_or, ← hd]
    rw [CellType_of_some self a ht]
    have hstr : deref "str" = 's' := rfl
    have hinl : deref "inlineStr" = 'i' := rfl
    constructor
    · by_cases hn : deref a.value = 'n'
      · cases hv : self.m_cellNode.child "v" with
        | some v => simp [hn]
        | none =>
          have h1 : ¬ deref a.value = 's' := by rw [hn]; decide
          have h2 : ¬ deref a.value = 'b' := by rw [hn]; decide
          have h3 : ¬ a.value = "inlineStr" := fun e => by rw [e, hinl] at hn; revert hn; decide
          have h4 : ¬ a.value = "str" := fun e => by rw [e, hstr] at hn; revert hn; decide
          simp [hn, h1, h2, h3, h4]
      · simp only [hn, false_and, if_false, and_false, iff_false]
        split
        · simp
        · split
          · simp
          · split
            · simp
            · split <;> simp
    · simp only [false_and, iff_false]
      split
      · simp
      · split
        · simp
        · split
          · simp
          · split
            · simp
            · split <;> simp

/-- C20. A type attribute without a value node is never `Empty` and never `Number`: for
every cell node state in which the type attribute is present and the value node is absent,
`CellType()` returns `String` when the attribute value starts with `s` or equals
`"inlineStr"`, `Boolean` when it starts with `b`, and `Error` otherwise; a number-coded
cell (type attribute `"n"`) with no value node is classified `Error`, and `ValueType()` is
then `Error` as well. -/
theorem CellType_without_value_node (self : XLCellValue) (a : xml_attribute_struct)
    (ht : self.m_cellNode.attribute "t" = some a) (hv : self.m_cellNode.child "v" = none) :
    self.CellType =
      (if a.value.data.head? = some 's' ∨ a.value = "inlineStr" then XLCellType.String
        else if a.value.data.head? = some 'b' then XLCellType.Boolean
        else XLCellType.Error) ∧
    self.CellType ≠ XLCellType.Empty ∧
    self.CellType ≠ XLCellType.Number ∧
    (a.value = "n" → self.CellType = XLCellType.Error ∧ self.ValueType = XLValueType.Error) := by
  have hstr : deref "str" = 's' := rfl
  have hc := CellType_of_some self a ht
  simp only [hv, Option.isSome_none, Bool.false_eq_true, and_false, if_false] at hc
  have hds := deref_eq_iff a.value 's' (by decide)
  have hdb := deref_eq_iff a.value 'b' (by decide)
  simp only [← hds, ← hdb]
  have key : self.CellType =
      (if deref a.value = 's' ∨ a.value = "inlineStr" then XLCellType.String
        else if deref a.value = 'b' then XLCellType.Boolean
        else XLCellType.Error) := by
    rw [hc]
    by_cases h1 : deref a.value = 's'
    · simp [h1]
    · by_cases h2 : a.value = "inlineStr"
      · simp [h1, h2]
      · have h3 : ¬ a.value = "str" := fun e => h1 (by rw [e, hstr])
        simp [h1, h2, h3]
  refine ⟨key, ?_, ?_, ?_⟩
  · rw [key]
    split
    · simp
    · split <;> simp
  · rw [key]
    split
    · simp
    · split <;> simp
  · intro hn
    have e : self.CellType = XLCellType.Error := by
      rw [key, hn]
      decide
    exact ⟨e, by simp [XLCellValue.ValueType, e]⟩

/-- Witness for C20: the cell `<c t="n"/>`. -/
theorem CellType_without_value_node_witness :
    (XLCellValue.mk ⟨"c", [⟨"t", "n"⟩], []⟩ ⟨[]⟩).m_cellNode.attribute "t" = some ⟨"t", "n"⟩ ∧
    (XLCellValue.mk ⟨"c", [⟨"t", "n"⟩], []⟩ ⟨[]⟩).m_cellNode.child "v" = none ∧
    (XLCellValue.mk ⟨"c", [⟨"t", "n"⟩], []⟩ ⟨[]⟩).CellType = XLCellType.Error ∧
    (XLCellValue.mk ⟨"c", [⟨"t", "n"⟩], []⟩ ⟨[]⟩).ValueType = XLValueType.Error :=
  ⟨rfl, rfl,
    (CellType_without_value_node (XLCellValue.mk ⟨"c", [⟨"t", "n"⟩], []⟩ ⟨[]⟩) ⟨"t", "n"⟩
      rfl rfl).2.2.2 rfl⟩

end OpenXLSX

/-! ## The integer/float discriminator -/

namespace OpenXLSX

open pugi

theorem string_find_isSome_iff (p s : List Char) : (string_find p s).isSome = true ↔ p <:+: s := by
  induction s with
  | nil =>
    cases p with
    | nil => simp [string_find]
    | cons c p => simp [string_find]
  | cons c s ih =>
    rw [List.infix_cons_iff, ← ih, ← List.isPrefixOf_iff_prefix]
    simp only [string_find]
    split
    · rename_i h
      simp [h]
    · rename_i h
      simp [h]

theorem string_find_char_isSome_iff (c : Char) (s : List Char) :
    (string_find [c] s).isSome = true ↔ c ∈ s := by
  rw [string_find_isSome_iff]
  constructor
  · intro h
    exact h.subset (List.mem_singleton_self c)
  · intro h
    obtain ⟨l₁, l₂, rfl⟩ := List.append_of_mem h
    exact ⟨l₁, l₂, by simp⟩

/-- `DetermineNumberType` answers `Float` exactly for the texts with a decimal point or a
negative-exponent marker. -/
theorem DetermineNumberType_Float_iff (s : String) :
    XLCellValue.DetermineNumberType s = XLNumberType.Float ↔
      has_decimal_point_or_negative_exponent s := by
  unfold XLCellValue.DetermineNumberType has_decimal_point_or_negative_exponent
  rw [← string_find_char_isSome_iff, ← string_find_isSome_iff, ← string_find_isSome_iff]
  split
  · rename_i h
    simp only [Bool.or_eq_true] at h
    simp only [true_iff]
    tauto
  · rename_i h
    simp only [Bool.or_eq_true, not_or] at h
    simp only [reduceCtorEq, false_iff]
    tauto

theorem DetermineNumberType_Integer_iff (s : String) :
    XLCellValue.DetermineNumberType s = XLNumberType.Integer ↔
      ¬ has_decimal_point_or_negative_exponent s := by
  rw [← DetermineNumberType_Float_iff]
  cases XLCellValue.DetermineNumberType s <;> simp

/-- C15. The Integer/Float discriminator is purely lexical: for every cell node state with
`CellType() == Number`, `ValueType()` returns `Integer` if and only if the value text
contains no `.` and neither `E-` nor `e-`, and `Float` otherwise; for the other cell types
`ValueType()` maps `Empty` to `Empty`, `Error` to `Error`, `Boolean` to `Boolean` and
`String` to `String`. -/
theorem ValueType_lexical (self : XLCellValue) :
    (self.CellType = XLCellType.Number →
      (self.ValueType = XLValueType.Integer ↔
        ¬ has_decimal_point_or_negative_exponent (xml_text.get (self.m_cellNode.child "v"))) ∧
      (self.ValueType = XLValueType.Float ↔
        has_decimal_point_or_negative_exponent (xml_text.get (self.m_cellNode.child "v")))) ∧
    (self.CellType = XLCellType.Empty → self.ValueType = XLValueType.Empty) ∧
    (self.CellType = XLCellType.Error → self.ValueType = XLValueType.Error) ∧
    (self.CellType = XLCellType.Boolean → self.ValueType = XLValueType.Boolean) ∧
    (self.CellType = XLCellType.String → self.ValueType = XLValueType.String) := by
  refine ⟨?_, ?_, ?_, ?_, ?_⟩
  · intro h
    rw [← DetermineNumberType_Integer_iff, ← DetermineNumberType_Float_iff]
    simp only [XLCellValue.ValueType, h]
    cases XLCellValue.DetermineNumberType (xml_text.get (self.m_cellNode.child "v")) <;> simp
  all_goals
    intro h
    simp [XLCellValue.ValueType, h]

/-- Witness for C15: number cells with the texts `1E+5`, the empty text, `1e-3` and `2.`. -/
theorem ValueType_lexical_witness :
    (XLCellValue.mk ⟨"c", [], [.node_element "v" [] [.node_pcdata "1E+5"]]⟩ ⟨[]⟩).ValueType
      = XLValueType.Integer ∧
    (XLCellValue.mk ⟨"c", [], [.node_element "v" [] []]⟩ ⟨[]⟩).ValueType
      = XLValueType.Integer ∧
    (XLCellValue.mk ⟨"c", [], [.node_element "v" [] [.node_pcdata "1e-3"]]⟩ ⟨[]⟩).ValueType
      = XLValueType.Float ∧
    (XLCellValue.mk ⟨"c", [], [.node_element "v" [] [.node_pcdata "2."]]⟩ ⟨[]⟩).ValueType
      = XLValueType.Float :=
  ⟨((ValueType_lexical (XLCellValue.mk ⟨"c", [], [.node_element "v" [] [.node_pcdata "1E+5"]]⟩
      ⟨[]⟩)).1 (by decide)).1.mpr (by
        simp only [has_decimal_point_or_negative_exponent]
        decide),
   ((ValueType_lexical (XLCellValue.mk ⟨"c", [], [.node_element "v" [] []]⟩
      ⟨[]⟩)).1 (by decide)).1.mpr (by
        simp only [has_decimal_point_or_negative_exponent]
        decide),
   ((ValueType_lexical (XLCellValue.mk ⟨"c", [], [.node_element "v" [] [.node_pcdata "1e-3"]]⟩
      ⟨[]⟩)).1 (by decide)).2.mpr (Or.inr (Or.inr ⟨['1'], ['3'], rfl⟩)),
   ((ValueType_lexical (XLCellValue.mk ⟨"c", [], [.node_element "v" [] [.node_pcdata "2."]]⟩
      ⟨[]⟩)).1 (by decide)).2.mpr (Or.inl (by decide))⟩

end OpenXLSX

/-! ## Reading booleans and strings -/

namespace OpenXLSX

open pugi

/-- C16 fails on the code: the boolean cells `<c t="b"><v>true</v></c>`,
`<c t="b"><v>10</v></c>` and `<c t="b"><v>yes</v></c>` have `ValueType() == Boolean` and a
value text other than `"1"`, and `GetBoolean()` returns true for each. -/
theorem GetBoolean_true_for_other_texts :
    (XLCellValue.mk ⟨"c", [⟨"t", "b"⟩], [.node_element "v" [] [.node_pcdata "true"]]⟩
      ⟨[]⟩).ValueType = XLValueType.Boolean ∧
    (XLCellValue.mk ⟨"c", [⟨"t", "b"⟩], [.node_element "v" [] [.node_pcdata "true"]]⟩
      ⟨[]⟩).GetBoolean = .ok true ∧
    (XLCellValue.mk ⟨"c", [⟨"t", "b"⟩], [.node_element "v" [] [.node_pcdata "10"]]⟩
      ⟨[]⟩).GetBoolean = .ok true ∧
    (XLCellValue.mk ⟨"c", [⟨"t", "b"⟩], [.node_element "v" [] [.node_pcdata "yes"]]⟩
      ⟨[]⟩).GetBoolean = .ok true := by
  refine ⟨by decide, rfl, rfl, rfl⟩

/-- C16, amended. `GetBoolean` reads the first character: for every cell node state with
`ValueType() == Boolean`, `GetBoolean()` succeeds, and it returns true if and only if the
value text begins with one of `1`, `t`, `T`, `y`, `Y`; any other text (for example `"0"`
or the empty text) returns false. -/
theorem GetBoolean_first_character (self : XLCellValue)
    (h : self.ValueType = XLValueType.Boolean) :
    ∃ b, self.GetBoolean = .ok b ∧
      (b = true ↔ ∃ c ∈ ['1', 't', 'T', 'y', 'Y'],
        (xml_text.get (self.m_cellNode.child "v")).data.head? = some c) := by
  refine ⟨xml_text.as_bool (self.m_cellNode.child "v"), by simp [XLCellValue.GetBoolean, h], ?_⟩
  simp only [xml_text.as_bool, get_value_bool, deref]
  cases (xml_text.get (self.m_cellNode.child "v")).data with
  | nil => simp
  | cons d l =>
    simp only [List.headD_cons, Bool.or_eq_true, beq_iff_eq, List.head?_cons, Option.some.injEq,
      List.mem_cons, List.mem_singleton, List.not_mem_nil, or_false]
    constructor
    · intro hd
      exact ⟨d, by tauto, rfl⟩
    · rintro ⟨c, hc, rfl⟩
      tauto

/-- Witness for the amended C16: the boolean cells `<c t="b"><v>0</v></c>` and
`<c t="b"><v>1</v></c>`. -/
theorem GetBoolean_first_character_witness :
    (XLCellValue.mk ⟨"c", [⟨"t", "b"⟩], [.node_element "v" [] [.node_pcdata "0"]]⟩
      ⟨[]⟩).ValueType = XLValueType.Boolean ∧
    ∃ b, (XLCellValue.mk ⟨"c", [⟨"t", "b"⟩], [.node_element "v" [] [.node_pcdata "0"]]⟩
      ⟨[]⟩).GetBoolean = .ok b ∧
      (b = true ↔ ∃ c ∈ ['1', 't', 'T', 'y', 'Y'],
        (xml_text.get ((XLCellValue.mk ⟨"c", [⟨"t", "b"⟩],
          [.node_element "v" [] [.node_pcdata "0"]]⟩ ⟨[]⟩).m_cellNode.child "v")).data.head?
          = some c) :=
  ⟨by decide, GetBoolean_first_character
    (XLCellValue.mk ⟨"c", [⟨"t", "b"⟩], [.node_element "v" [] [.node_pcdata "0"]]⟩ ⟨[]⟩)
    (by decide)⟩

/-- C19. `AsString` agrees with `GetString`: for every cell node state and shared-string
table for which `GetString()` succeeds, `AsString()` returns the same string. -/
theorem AsString_eq_GetString (self : XLCellValue) (s : String)
    (h : self.GetString = .ok s) : self.AsString = .ok s := by
  have e1 : ¬ ("str" = "b") := by decide
  have e2 : ¬ ("str" = "s") := by decide
  have e3 : ¬ ("s" = "b") := by decide
  unfold XLCellValue.GetString at h
  split at h
  · cases h
  · split at h
    · rename_i ht
      simp only [XLCellValue.AsString, ht, e1, e2, if_false]
      exact h
    · split at h
      · rename_i ht
        simp only [XLCellValue.AsString, ht, e3, if_false, if_true]
        exact h
      · cases h

/-- The conditions under which `GetString()` succeeds: `ValueType()` is `String` and the
type attribute is exactly `"str"`, or exactly `"s"` with an index inside the table. -/
theorem GetString_ok_iff (self : XLCellValue) :
    (∃ s, self.GetString = .ok s) ↔
      self.ValueType = XLValueType.String ∧
      (xml_attribute.value (self.m_cellNode.attribute "t") = "str" ∨
        (xml_attribute.value (self.m_cellNode.attribute "t") = "s" ∧
          xml_text.as_ullong (self.m_cellNode.child "v") < self.m_sharedStrings.strings.length))
    := by
  have e4 : ¬ ("s" = "str") := by decide
  unfold XLCellValue.GetString
  by_cases hv : self.ValueType = XLValueType.String
  · simp only [hv, ne_eq, not_true_eq_false, if_false, true_and]
    by_cases h1 : xml_attribute.value (self.m_cellNode.attribute "t") = "str"
    · simp [h1]
    · by_cases h2 : xml_attribute.value (self.m_cellNode.attribute "t") = "s"
      · simp only [h1, h2, if_false, if_true, false_or, true_and, e4,
          XLSharedStrings.GetString]
        constructor
        · rintro ⟨s, hs⟩
          by_contra hlt
          rw [List.get?_eq_none.mpr (by omega)] at hs
          cases hs
        · intro hlt
          exact ⟨_, by rw [List.get?_eq_get hlt]⟩
      · simp [h1, h2]
  · simp [hv]

/-- Witness for C19: the shared-string cell `<c t="s"><v>0</v></c>` with the table
`{0: "Hello"}`. -/
theorem AsString_eq_GetString_witness :
    (XLCellValue.mk ⟨"c", [⟨"t", "s"⟩], [.node_element "v" [] [.node_pcdata "0"]]⟩
      ⟨["Hello"]⟩).GetString = .ok "Hello" ∧
    (XLCellValue.mk ⟨"c", [⟨"t", "s"⟩], [.node_element "v" [] [.node_pcdata "0"]]⟩
      ⟨["Hello"]⟩).AsString = .ok "Hello" :=
  ⟨rfl, AsString_eq_GetString
    (XLCellValue.mk ⟨"c", [⟨"t", "s"⟩], [.node_element "v" [] [.node_pcdata "0"]]⟩ ⟨["Hello"]⟩)
    "Hello" rfl⟩

end OpenXLSX

/-! ## Copy assignment and the whitespace marker -/

namespace pugi

/-- On an element `set_value` changes nothing. -/
theorem set_value_element (n : xml_node) (rhs : String) : n.set_value rhs = n := by
  cases n
  rfl

/-- After `if (!n.child("v")) n.append_child("v")` the child exists and has the text the
handle `n.child("v")` had before. -/
theorem ensure_child_v_text (n : xml_node) :
    ∃ v, (if (n.child "v").isNone then n.append_child "v" else n).child "v" = some v
      ∧ xml_text.get (some v) = xml_text.get (n.child "v")
      ∧ (∀ nm, child_attribute (some v) nm = child_attribute (n.child "v") nm) := by
  cases h : n.child "v" with
  | none =>
    refine ⟨⟨"v", [], []⟩, ?_, rfl, fun nm => rfl⟩
    simp only [Option.isNone_none, if_true]
    have := find_child_append "v" "v" [] [] n.children h
    simpa [xml_node.child, xml_node.append_child, strcpy_insitu_v] using this
  | some v =>
    exact ⟨v, by simp [h], rfl, fun nm => rfl⟩

end pugi

namespace OpenXLSX

open pugi

/-- Copy assignment leaves the value text of the target as it was, whatever the source
holds: `set_value` is applied to the element `<v>`, which stores no value. -/
theorem operator_assign_keeps_value_text (self other : XLCellValue) :
    xml_text.get ((self.operator_assign other).m_cellNode.child "v") =
      xml_text.get (self.m_cellNode.child "v") := by
  simp only [XLCellValue.operator_assign]
  generalize hn1 : (if (self.m_cellNode.attribute "t").isNone then
        self.m_cellNode.append_attribute "t" else self.m_cellNode) = n1
  have hc : n1.child "v" = self.m_cellNode.child "v" := by
    rw [← hn1]
    exact ite_append_attribute_child _ _ _ _
  obtain ⟨v, hv, htext, -⟩ := ensure_child_v_text n1
  rw [set_attribute_value_child,
    on_child_child _ _ (fun v => v.set_attribute_value "xml:space" _) (fun m => rfl),
    on_child_child _ _ (fun v => v.set_value _) (fun m => by simp only [set_value_element]), hv]
  simp only [Option.map_some', set_value_element, text_get_set_attribute_value, htext, hc]

/-- C11, evaluated on the code: with the target `<c><v>1</v></c>` and the source
`<c><v xml:space="preserve">2</v></c>`, after `target = source` (copy or move) the target is
`<c t=""><v>1</v></c>`: its value text is still `"1"`, not the `"2"` of the source, and its
value node has no whitespace marker. -/
theorem operator_assign_value_text_not_copied :
    xml_text.get ((XLCellValue.mk ⟨"c", [], [.node_element "v" [] [.node_pcdata "2"]]⟩
      ⟨[]⟩).m_cellNode.child "v") = "2" ∧
    (XLCellValue.operator_assign
      (XLCellValue.mk ⟨"c", [], [.node_element "v" [] [.node_pcdata "1"]]⟩ ⟨[]⟩)
      (XLCellValue.mk ⟨"c", [],
        [.node_element "v" [⟨"xml:space", "preserve"⟩] [.node_pcdata "2"]]⟩ ⟨[]⟩)).m_cellNode
      = ⟨"c", [⟨"t", ""⟩], [.node_element "v" [] [.node_pcdata "1"]]⟩ ∧
    (XLCellValue.operator_assign_move
      (XLCellValue.mk ⟨"c", [], [.node_element "v" [] [.node_pcdata "1"]]⟩ ⟨[]⟩)
      (XLCellValue.mk ⟨"c", [],
        [.node_element "v" [⟨"xml:space", "preserve"⟩] [.node_pcdata "2"]]⟩ ⟨[]⟩)).m_cellNode
      = ⟨"c", [⟨"t", ""⟩], [.node_element "v" [] [.node_pcdata "1"]]⟩ := by
  refine ⟨rfl, rfl, rfl⟩

/-- C12, evaluated on the code: on the empty cell `<c r="A1"/>`, `SetInteger(5)`,
`SetBoolean(true)`, `SetFloat(0.5)` and `Set("a")` each leave a value node without any
`xml:space` attribute (the handle of the attribute is null and the store is ignored); and
on `<c><v xml:space="default">x</v></c>` the call `Set(" a ")` leaves the marker of the
value node at `"default"`, because `Set` addresses the attribute on the cell node. -/
theorem setters_do_not_write_missing_marker :
    child_attribute ((XLCellValue.SetInteger (XLCellValue.mk ⟨"c", [⟨"r", "A1"⟩], []⟩ ⟨[]⟩)
      5).m_cellNode.child "v") "xml:space" = none ∧
    child_attribute ((XLCellValue.SetBoolean (XLCellValue.mk ⟨"c", [⟨"r", "A1"⟩], []⟩ ⟨[]⟩)
      true).m_cellNode.child "v") "xml:space" = none ∧
    child_attribute ((XLCellValue.SetFloat (XLCellValue.mk ⟨"c", [⟨"r", "A1"⟩], []⟩ ⟨[]⟩)
      ⟨false, 1, -1⟩).m_cellNode.child "v") "xml:space" = none ∧
    child_attribute ((XLCellValue.Set (XLCellValue.mk ⟨"c", [⟨"r", "A1"⟩], []⟩ ⟨[]⟩)
      "a").m_cellNode.child "v") "xml:space" = none ∧
    child_attribute ((XLCellValue.Set (XLCellValue.mk ⟨"c", [],
      [.node_element "v" [⟨"xml:space", "default"⟩] [.node_pcdata "x"]]⟩ ⟨[]⟩)
      " a ").m_cellNode.child "v") "xml:space" = some ⟨"xml:space", "default"⟩ := by
  refine ⟨rfl, rfl, rfl, rfl, rfl⟩

/-- C17, evaluated on the code: on the cell `<c r="A1" xml:space="default"/>` the call
`Set("a")` rewrites the `xml:space` attribute of the cell node itself to `"preserve"`. -/
theorem Set_rewrites_cell_node_marker :
    (XLCellValue.mk ⟨"c", [⟨"r", "A1"⟩, ⟨"xml:space", "default"⟩], []⟩
      ⟨[]⟩).m_cellNode.attribute "xml:space" = some ⟨"xml:space", "default"⟩ ∧
    (XLCellValue.Set (XLCellValue.mk ⟨"c", [⟨"r", "A1"⟩, ⟨"xml:space", "default"⟩], []⟩ ⟨[]⟩)
      "a").m_cellNode
      = ⟨"c", [⟨"r", "A1"⟩, ⟨"xml:space", "preserve"⟩, ⟨"t", "str"⟩],
          [.node_element "v" [] [.node_pcdata "a"]]⟩ := by
  refine ⟨rfl, rfl⟩

end OpenXLSX

/-! ## The encoding table after a direct mutator -/

namespace OpenXLSX

open pugi

theorem loop_ne_nil (room rest : Nat) : integer_to_string_loop (room + 1) rest [] ≠ [] := by
  rw [loop_append, loop_step]
  split
  · simp
  · rw [loop_append]
    simp

/-- The text `SetInteger` stores is the canonical decimal numeral of the argument. -/
theorem integer_to_string_eq_repr (n : Int) (hlo : -2 ^ 63 ≤ n) (hhi : n < 2 ^ 63) :
    integer_to_string 64 (n % 2 ^ 64).toNat (decide (n < 0)) = Int.repr n := by
  rw [integer_to_string_llong n hlo hhi]
  cases n with
  | ofNat m =>
    have hcast : Int.ofNat m = (m : Int) := rfl
    rw [hcast] at hlo hhi ⊢
    have hm : m < 2 ^ 64 := by omega
    have hneg : ¬ ((m : Int) < 0) := by omega
    simp only [hneg, if_false, Int.natAbs_ofNat, ← repr_eq_loop m hm]
    rfl
  | negSucc m =>
    have hcast : Int.negSucc m = -((m : Int) + 1) := Int.negSucc_eq m
    have hm : m + 1 < 2 ^ 64 := by omega
    have hneg : Int.negSucc m < 0 := Int.negSucc_lt_zero m
    simp only [hneg, if_true, Int.repr, Int.natAbs_negSucc, Nat.succ_eq_add_one,
      repr_eq_loop (m + 1) hm]
    rfl

theorem is_numeral_text_digits (ds : List Char) (hne : ds ≠ [])
    (hall : ∀ c ∈ ds, is_decimal_digit c = true) :
    is_numeral_text ⟨ds⟩ = true ∧ is_numeral_text ⟨'-' :: ds⟩ = true := by
  obtain ⟨d, l, rfl⟩ := List.exists_cons_of_ne_nil hne
  have hd : is_decimal_digit d = true := hall d (by simp)
  obtain ⟨-, h2, h3⟩ := decimal_digit_facts d hd
  have hdrop : List.dropWhile is_decimal_digit (d :: l) = [] := by
    rw [List.dropWhile_eq_nil_iff]
    exact hall
  constructor
  · simp only [is_numeral_text, List.headD_cons, h2, h3, Bool.or_self, Bool.false_eq_true,
      if_false, hdrop, List.headD_nil, hd, Bool.true_and]
    rfl
  · simp only [is_numeral_text, List.headD_cons, beq_self_eq_true, Bool.true_or, if_true,
      List.tail_cons, hdrop, List.headD_nil, hd, Bool.true_and]
    rfl

/-- The text `SetInteger` stores is a numeral text. -/
theorem is_numeral_text_integer (bits value : Nat) (negative : Bool) :
    is_numeral_text (integer_to_string bits value negative) = true := by
  have h := is_numeral_text_digits
    (integer_to_string_loop 64
      (if negative = true then (2 ^ bits - value % 2 ^ bits) % 2 ^ bits else value % 2 ^ bits) [])
    (loop_ne_nil 63 _) (loop_all_digits 64 _)
  unfold integer_to_string
  cases negative
  · simpa using h.1
  · simpa using h.2

end OpenXLSX

namespace OpenXLSX

open pugi

theorem encoding_rows_of_empty (self : XLCellValue)
    (ht : self.m_cellNode.attribute "t" = none) (hv : self.m_cellNode.child "v" = none) :
    ∀ r, encoding_row_holds self r ↔ r = EncodingRow.Empty := by
  intro r
  cases r <;> simp [encoding_row_holds, ht, hv]

theorem encoding_rows_of_number (self : XLCellValue) (v : xml_node)
    (ht : self.m_cellNode.attribute "t" = none) (hv : self.m_cellNode.child "v" = some v)
    (hnum : is_numeral_text (xml_text.get (some v)) = true) :
    ∀ r, encoding_row_holds self r ↔ r = EncodingRow.Number := by
  intro r
  cases r <;> simp [encoding_row_holds, ht, hv, hnum]

theorem encoding_rows_of_boolean (self : XLCellValue) (v : xml_node)
    (ht : self.m_cellNode.attribute "t" = some ⟨"t", "b"⟩)
    (hv : self.m_cellNode.child "v" = some v)
    (htext : xml_text.get (some v) = "0" ∨ xml_text.get (some v) = "1") :
    ∀ r, encoding_row_holds self r ↔ r = EncodingRow.Boolean := by
  intro r
  cases r <;> simp [encoding_row_holds, ht, hv, htext]

theorem encoding_rows_of_str (self : XLCellValue) (v : xml_node)
    (ht : self.m_cellNode.attribute "t" = some ⟨"t", "str"⟩)
    (hv : self.m_cellNode.child "v" = some v) :
    ∀ r, encoding_row_holds self r ↔ r = EncodingRow.StringOrdinary := by
  intro r
  cases r <;> simp [encoding_row_holds, ht, hv]

/-- C18 fails on the code: on `<c t="s" t="s"><v>0</v></c>` the call `SetInteger(7)` leaves
a type attribute `"s"` and `CellType()` returns `String`, not `Number`; on
`<c r="A1"><v>1</v><v>2</v></c>` the call `Clear()` leaves a value node and `CellType()`
returns `Number`, not `Empty`. -/
theorem mutators_with_repeated_nodes :
    ((XLCellValue.mk ⟨"c", [⟨"t", "s"⟩, ⟨"t", "s"⟩], [.node_element "v" [] [.node_pcdata "0"]]⟩
      ⟨["Hello"]⟩).SetInteger 7).m_cellNode.attribute "t" = some ⟨"t", "s"⟩ ∧
    ((XLCellValue.mk ⟨"c", [⟨"t", "s"⟩, ⟨"t", "s"⟩], [.node_element "v" [] [.node_pcdata "0"]]⟩
      ⟨["Hello"]⟩).SetInteger 7).CellType = XLCellType.String ∧
    ((XLCellValue.mk ⟨"c", [⟨"r", "A1"⟩], [.node_element "v" [] [.node_pcdata "1"],
      .node_element "v" [] [.node_pcdata "2"]]⟩ ⟨[]⟩).Clear.m_cellNode.child "v").isSome = true ∧
    (XLCellValue.mk ⟨"c", [⟨"r", "A1"⟩], [.node_element "v" [] [.node_pcdata "1"],
      .node_element "v" [] [.node_pcdata "2"]]⟩ ⟨[]⟩).Clear.CellType = XLCellType.Number := by
  refine ⟨rfl, by decide, rfl, by decide⟩

/-- C18, amended. Encoding self-consistency after the direct mutators, whatever type
attribute or value the node held before: after `SetBoolean(b)`, for every prior state, the
type attribute is `"b"` and the value text is `"0"` or `"1"`; after `Set(s)`, for every
prior state, the type attribute is `"str"` and the value text is `s`; after
`SetInteger(n)`, for every prior state that carries the type attribute `t` at most once,
the node has no type attribute and a value node whose text is the decimal numeral of `n`;
after `Clear()`, for every prior state with at most one `t` attribute and at most one value
child `v`, the node has no type attribute and no value node.  In each case exactly one row
of the encoding table holds, and `CellType()` returns the code of that row: `Boolean`,
`String`, `Number`, `Empty`. -/
theorem mutators_keep_encoding_table (self : XLCellValue) (n : Int) (b : Bool) (s : String)
    (hlo : -2 ^ 63 ≤ n) (hhi : n < 2 ^ 63) (hs : '\x00' ∉ s.data) :
    (self.m_cellNode.attribute_at_most_once "t" → self.m_cellNode.child_at_most_once "v" →
      self.Clear.m_cellNode.attribute "t" = none ∧
      self.Clear.m_cellNode.child "v" = none ∧
      (∀ r, encoding_row_holds self.Clear r ↔ r = EncodingRow.Empty) ∧
      self.Clear.CellType = EncodingRow.Empty.code) ∧
    (self.m_cellNode.attribute_at_most_once "t" →
      (self.SetInteger n).m_cellNode.attribute "t" = none ∧
      ((self.SetInteger n).m_cellNode.child "v").isSome = true ∧
      xml_text.get ((self.SetInteger n).m_cellNode.child "v") = Int.repr n ∧
      (∀ r, encoding_row_holds (self.SetInteger n) r ↔ r = EncodingRow.Number) ∧
      (self.SetInteger n).CellType = EncodingRow.Number.code) ∧
    ((self.SetBoolean b).m_cellNode.attribute "t" = some ⟨"t", "b"⟩ ∧
      ((self.SetBoolean b).m_cellNode.child "v").isSome = true ∧
      (xml_text.get ((self.SetBoolean b).m_cellNode.child "v") = "0" ∨
        xml_text.get ((self.SetBoolean b).m_cellNode.child "v") = "1") ∧
      (∀ r, encoding_row_holds (self.SetBoolean b) r ↔ r = EncodingRow.Boolean) ∧
      (self.SetBoolean b).CellType = EncodingRow.Boolean.code) ∧
    ((self.Set s).m_cellNode.attribute "t" = some ⟨"t", "str"⟩ ∧
      ((self.Set s).m_cellNode.child "v").isSome = true ∧
      xml_text.get ((self.Set s).m_cellNode.child "v") = s ∧
      (∀ r, encoding_row_holds (self.Set s) r ↔ r = EncodingRow.StringOrdinary) ∧
      (self.Set s).CellType = EncodingRow.StringOrdinary.code) := by
  refine ⟨?_, ?_, ?_, ?_⟩
  · intro ht hv
    have h1 : self.Clear.m_cellNode.child "v" = none :=
      find_child_erase "v" self.m_cellNode.children hv
    have h2 : self.Clear.m_cellNode.attribute "t" = none :=
      find_attribute_erase "t" self.m_cellNode.attributes ht
    exact ⟨h2, h1, encoding_rows_of_empty _ h2 h1,
      by simp [XLCellValue.CellType, h1, h2, EncodingRow.code]⟩
  · intro ht
    obtain ⟨v, hc, hget⟩ := XLCellValue.SetInteger_child_v self n
    have hattr := XLCellValue.SetInteger_attribute_t self n ht
    have hnum : is_numeral_text (xml_text.get (some v)) = true := by
      rw [hget]
      exact is_numeral_text_integer _ _ _
    refine ⟨hattr, by simp [hc], ?_, encoding_rows_of_number _ v hattr hc hnum,
      by simp [XLCellValue.CellType, hattr, hc, EncodingRow.code]⟩
    rw [hc, hget, integer_to_string_eq_repr n hlo hhi]
  · obtain ⟨v, hc, hget⟩ := XLCellValue.SetBoolean_child_v self b
    have hattr := XLCellValue.SetBoolean_attribute_t self b
    have htext : xml_text.get (some v) = "0" ∨ xml_text.get (some v) = "1" := by
      rw [hget]
      cases b <;> simp
    refine ⟨hattr, by simp [hc], by rw [hc]; exact htext,
      encoding_rows_of_boolean _ v hattr hc htext,
      by simp [XLCellValue.CellType, hattr, hc, EncodingRow.code, xml_attribute.value, deref]⟩
  · obtain ⟨v, hc, hget⟩ := XLCellValue.Set_child_v self s
    have hattr := XLCellValue.Set_attribute_t self s
    rw [strcpy_insitu_of_not_mem s hs] at hget
    refine ⟨hattr, by simp [hc], by rw [hc]; exact hget,
      encoding_rows_of_str _ v hattr hc,
      by simp [XLCellValue.CellType, hattr, hc, EncodingRow.code, xml_attribute.value, deref]⟩

/-- Witness for the amended C18: the cell `<c r="A1" t="s"><v>0</v></c>`, the integer -42,
the boolean true and the text `1.5`. -/
theorem mutators_keep_encoding_table_witness :
    (-2 ^ 63 ≤ (-42 : Int)) ∧ ((-42 : Int) < 2 ^ 63) ∧ '\x00' ∉ "1.5".data ∧
    (pugi.xml_node.mk "c" [⟨"r", "A1"⟩, ⟨"t", "s"⟩]
      [.node_element "v" [] [.node_pcdata "0"]]).attribute_at_most_once "t" ∧
    (pugi.xml_node.mk "c" [⟨"r", "A1"⟩, ⟨"t", "s"⟩]
      [.node_element "v" [] [.node_pcdata "0"]]).child_at_most_once "v" ∧
    (XLCellValue.mk ⟨"c", [⟨"r", "A1"⟩, ⟨"t", "s"⟩],
      [.node_element "v" [] [.node_pcdata "0"]]⟩ ⟨["Hello"]⟩).Clear.CellType
        = XLCellType.Empty ∧
    xml_text.get (((XLCellValue.mk ⟨"c", [⟨"r", "A1"⟩, ⟨"t", "s"⟩],
      [.node_element "v" [] [.node_pcdata "0"]]⟩ ⟨["Hello"]⟩).SetInteger (-42)).m_cellNode.child
        "v") = Int.repr (-42) ∧
    ((XLCellValue.mk ⟨"c", [⟨"r", "A1"⟩, ⟨"t", "s"⟩],
      [.node_element "v" [] [.node_pcdata "0"]]⟩ ⟨["Hello"]⟩).SetInteger (-42)).CellType
        = XLCellType.Number :=
  ⟨by decide, by decide, by decide, by decide, by decide,
    ((mutators_keep_encoding_table
      (XLCellValue.mk ⟨"c", [⟨"r", "A1"⟩, ⟨"t", "s"⟩],
        [.node_element "v" [] [.node_pcdata "0"]]⟩ ⟨["Hello"]⟩)
      (-42) true "1.5" (by decide) (by decide) (by decide)).1 (by decide) (by decide)).2.2.2,
    ((mutators_keep_encoding_table
      (XLCellValue.mk ⟨"c", [⟨"r", "A1"⟩, ⟨"t", "s"⟩],
        [.node_element "v" [] [.node_pcdata "0"]]⟩ ⟨["Hello"]⟩)
      (-42) true "1.5" (by decide) (by decide) (by decide)).2.1 (by decide)).2.2.1,
    ((mutators_keep_encoding_table
      (XLCellValue.mk ⟨"c", [⟨"r", "A1"⟩, ⟨"t", "s"⟩],
        [.node_element "v" [] [.node_pcdata "0"]]⟩ ⟨["Hello"]⟩)
      (-42) true "1.5" (by decide) (by decide) (by decide)).2.1 (by decide)).2.2.2.2⟩

end OpenXLSX

/-! ## Reading back a printed `double` -/

namespace pugi

theorem decimal_exponent_up_eq (fuel num den k : Nat) :
    decimal_exponent_up fuel num den k = exponent_up 10 fuel num den k := by
  induction fuel generalizing k with
  | zero => rfl
  | succ f ih => simp only [decimal_exponent_up, exponent_up, ih]

theorem decimal_exponent_down_eq (fuel num den k : Nat) :
    decimal_exponent_down fuel num den k = exponent_down 10 fuel num den k := by
  induction fuel generalizing k with
  | zero => rfl
  | succ f ih => simp only [decimal_exponent_down, exponent_down, ih]

theorem exponent_up_spec (b num den : Nat) (fuel k : Nat)
    (h1 : den * b ^ k ≤ num) (h2 : num < den * b ^ (k + fuel + 1)) :
    den * b ^ (exponent_up b fuel num den k) ≤ num ∧
      num < den * b ^ (exponent_up b fuel num den k + 1) := by
  induction fuel generalizing k with
  | zero => exact ⟨h1, h2⟩
  | succ f ih =>
    simp only [exponent_up]
    split
    · rename_i h
      exact ih (k + 1) h (by rw [show k + 1 + f + 1 = k + (f + 1) + 1 by omega]; exact h2)
    · rename_i h
      exact ⟨h1, not_le.mp h⟩

theorem exponent_down_spec (b num den : Nat) (fuel j : Nat)
    (h1 : num * b ^ j < den) (h2 : den ≤ num * b ^ (j + 1 + fuel)) :
    ∃ K, exponent_down b fuel num den (j + 1) = K + 1 ∧ num * b ^ K < den ∧
      den ≤ num * b ^ (K + 1) := by
  induction fuel generalizing j with
  | zero => exact ⟨j, rfl, h1, h2⟩
  | succ f ih =>
    simp only [exponent_down]
    split
    · rename_i h
      exact ⟨j, rfl, h1, h⟩
    · rename_i h
      exact ih (j + 1) (not_le.mp h)
        (by rw [show j + 1 + 1 + f = j + 1 + (f + 1) by omega]; exact h2)

/-- The exponent searches find the exponent of a positive quotient in the base, when the
quotient lies in the range the fuel covers. -/
theorem exponent_search (b : Nat) (hb : 2 ≤ b) (fuel num den : Nat) (hden : 0 < den)
    (hlo : ((b : ℚ) ^ (fuel + 1))⁻¹ ≤ (num : ℚ) / den)
    (hhi : (num : ℚ) / den < (b : ℚ) ^ (fuel + 1)) :
    (b : ℚ) ^ (if den ≤ num then (exponent_up b fuel num den 0 : Int)
        else -(exponent_down b fuel num den 1 : Int)) ≤ (num : ℚ) / den ∧
    (num : ℚ) / den < (b : ℚ) ^ ((if den ≤ num then (exponent_up b fuel num den 0 : Int)
        else -(exponent_down b fuel num den 1 : Int)) + 1) := by
  have hdq : (0 : ℚ) < den := by exact_mod_cast hden
  have hbq : (0 : ℚ) < b := by exact_mod_cast (by omega : 0 < b)
  split
  · rename_i h
    have h2 : num < den * b ^ (0 + fuel + 1) := by
      rw [div_lt_iff₀ hdq] at hhi
      rw [Nat.zero_add]
      have : (num : ℚ) < ((den * b ^ (fuel + 1) : ℕ) : ℚ) := by
        push_cast; linarith
      exact_mod_cast this
    obtain ⟨h3, h4⟩ := exponent_up_spec b num den fuel 0 (by simpa using h) h2
    constructor
    · rw [zpow_natCast, le_div_iff₀ hdq]
      have : ((den * b ^ exponent_up b fuel num den 0 : ℕ) : ℚ) ≤ (num : ℚ) := by
        exact_mod_cast h3
      push_cast at this; linarith
    · rw [show ((exponent_up b fuel num den 0 : ℕ) : ℤ) + 1
          = ((exponent_up b fuel num den 0 + 1 : ℕ) : ℤ) by push_cast; rfl,
        zpow_natCast, div_lt_iff₀ hdq]
      have : (num : ℚ) < ((den * b ^ (exponent_up b fuel num den 0 + 1) : ℕ) : ℚ) := by
        exact_mod_cast h4
      push_cast at this; linarith
  · rename_i h
    have hnum : 0 < num := by
      rcases Nat.eq_zero_or_pos num with h0 | h0
      · subst h0
        have : (0 : ℚ) < ((b : ℚ) ^ (fuel + 1))⁻¹ := by positivity
        simp only [Nat.cast_zero, zero_div] at hlo
        linarith
      · exact h0
    have hnq : (0 : ℚ) < num := by exact_mod_cast hnum
    have h2 : den ≤ num * b ^ (0 + 1 + fuel) := by
      rw [inv_le_comm₀ (by positivity) (by positivity), inv_div, div_le_iff₀ hnq] at hlo
      have : (den : ℚ) ≤ ((num * b ^ (0 + 1 + fuel) : ℕ) : ℚ) := by
        push_cast; rw [show 0 + 1 + fuel = fuel + 1 by omega]; linarith
      exact_mod_cast this
    obtain ⟨K, hK, h3, h4⟩ := exponent_down_spec b num den fuel 0 (by simpa using h) h2
    rw [hK]
    constructor
    · rw [zpow_neg, zpow_natCast, inv_le_comm₀ (by positivity) (by positivity), inv_div,
        div_le_iff₀ hnq]
      have : (den : ℚ) ≤ ((num * b ^ (K + 1) : ℕ) : ℚ) := by exact_mod_cast h4
      push_cast at this; linarith
    · rw [show -((K + 1 : ℕ) : ℤ) + 1 = -(K : ℤ) by push_cast; ring, zpow_neg, zpow_natCast,
        lt_inv_comm₀ (by positivity) (by positivity), inv_div, lt_div_iff₀ hnq]
      have : ((num * b ^ K : ℕ) : ℚ) < (den : ℚ) := by exact_mod_cast h3
      push_cast at this; linarith


theorem round_half_even_eq (n d k : Nat) (hd : 0 < d)
    (h1 : 2 * k * d < 2 * n + d) (h2 : 2 * n < 2 * k * d + d) : round_half_even n d = k := by
  have hn := Nat.div_add_mod n d
  have hr := Nat.mod_lt n hd
  generalize n / d = a at hn
  generalize n % d = r at hn hr
  subst hn
  have hka : k = a ∨ k = a + 1 := by
    rcases Nat.lt_trichotomy k a with h | h | h
    · exfalso
      have : d * (k + 1) ≤ d * a := Nat.mul_le_mul_left d h
      nlinarith
    · exact Or.inl h
    · rcases Nat.lt_or_ge a.succ k with h3 | h3
      · exfalso
        have : d * (a + 2) ≤ d * k := Nat.mul_le_mul_left d h3
        nlinarith
      · exact Or.inr (by omega)
  have hdiv : (d * a + r) / d = a := by
    rw [Nat.mul_add_div hd, Nat.div_eq_of_lt hr, Nat.add_zero]
  have hmod : (d * a + r) % d = r := by
    rw [Nat.mul_add_mod, Nat.mod_eq_of_lt hr]
  simp only [round_half_even, hdiv, hmod]
  rcases hka with rfl | rfl
  · rw [if_neg]
    intro h
    rcases h with h | ⟨h, -⟩ <;> nlinarith
  · rw [if_pos]
    left
    nlinarith

theorem round_half_even_near (n d : Nat) (hd : 0 < d) :
    2 * round_half_even n d * d ≤ 2 * n + d ∧ 2 * n ≤ 2 * round_half_even n d * d + d := by
  have hn := Nat.div_add_mod n d
  have hr := Nat.mod_lt n hd
  simp only [round_half_even]
  generalize n / d = a at hn ⊢
  generalize n % d = r at hn hr ⊢
  subst hn
  split
  · rename_i h
    constructor
    · rcases h with h | ⟨h, -⟩ <;> nlinarith
    · nlinarith
  · rename_i h
    have : 2 * r ≤ d := by
      by_contra h3
      exact h (Or.inl (by omega))
    constructor <;> nlinarith

theorem round_half_even_of_close (n d k : Nat) (hd : 0 < d)
    (h : |(n : ℚ) / d - k| < 1 / 2) : round_half_even n d = k := by
  have hdq : (0 : ℚ) < d := by exact_mod_cast hd
  rw [abs_lt] at h
  obtain ⟨h1, h2⟩ := h
  have e1 : (n : ℚ) / d * d = n := div_mul_cancel₀ _ (ne_of_gt hdq)
  apply round_half_even_eq n d k hd
  · have : ((2 * k * d : ℕ) : ℚ) < ((2 * n + d : ℕ) : ℚ) := by
      push_cast
      nlinarith
    exact_mod_cast this
  · have : ((2 * n : ℕ) : ℚ) < ((2 * k * d + d : ℕ) : ℚ) := by
      push_cast
      nlinarith
    exact_mod_cast this

theorem round_half_even_close (n d : Nat) (hd : 0 < d) :
    |(n : ℚ) / d - round_half_even n d| ≤ 1 / 2 := by
  have hdq : (0 : ℚ) < d := by exact_mod_cast hd
  obtain ⟨h1, h2⟩ := round_half_even_near n d hd
  have h1q : ((2 * round_half_even n d * d : ℕ) : ℚ) ≤ ((2 * n + d : ℕ) : ℚ) := by
    exact_mod_cast h1
  have h2q : ((2 * n : ℕ) : ℚ) ≤ ((2 * round_half_even n d * d + d : ℕ) : ℚ) := by
    exact_mod_cast h2
  push_cast at h1q h2q
  have e1 : (n : ℚ) / d * d = n := div_mul_cancel₀ _ (ne_of_gt hdq)
  rw [abs_le]
  constructor
  · by_contra h
    push_neg at h
    nlinarith
  · by_contra h
    push_neg at h
    nlinarith

/-- Scaling numerator or denominator by a power of the base, according to the sign of the
exponent, multiplies the quotient by the power. -/
theorem scaled_ratio (num den b : Nat) (hb : 0 < b) (z : Int) :
    ((num * b ^ z.toNat : ℕ) : ℚ) / ((den * b ^ (-z).toNat : ℕ) : ℚ)
      = (num : ℚ) / den * (b : ℚ) ^ z := by
  have hbq : (b : ℚ) ≠ 0 := by exact_mod_cast (by omega : b ≠ 0)
  rcases le_or_lt 0 z with h | h
  · obtain ⟨k, rfl⟩ := Int.eq_ofNat_of_zero_le h
    have h2 : (-(k : ℤ)).toNat = 0 := by omega
    rw [h2, Int.toNat_natCast, zpow_natCast]
    push_cast
    rw [pow_zero, mul_one, mul_div_right_comm]
  · obtain ⟨k, rfl⟩ : ∃ k : ℕ, z = -(k : ℤ) := ⟨z.natAbs, by omega⟩
    have h2 : (-(k : ℤ)).toNat = 0 := by omega
    rw [h2, neg_neg, Int.toNat_natCast, zpow_neg, zpow_natCast]
    push_cast
    rw [pow_zero, mul_one, div_mul_eq_div_div, div_eq_mul_inv ((num : ℚ) / den)]


/-- Rounding a quotient that is nearer to a binary64 number than a quarter of its last
mantissa bit gives that number. -/
theorem round_to_double_of_close (s : Bool) (m : Nat) (e : Int)
    (hx : double.is_binary64 ⟨s, m, e⟩) (hm : 0 < m) (num den : Nat) (hden : 0 < den)
    (h : |(num : ℚ) / den - (m : ℚ) * 2 ^ e| * 2 ^ 54 < (m : ℚ) * 2 ^ e) :
    round_to_double s num den = .finite ⟨s, m, e⟩ := by
  have h2 : (1 : ℚ) < 2 := by norm_num
  have hx : (e = -1074 ∧ m < 2 ^ 52) ∨ (2 ^ 52 ≤ m ∧ m < 2 ^ 53 ∧ -1074 ≤ e ∧ e ≤ 971) := hx
  have h2e : (0 : ℚ) < 2 ^ e := zpow_pos (by norm_num) e
  have h2ne : (0 : ℚ) < 2 ^ (-e) := zpow_pos (by norm_num) (-e)
  have hcancel : (2 : ℚ) ^ e * 2 ^ (-e) = 1 := by
    rw [← zpow_add₀ (two_ne_zero), add_neg_cancel, zpow_zero]
  have hmq : (1 : ℚ) ≤ m := by exact_mod_cast hm
  have hm53 : m < 2 ^ 53 := by
    rcases hx with ⟨-, h1⟩ | ⟨-, h1, -⟩
    · exact lt_trans h1 (by norm_num)
    · exact h1
  have hm53q : (m : ℚ) ≤ 2 ^ 53 - 1 := by
    have : ((m + 1 : ℕ) : ℚ) ≤ ((2 ^ 53 : ℕ) : ℚ) := by exact_mod_cast hm53
    push_cast at this
    linarith
  have he_lo : -1074 ≤ e := by
    rcases hx with ⟨h1, -⟩ | ⟨-, -, h1, -⟩
    · exact le_of_eq h1.symm
    · exact h1
  have he_hi : e ≤ 971 := by
    rcases hx with ⟨h1, -⟩ | ⟨-, -, -, h1⟩
    · rw [h1]; norm_num
    · exact h1
  -- the quotient on the scale of the mantissa
  have hscale : (num : ℚ) / den * 2 ^ (-e) - m
      = ((num : ℚ) / den - m * 2 ^ e) * 2 ^ (-e) := by
    rw [sub_mul, mul_assoc, hcancel, mul_one]
  have hclose : |(num : ℚ) / den * 2 ^ (-e) - m| * 2 ^ 54 < m := by
    rw [hscale, abs_mul, abs_of_pos h2ne]
    have := mul_lt_mul_of_pos_right h h2ne
    rw [mul_assoc (m : ℚ), hcancel, mul_one] at this
    linarith
  generalize hρ : (num : ℚ) / den * 2 ^ (-e) = ρ at hclose
  have hr : (num : ℚ) / den = ρ * 2 ^ e := by
    rw [← hρ, mul_assoc, mul_comm (2 ^ (-e) : ℚ), hcancel, mul_one]
  have hhalf : |ρ - m| < 1 / 2 := by
    have : |ρ - m| * 2 ^ 54 < 2 ^ 53 := by linarith
    linarith
  have hρ_lo : (m : ℚ) - 1 / 2 < ρ := by
    have := (abs_lt.mp hhalf).1
    linarith
  have hρ_hi : ρ < (m : ℚ) + 1 / 2 := by
    have := (abs_lt.mp hhalf).2
    linarith
  have hnum : num ≠ 0 := by
    rintro rfl
    rw [Nat.cast_zero, zero_div] at hr
    have : 0 < ρ * 2 ^ e := mul_pos (by linarith) h2e
    linarith
  -- the binary exponent of the quotient
  have hr_hi : (num : ℚ) / den < 2 ^ (e + 53) := by
    rw [hr, zpow_add₀ two_ne_zero, mul_comm ((2 : ℚ) ^ e)]
    exact mul_lt_mul_of_pos_right (by norm_num; linarith) h2e
  have hr_lo : (2 : ℚ) ^ (e - 1) ≤ (num : ℚ) / den := by
    rw [hr, zpow_sub₀ two_ne_zero, zpow_one, div_eq_mul_inv, mul_comm ((2 : ℚ) ^ e)]
    exact mul_le_mul_of_nonneg_right (by norm_num; linarith) (le_of_lt h2e)
  have hsearch := exponent_search 2 (le_refl 2) 1100 num den hden
    (by
      rw [Nat.cast_ofNat, ← zpow_natCast, ← zpow_neg]
      exact le_trans (zpow_le_zpow_right₀ (le_of_lt h2) (by push_cast; omega)) hr_lo)
    (by
      rw [Nat.cast_ofNat, ← zpow_natCast]
      exact lt_of_lt_of_le hr_hi (zpow_le_zpow_right₀ (le_of_lt h2) (by push_cast; omega)))
  simp only [round_to_double, if_neg hnum]
  rw [Nat.cast_ofNat] at hsearch
  generalize (if den ≤ num then (exponent_up 2 1100 num den 0 : Int)
      else -(exponent_down 2 1100 num den 1 : Int)) = E at hsearch ⊢
  obtain ⟨hE1, hE2⟩ := hsearch
  have hE_hi : E < e + 53 := (zpow_lt_zpow_iff_right₀ h2).mp (lt_of_le_of_lt hE1 hr_hi)
  have hmax : max (E - 52) (-1074) = e ∨ (max (E - 52) (-1074) = e - 1 ∧ m = 2 ^ 52) := by
    rcases hx with ⟨h1, h3⟩ | ⟨h1, -, -, -⟩
    · left
      have h3q : (m : ℚ) ≤ 2 ^ 52 - 1 := by
        have : ((m + 1 : ℕ) : ℚ) ≤ ((2 ^ 52 : ℕ) : ℚ) := by exact_mod_cast h3
        push_cast at this
        linarith
      have : (num : ℚ) / den < 2 ^ (e + 52) := by
        rw [hr, zpow_add₀ two_ne_zero, mul_comm ((2 : ℚ) ^ e)]
        exact mul_lt_mul_of_pos_right (by norm_num; linarith) h2e
      have : E < e + 52 := (zpow_lt_zpow_iff_right₀ h2).mp (lt_of_le_of_lt hE1 this)
      omega
    · have h1q : (2 : ℚ) ^ 52 ≤ m := by exact_mod_cast h1
      have : (2 : ℚ) ^ (e + 51) ≤ (num : ℚ) / den := by
        rw [hr, zpow_add₀ two_ne_zero, mul_comm ((2 : ℚ) ^ e)]
        exact mul_le_mul_of_nonneg_right (by norm_num; linarith) (le_of_lt h2e)
      have hE_lo : e + 51 < E + 1 :=
        (zpow_lt_zpow_iff_right₀ h2).mp (lt_of_le_of_lt this hE2)
      rcases (by omega : E = e + 52 ∨ E = e + 51) with rfl | rfl
      · left; omega
      · have hlt : ρ * 2 ^ e < 2 ^ 52 * 2 ^ e := by
          have h6 : (2 : ℚ) ^ (e + 51 + 1) = 2 ^ 52 * 2 ^ e := by
            rw [show e + 51 + 1 = 52 + e by ring, zpow_add₀ two_ne_zero]
            norm_num
          rw [← hr, ← h6]
          exact hE2
        have hρ52 : ρ < 2 ^ 52 := lt_of_mul_lt_mul_right hlt (le_of_lt h2e)
        have hm52 : m = 2 ^ 52 := by
          have : (m : ℚ) < ((2 ^ 52 + 1 : ℕ) : ℚ) := by push_cast; linarith
          have : m < 2 ^ 52 + 1 := by exact_mod_cast this
          omega
        rcases (by omega : e = -1074 ∨ -1074 < e) with h5 | h5
        · left; omega
        · right; exact ⟨by omega, hm52⟩
  generalize max (E - 52) (-1074) = er at hmax ⊢
  rcases hmax with rfl | ⟨rfl, rfl⟩
  · have hround : round_half_even (num * 2 ^ (-er).toNat) (den * 2 ^ er.toNat) = m := by
      apply round_half_even_of_close _ _ _ (Nat.mul_pos hden (by positivity))
      have := scaled_ratio num den 2 (by norm_num) (-er)
      rw [neg_neg, Nat.cast_ofNat] at this
      rw [this, hρ]
      exact hhalf
    rw [hround, if_neg (ne_of_lt hm53), if_neg (ne_of_lt hm53), if_neg (by omega)]
  · have hround : round_half_even (num * 2 ^ (-(e - 1)).toNat) (den * 2 ^ (e - 1).toNat)
        = 2 ^ 53 := by
      apply round_half_even_of_close _ _ _ (Nat.mul_pos hden (by positivity))
      have := scaled_ratio num den 2 (by norm_num) (-(e - 1))
      rw [neg_neg, Nat.cast_ofNat] at this
      rw [this, show -(e - 1) = -e + 1 by ring, zpow_add₀ two_ne_zero, zpow_one, ← mul_assoc, hρ]
      push_cast at hclose ⊢
      rw [abs_lt] at hhalf ⊢
      have hc := abs_lt.mp (by linarith : |ρ - 2 ^ 52| < 2 ^ 52 / 2 ^ 54)
      constructor <;> norm_num at hc ⊢ <;> linarith [hc.1, hc.2]
    rw [hround, if_pos rfl, if_pos rfl, if_neg (by omega)]
    congr 2
    omega


theorem digit_mem (c : Char) (h : is_decimal_digit c = true) :
    c ∈ ['0', '1', '2', '3', '4', '5', '6', '7', '8', '9'] := by
  simp only [is_decimal_digit, Bool.and_eq_true, decide_eq_true_eq] at h
  have hc : c = Char.ofNat c.toNat := (Char.ofNat_toNat c).symm
  generalize c.toNat = n at h hc
  obtain ⟨h1, h2⟩ := h
  subst hc
  interval_cases n <;> decide

/-- What the scanner of `strtod` sees in a decimal digit: no white space, no sign, no
decimal point and none of the letters it looks for. -/
theorem digit_scan (c : Char) (h : is_decimal_digit c = true) :
    is_c_space c = false ∧ (c == '-') = false ∧ (c == '+') = false ∧ (c == '.') = false ∧
      ((c.toNat ||| 32) == 'i'.toNat) = false ∧ ((c.toNat ||| 32) == 'n'.toNat) = false ∧
      ((c.toNat ||| 32) == 'e'.toNat) = false ∧ ((c.toNat ||| 32) == 120) = false ∧
      digit_value c = c.toNat - 48 := by
  have hm := digit_mem c h
  clear h
  revert c
  decide

theorem digit_value_digit (d : Nat) (h : d < 10) : digit_value (Char.ofNat (48 + d)) = d := by
  rw [digit_value, if_pos (digit_is_decimal_digit d h), digit_toNat d h]
  omega

theorem digits_value_foldl (b : Nat) (ds : List Char) (a : Nat) :
    ds.foldl (fun acc c => acc * b + digit_value c) a = a * b ^ ds.length + digits_value b ds := by
  induction ds generalizing a with
  | nil => simp [digits_value]
  | cons c l ih =>
    simp only [digits_value, List.foldl_cons, List.length_cons]
    rw [ih (a * b + digit_value c), ih (0 * b + digit_value c)]
    simp only [digits_value]
    ring

theorem digits_value_append (b : Nat) (xs ys : List Char) :
    digits_value b (xs ++ ys) = digits_value b xs * b ^ ys.length + digits_value b ys := by
  rw [digits_value, List.foldl_append, digits_value_foldl]
  rfl

theorem digits_value_zeros (b k : Nat) : digits_value b (List.replicate k '0') = 0 := by
  induction k with
  | zero => rfl
  | succ k ih =>
    have h0 : digits_value b ['0'] = 0 := by
      simp only [digits_value, List.foldl_cons, List.foldl_nil, Nat.zero_mul, Nat.zero_add]
      decide
    rw [List.replicate_succ, ← List.singleton_append, digits_value_append, ih, h0,
      Nat.zero_mul]

theorem digits_value_loop (room n : Nat) (h : n < 10 ^ room) :
    digits_value 10 (integer_to_string_loop room n []) = n := by
  induction room generalizing n with
  | zero =>
    have : n = 0 := by simpa using h
    subst this
    rfl
  | succ room ih =>
    by_cases hs : n < 10
    · rw [loop_small room n hs]
      simp only [digits_value, List.foldl_cons, List.foldl_nil, digit_value_digit n hs]
      omega
    · rw [loop_large room n (by omega), digits_value_append,
        ih (n / 10) (by rw [pow_succ] at h; omega)]
      simp only [digits_value, List.foldl_cons, List.foldl_nil, List.length_singleton,
        digit_value_digit (n % 10) (Nat.mod_lt _ (by norm_num))]
      omega

theorem takeWhile_digits (ds rest : List Char) (hds : ∀ c ∈ ds, is_decimal_digit c = true)
    (hrest : is_decimal_digit (rest.headD '\x00') = false) :
    (ds ++ rest).takeWhile is_decimal_digit = ds ∧
      (ds ++ rest).dropWhile is_decimal_digit = rest := by
  induction ds with
  | nil =>
    cases rest with
    | nil => exact ⟨rfl, rfl⟩
    | cons c l =>
      simp only [List.headD_cons] at hrest
      simp [List.takeWhile_cons, List.dropWhile_cons, hrest]
  | cons c l ih =>
    have hc := hds c (List.mem_cons_self _ _)
    obtain ⟨h1, h2⟩ := ih (fun c hm => hds c (List.mem_cons_of_mem _ hm))
    simp [List.takeWhile_cons, List.dropWhile_cons, hc, h1, h2]


theorem exponent_part_nil : exponent_part 'e' [] = 0 := by decide

/-- The exponent part that `snprintf_17g` writes reads back as the exponent. -/
theorem exponent_part_chars (X : Int) (h : X.natAbs < 10 ^ 64) :
    exponent_part 'e' (exponent_chars X) = X := by
  have hall : ∀ c ∈ (if X.natAbs < 10 then '0' :: integer_to_string_loop 64 X.natAbs []
      else integer_to_string_loop 64 X.natAbs []), is_decimal_digit c = true := by
    intro c hc
    split at hc
    · rcases List.mem_cons.mp hc with rfl | hc
      · decide
      · exact loop_all_digits _ _ c hc
    · exact loop_all_digits _ _ c hc
  have hne : (if X.natAbs < 10 then '0' :: integer_to_string_loop 64 X.natAbs []
      else integer_to_string_loop 64 X.natAbs []) ≠ [] := by
    split
    · simp
    · exact OpenXLSX.loop_ne_nil 63 _
  have hval : digits_value 10 (if X.natAbs < 10 then '0' :: integer_to_string_loop 64 X.natAbs []
      else integer_to_string_loop 64 X.natAbs []) = X.natAbs := by
    split
    · rw [← List.singleton_append, digits_value_append, digits_value_loop 64 _ h,
        show digits_value 10 ['0'] = 0 from digits_value_zeros 10 1, Nat.zero_mul, Nat.zero_add]
    · exact digits_value_loop 64 _ h
  have htw := (takeWhile_digits _ [] hall (by decide)).1
  rw [List.append_nil] at htw
  simp only [exponent_chars]
  generalize (if X.natAbs < 10 then '0' :: integer_to_string_loop 64 X.natAbs []
      else integer_to_string_loop 64 X.natAbs []) = ds at hall hne hval htw ⊢
  have hemp : ds.isEmpty = false := by
    cases ds with
    | nil => exact absurd rfl hne
    | cons c l => rfl
  have he : (('e'.toNat ||| 32) == 'e'.toNat) = true := by decide
  by_cases hneg : X < 0
  · simp only [exponent_part, exponent_chars, List.headD_cons, he, if_true, List.tail_cons,
      if_pos hneg, beq_self_eq_true, Bool.or_true, htw, hemp, Bool.false_eq_true, if_false, hval]
    omega
  · have h1 : ('+' == '-') = false := by decide
    simp only [exponent_part, exponent_chars, List.headD_cons, he, if_true, List.tail_cons,
      if_neg hneg, beq_self_eq_true, Bool.true_or, htw, hemp, Bool.false_eq_true, if_false, hval,
      h1]
    omega

/-- How `strtod` reads a decimal numeral: optional minus sign, integer digits, optional
fraction, optional exponent part as `snprintf_17g` writes it. -/
theorem strtod_decimal (s : Bool) (ip fp T : List Char) (dot : Bool)
    (hip : ∀ c ∈ ip, is_decimal_digit c = true) (hne : ip ≠ [])
    (hfp : ∀ c ∈ fp, is_decimal_digit c = true) (hdot : dot = false → fp = [])
    (hT : T = [] ∨ ∃ X, T = exponent_chars X)
    (hzero : ip.headD '\x00' ≠ '0' ∨ ip = ['0']) :
    strtod ⟨if s then '-' :: (ip ++ (if dot then '.' :: fp else []) ++ T)
        else ip ++ (if dot then '.' :: fp else []) ++ T⟩
      = round_to_double s
          (digits_value 10 (ip ++ fp) * 10 ^ (exponent_part 'e' T - (fp.length : Int)).toNat)
          (10 ^ (-(exponent_part 'e' T - (fp.length : Int))).toNat) := by
  have hT1 : is_decimal_digit (T.headD '\x00') = false ∧ (T.headD '\x00' == '.') = false ∧
      (((T.headD '\x00').toNat ||| 32) == 120) = false := by
    rcases hT with rfl | ⟨X, rfl⟩
    · decide
    · simp only [exponent_chars, List.headD_cons]
      decide
  obtain ⟨c0, ip1, rfl⟩ : ∃ c0 ip1, ip = c0 :: ip1 := by
    cases ip with
    | nil => exact absurd rfl hne
    | cons c l => exact ⟨c, l, rfl⟩
  obtain ⟨hc1, hc2, hc3, hc4, hc5, hc6, hc7, hc8, -⟩ :=
    digit_scan c0 (hip c0 (List.mem_cons_self _ _))
  have hR : ∃ R, R = (if dot then '.' :: fp else []) ++ T ∧
      is_decimal_digit (R.headD '\x00') = false ∧
      (((R.headD '\x00').toNat ||| 32) == 120) = false ∧
      (if R.headD '\x00' == '.' then R.tail.takeWhile is_decimal_digit else []) = fp ∧
      (if R.headD '\x00' == '.' then R.tail.dropWhile is_decimal_digit else R) = T := by
    refine ⟨_, rfl, ?_⟩
    cases dot with
    | true =>
      obtain ⟨h1, h2⟩ := takeWhile_digits fp T hfp hT1.1
      simp only [if_true, List.cons_append, List.headD_cons, List.tail_cons, beq_self_eq_true,
        h1, h2]
      decide
    | false =>
      have := hdot rfl
      subst this
      simp only [Bool.false_eq_true, if_false, List.nil_append, hT1.1, hT1.2.1, hT1.2.2]
      exact ⟨trivial, trivial, trivial, trivial⟩
  obtain ⟨R, hRdef, hR1, hR2, hR3, hR4⟩ := hR
  rw [List.append_assoc, ← hRdef]
  obtain ⟨h7, h8⟩ := takeWhile_digits (c0 :: ip1) R hip hR1
  have h6 : ((c0 :: ip1 ++ R).headD '\x00' == '0' &&
      (((c0 :: ip1 ++ R).tail.headD '\x00').toNat ||| 32) == 120) = false := by
    rcases hzero with h | h
    · simp only [List.headD_cons] at h
      simp only [List.cons_append, List.headD_cons, beq_eq_false_iff_ne.mpr h, Bool.false_and]
    · simp only [List.cons.injEq] at h
      obtain ⟨-, rfl⟩ := h
      simp only [List.cons_append, List.nil_append, List.tail_cons, hR2, Bool.and_false]
  have h4 : starts_with_letters ['i', 'n', 'f'] (c0 :: ip1 ++ R) = false := by
    simp only [List.cons_append, starts_with_letters, hc5, Bool.false_and]
  have h5 : starts_with_letters ['n', 'a', 'n'] (c0 :: ip1 ++ R) = false := by
    simp only [List.cons_append, starts_with_letters, hc6, Bool.false_and]
  have h1 : (c0 :: ip1 ++ R).dropWhile is_c_space = c0 :: ip1 ++ R := by
    simp only [List.cons_append, List.dropWhile_cons, hc1, Bool.false_eq_true, if_false]
  have h2 : ((c0 :: ip1 ++ R).headD '\x00' == '-') = false := by
    simp only [List.cons_append, List.headD_cons, hc2]
  have h3 : ((c0 :: ip1 ++ R).headD '\x00' == '+') = false := by
    simp only [List.cons_append, List.headD_cons, hc3]
  have h9 : (c0 :: ip1).isEmpty = false := rfl
  generalize c0 :: ip1 ++ R = B at h1 h2 h3 h4 h5 h6 h7 h8
  generalize c0 :: ip1 = ip at h7 h9
  cases s with
  | false =>
    simp only [strtod, Bool.false_eq_true, if_false, h1, h2, h3, Bool.or_false, h4, h5, h6,
      Bool.false_and, h7, h8, hR3, hR4, h9]
  | true =>
    have h0 : is_c_space '-' = false := by decide
    have h00 : ('-' == '+') = false := by decide
    simp only [strtod, if_true, List.dropWhile_cons, h0, Bool.false_eq_true, if_false,
      List.headD_cons, beq_self_eq_true, Bool.or_true, List.tail_cons, h4, h5, h6,
      Bool.false_and, h7, h8, hR3, hR4, h9]


theorem dropWhile_append_singleton (p : Char → Bool) (xs : List Char) (c : Char)
    (hc : p c = false) : ∃ ys, (xs ++ [c]).dropWhile p = ys ++ [c] := by
  induction xs with
  | nil => exact ⟨[], by simp [List.dropWhile_cons, hc]⟩
  | cons x xs ih =>
    by_cases hx : p x = true
    · obtain ⟨ys, h⟩ := ih
      exact ⟨ys, by simp only [List.cons_append, List.dropWhile_cons, hx, if_true, h]⟩
    · have hx1 : p x = false := by simpa using hx
      exact ⟨x :: xs, by
        simp only [List.cons_append, List.dropWhile_cons, hx1, Bool.false_eq_true, if_false]⟩

/-- Stripping removes only zeros at the end. -/
theorem strip_trailing_zeros_spec (l : List Char) :
    ∃ z, l = strip_trailing_zeros l ++ List.replicate z '0' := by
  refine ⟨(l.reverse.takeWhile (fun c => c == '0')).length, ?_⟩
  have h1 := List.takeWhile_append_dropWhile (fun c => c == '0') l.reverse
  have h2 : l.reverse.takeWhile (fun c => c == '0')
      = List.replicate (l.reverse.takeWhile (fun c => c == '0')).length '0' := by
    rw [List.eq_replicate_iff]
    refine ⟨rfl, ?_⟩
    intro b hb
    have := List.mem_takeWhile_imp hb
    simpa using this
  have h3 : l = (l.reverse.dropWhile (fun c => c == '0')).reverse ++
      (l.reverse.takeWhile (fun c => c == '0')).reverse := by
    rw [← List.reverse_append, h1, List.reverse_reverse]
  rw [h2, List.reverse_replicate] at h3
  exact h3

theorem strip_trailing_zeros_head (c : Char) (l : List Char) (hc : c ≠ '0') :
    ∃ t, strip_trailing_zeros (c :: l) = c :: t := by
  obtain ⟨ys, h⟩ := dropWhile_append_singleton (fun c => c == '0') l.reverse c
    (by simpa using hc)
  refine ⟨ys.reverse, ?_⟩
  rw [strip_trailing_zeros, List.reverse_cons, h, List.reverse_append]
  rfl

theorem decimal_ratio (V : Nat) (q : Int) :
    ((V * 10 ^ q.toNat : ℕ) : ℚ) / ((10 ^ (-q).toNat : ℕ) : ℚ) = (V : ℚ) * 10 ^ q := by
  have := scaled_ratio V 1 10 (by norm_num) q
  rw [Nat.one_mul, Nat.cast_one, div_one, Nat.cast_ofNat] at this
  exact this

/-- How `strtod` reads the text that `snprintf_17g` lays out from a digit string and a
decimal exponent: in each of the styles the number read is the digit string scaled to its
exponent. -/
theorem strtod_g_style (s : Bool) (ds : List Char) (X : Int)
    (hds : ∀ c ∈ ds, is_decimal_digit c = true) (hhead : ds.headD '0' ≠ '0')
    (hX : X.natAbs < 10 ^ 64) :
    ∃ N dd : Nat, 0 < dd ∧
      (N : ℚ) / dd = (digits_value 10 ds : ℚ) * 10 ^ (X + 1 - (ds.length : Int)) ∧
      strtod ⟨if s then '-' ::
          (if X < -4 ∨ X ≥ 17 then
            (match ds with
              | [] => []
              | [c] => [c]
              | c :: rest => c :: '.' :: rest) ++ exponent_chars X
          else if X < 0 then
            '0' :: '.' :: (List.replicate (-X - 1).toNat '0' ++ ds)
          else if ds.length ≤ (X + 1).toNat then
            ds ++ List.replicate ((X + 1).toNat - ds.length) '0'
          else
            ds.take (X + 1).toNat ++ '.' :: ds.drop (X + 1).toNat)
        else
          (if X < -4 ∨ X ≥ 17 then
            (match ds with
              | [] => []
              | [c] => [c]
              | c :: rest => c :: '.' :: rest) ++ exponent_chars X
          else if X < 0 then
            '0' :: '.' :: (List.replicate (-X - 1).toNat '0' ++ ds)
          else if ds.length ≤ (X + 1).toNat then
            ds ++ List.replicate ((X + 1).toNat - ds.length) '0'
          else
            ds.take (X + 1).toNat ++ '.' :: ds.drop (X + 1).toNat)⟩
        = round_to_double s N dd := by
  obtain ⟨c, rest, rfl⟩ : ∃ c rest, ds = c :: rest := by
    cases ds with
    | nil => exact absurd rfl hhead
    | cons c l => exact ⟨c, l, rfl⟩
  have hc : c ≠ '0' := hhead
  have hcd : ∀ x ∈ [c], is_decimal_digit x = true := fun x hx =>
    hds x (by rw [List.mem_singleton.mp hx]; exact List.mem_cons_self _ _)
  have hrest : ∀ x ∈ rest, is_decimal_digit x = true := fun x hx =>
    hds x (List.mem_cons_of_mem _ hx)
  have hpos : ∀ q : Int, 0 < 10 ^ (-q).toNat := fun q => by positivity
  by_cases hE : X < -4 ∨ X ≥ 17
  · simp only [if_pos hE]
    cases rest with
    | nil =>
      have h := strtod_decimal s [c] [] (exponent_chars X) false hcd (by simp)
        (by simp) (fun _ => rfl) (Or.inr ⟨X, rfl⟩) (Or.inl hc)
      simp only [Bool.false_eq_true, if_false, List.append_nil] at h
      refine ⟨_, _, hpos _, ?_, h⟩
      rw [decimal_ratio, exponent_part_chars X hX]
      congr 2
      simp
    | cons c2 rest2 =>
      have h := strtod_decimal s [c] (c2 :: rest2) (exponent_chars X) true hcd (by simp)
        hrest (by simp) (Or.inr ⟨X, rfl⟩) (Or.inl hc)
      simp only [if_true, List.singleton_append, List.cons_append] at h
      refine ⟨_, _, hpos _, ?_, h⟩
      rw [decimal_ratio, exponent_part_chars X hX]
      congr 2
      simp only [List.length_cons]
      push_cast
      ring
  · simp only [if_neg hE]
    by_cases hneg : X < 0
    · simp only [if_pos hneg]
      have h := strtod_decimal s ['0'] (List.replicate (-X - 1).toNat '0' ++ c :: rest) [] true
        (by decide)
        (by simp)
        (by
          intro x hx
          rcases List.mem_append.mp hx with hx | hx
          · rw [List.eq_of_mem_replicate hx]; decide
          · exact hds x hx)
        (by simp) (Or.inl rfl) (Or.inr rfl)
      simp only [if_true, List.singleton_append, List.append_nil] at h
      refine ⟨_, _, hpos _, ?_, h⟩
      rw [decimal_ratio, exponent_part_nil,
        show '0' :: (List.replicate (-X - 1).toNat '0' ++ c :: rest)
          = List.replicate ((-X - 1).toNat + 1) '0' ++ c :: rest from rfl,
        digits_value_append, digits_value_zeros, Nat.zero_mul, Nat.zero_add]
      congr 2
      simp only [List.length_append, List.length_replicate, List.length_cons]
      omega
    · simp only [if_neg hneg]
      by_cases hlen : (c :: rest).length ≤ (X + 1).toNat
      · simp only [if_pos hlen]
        have h := strtod_decimal s (c :: rest ++ List.replicate ((X + 1).toNat -
            (c :: rest).length) '0') [] [] false
          (by
            intro x hx
            rcases List.mem_append.mp hx with hx | hx
            · exact hds x hx
            · rw [List.eq_of_mem_replicate hx]; decide)
          (by simp) (by simp) (fun _ => rfl) (Or.inl rfl) (Or.inl hc)
        simp only [Bool.false_eq_true, if_false, List.append_nil] at h
        refine ⟨_, _, hpos _, ?_, h⟩
        have hk : (X + 1 - ((c :: rest).length : Int))
            = (((X + 1).toNat - (c :: rest).length : ℕ) : Int) := by omega
        rw [decimal_ratio, exponent_part_nil, digits_value_append, digits_value_zeros,
          List.length_replicate, Nat.add_zero, hk, zpow_natCast]
        simp
      · simp only [if_neg hlen]
        have hlen2 : 1 ≤ (X + 1).toNat := by omega
        have h := strtod_decimal s ((c :: rest).take (X + 1).toNat)
          ((c :: rest).drop (X + 1).toNat) [] true
          (fun x hx => hds x (List.mem_of_mem_take hx))
          (by
            obtain ⟨k, hk⟩ : ∃ k, (X + 1).toNat = k + 1 := ⟨(X + 1).toNat - 1, by omega⟩
            rw [hk]
            simp)
          (fun x hx => hds x (List.mem_of_mem_drop hx))
          (by simp)
          (Or.inl rfl)
          (by
            obtain ⟨k, hk⟩ : ∃ k, (X + 1).toNat = k + 1 := ⟨(X + 1).toNat - 1, by omega⟩
            rw [hk]
            exact Or.inl hc)
        simp only [if_true, List.append_nil] at h
        refine ⟨_, _, hpos _, ?_, h⟩
        rw [decimal_ratio, exponent_part_nil, List.take_append_drop]
        congr 2
        simp only [List.length_drop]
        omega


theorem binary_ratio (m : Nat) (e : Int) :
    ((m * 2 ^ e.toNat : ℕ) : ℚ) / ((2 ^ (-e).toNat : ℕ) : ℚ) = (m : ℚ) * 2 ^ e := by
  have := scaled_ratio m 1 2 (by norm_num) e
  rw [Nat.one_mul, Nat.cast_one, div_one, Nat.cast_ofNat] at this
  exact this

theorem digits_value_lt (l : List Char) (h : ∀ c ∈ l, is_decimal_digit c = true) :
    digits_value 10 l < 10 ^ l.length := by
  induction l with
  | nil => simp [digits_value]
  | cons c l ih =>
    have hc := h c (List.mem_cons_self _ _)
    have hv := (digit_scan c hc).2.2.2.2.2.2.2.2
    simp only [is_decimal_digit, Bool.and_eq_true, decide_eq_true_eq] at hc
    have h1 : digits_value 10 [c] = digit_value c := by
      simp only [digits_value, List.foldl_cons, List.foldl_nil, Nat.zero_mul, Nat.zero_add]
    have h2 := ih (fun x hx => h x (List.mem_cons_of_mem _ hx))
    rw [← List.singleton_append, digits_value_append, h1, hv, List.length_append,
      List.length_singleton, Nat.add_comm 1, pow_succ]
    have h3 : (c.toNat - 48) * 10 ^ l.length ≤ 9 * 10 ^ l.length :=
      Nat.mul_le_mul_right _ (by omega)
    omega

/-- Seventeen significant digits identify a binary64 number: the text laid out from the
digits `D` and the exponent `X` reads back as the number it was rounded from. -/
theorem strtod_digits (s : Bool) (m : Nat) (e : Int) (hx : double.is_binary64 ⟨s, m, e⟩)
    (hm : 0 < m) (D : Nat) (X : Int) (hD1 : 10 ^ 16 ≤ D) (hD2 : D < 10 ^ 17)
    (hX : X.natAbs < 10 ^ 64)
    (hclose : |(D : ℚ) * 10 ^ (X - 16) - (m : ℚ) * 2 ^ e| * 2 ^ 54 < (m : ℚ) * 2 ^ e) :
    strtod ⟨if s then '-' ::
        (if X < -4 ∨ X ≥ 17 then
          (match strip_trailing_zeros (integer_to_string_loop 64 D []) with
            | [] => []
            | [c] => [c]
            | c :: rest => c :: '.' :: rest) ++ exponent_chars X
        else if X < 0 then
          '0' :: '.' :: (List.replicate (-X - 1).toNat '0' ++
            strip_trailing_zeros (integer_to_string_loop 64 D []))
        else if (strip_trailing_zeros (integer_to_string_loop 64 D [])).length
            ≤ (X + 1).toNat then
          strip_trailing_zeros (integer_to_string_loop 64 D []) ++
            List.replicate ((X + 1).toNat -
              (strip_trailing_zeros (integer_to_string_loop 64 D [])).length) '0'
        else
          (strip_trailing_zeros (integer_to_string_loop 64 D [])).take (X + 1).toNat ++
            '.' :: (strip_trailing_zeros (integer_to_string_loop 64 D [])).drop (X + 1).toNat)
      else
        (if X < -4 ∨ X ≥ 17 then
          (match strip_trailing_zeros (integer_to_string_loop 64 D []) with
            | [] => []
            | [c] => [c]
            | c :: rest => c :: '.' :: rest) ++ exponent_chars X
        else if X < 0 then
          '0' :: '.' :: (List.replicate (-X - 1).toNat '0' ++
            strip_trailing_zeros (integer_to_string_loop 64 D []))
        else if (strip_trailing_zeros (integer_to_string_loop 64 D [])).length
            ≤ (X + 1).toNat then
          strip_trailing_zeros (integer_to_string_loop 64 D []) ++
            List.replicate ((X + 1).toNat -
              (strip_trailing_zeros (integer_to_string_loop 64 D [])).length) '0'
        else
          (strip_trailing_zeros (integer_to_string_loop 64 D [])).take (X + 1).toNat ++
            '.' :: (strip_trailing_zeros (integer_to_string_loop 64 D [])).drop (X + 1).toNat)⟩
      = .finite ⟨s, m, e⟩ := by
  have hD64 : D < 10 ^ 64 := lt_trans hD2 (by norm_num)
  obtain ⟨c, l, hfull, -, hc⟩ := loop_head 64 D (by omega) hD64
  obtain ⟨z, hz⟩ := strip_trailing_zeros_spec (integer_to_string_loop 64 D [])
  have hall := loop_all_digits 64 D
  have hval := digits_value_loop 64 D hD64
  have hlen : (integer_to_string_loop 64 D []).length = 17 := by
    have h1 := loop_length_le 64 17 D (by norm_num) hD2
    have h2 := digits_value_lt _ hall
    rw [hval] at h2
    have h3 : 16 < (integer_to_string_loop 64 D []).length :=
      (Nat.pow_lt_pow_iff_right (by norm_num : 1 < 10)).mp (lt_of_le_of_lt hD1 h2)
    omega
  obtain ⟨t, ht⟩ := strip_trailing_zeros_head c l hc
  rw [← hfull] at ht
  generalize integer_to_string_loop 64 D [] = full at hz hall hval hlen ht
  generalize strip_trailing_zeros full = ds at hz ht
  have hds : ∀ x ∈ ds, is_decimal_digit x = true := fun x hx =>
    hall x (by rw [hz]; exact List.mem_append_left _ hx)
  obtain ⟨N, dd, hdd, hratio, hparse⟩ := strtod_g_style s ds X hds
    (by rw [ht]; exact hc) hX
  refine hparse.trans ?_
  apply round_to_double_of_close s m e hx hm N dd hdd
  have hDq : (D : ℚ) = (digits_value 10 ds : ℚ) * 10 ^ z := by
    rw [← hval, hz, digits_value_append, digits_value_zeros, List.length_replicate]
    push_cast
    ring
  have hL : (ds.length : Int) + z = 17 := by
    have := congrArg List.length hz
    rw [hlen, List.length_append, List.length_replicate] at this
    omega
  rw [hratio, show X + 1 - (ds.length : Int) = (z : Int) + (X - 16) by omega,
    zpow_add₀ (by norm_num : (10 : ℚ) ≠ 0), zpow_natCast, ← mul_assoc, ← hDq]
  exact hclose


/-- Reading back what was printed: `strtod` of the `%.17g` text of a binary64 number is
that number. -/
theorem strtod_snprintf_17g (x : double) (hx : x.is_binary64) :
    strtod (snprintf_17g x) = .finite x := by
  obtain ⟨s, m, e⟩ := x
  have hx2 : (e = -1074 ∧ m < 2 ^ 52) ∨ (2 ^ 52 ≤ m ∧ m < 2 ^ 53 ∧ -1074 ≤ e ∧ e ≤ 971) := hx
  rcases Nat.eq_zero_or_pos m with hm0 | hm
  · subst hm0
    have he : e = -1074 := by
      rcases hx2 with ⟨h1, -⟩ | ⟨h1, -⟩
      · exact h1
      · norm_num at h1
    subst he
    cases s <;> decide
  have hm53 : m < 2 ^ 53 := by
    rcases hx2 with ⟨-, h1⟩ | ⟨-, h1, -⟩
    · exact lt_trans h1 (by norm_num)
    · exact h1
  have he_lo : -1074 ≤ e := by omega
  have he_hi : e ≤ 971 := by omega
  have h10 : (1 : ℚ) < 10 := by norm_num
  have h10ne : (10 : ℚ) ≠ 0 := by norm_num
  have hmq : (1 : ℚ) ≤ m := by exact_mod_cast hm
  have hm53q : (m : ℚ) < 2 ^ 53 := by exact_mod_cast hm53
  have h2e : (0 : ℚ) < 2 ^ e := zpow_pos (by norm_num) e
  have h2e_lo : (2 : ℚ) ^ (-1074 : ℤ) ≤ 2 ^ e := zpow_le_zpow_right₀ (by norm_num) he_lo
  have h2e_hi : (2 : ℚ) ^ e ≤ 2 ^ (971 : ℤ) := zpow_le_zpow_right₀ (by norm_num) he_hi
  have hq_pos : (0 : ℚ) < m * 2 ^ e := mul_pos (by linarith) h2e
  have hq_lo : (10 : ℚ) ^ (-401 : ℤ) ≤ m * 2 ^ e := by
    have h1 : (10 : ℚ) ^ (-401 : ℤ) ≤ (2 : ℚ) ^ (-1074 : ℤ) := by norm_num
    have h3 : (2 : ℚ) ^ e ≤ m * 2 ^ e := le_mul_of_one_le_left (le_of_lt h2e) hmq
    linarith
  have hq_hi : (m : ℚ) * 2 ^ e < (10 : ℚ) ^ (401 : ℤ) := by
    have h1 : (2 : ℚ) ^ 53 * (2 : ℚ) ^ (971 : ℤ) ≤ (10 : ℚ) ^ (401 : ℤ) := by norm_num
    have h3 : (m : ℚ) * 2 ^ e < 2 ^ 53 * 2 ^ e := mul_lt_mul_of_pos_right hm53q h2e
    have h4 : (2 : ℚ) ^ 53 * 2 ^ e ≤ 2 ^ 53 * 2 ^ (971 : ℤ) :=
      mul_le_mul_of_nonneg_left h2e_hi (by norm_num)
    linarith
  have hq := binary_ratio m e
  have hden : 0 < 2 ^ (-e).toNat := by positivity
  have hsearch := exponent_search 10 (by norm_num) 400 (m * 2 ^ e.toNat) (2 ^ (-e).toNat) hden
    (by
      rw [hq, Nat.cast_ofNat, ← zpow_natCast, ← zpow_neg]
      exact hq_lo)
    (by
      rw [hq, Nat.cast_ofNat, ← zpow_natCast]
      exact hq_hi)
  rw [hq, Nat.cast_ofNat] at hsearch
  simp only [snprintf_17g, if_neg (ne_of_gt hm), decimal_exponent_up_eq,
    decimal_exponent_down_eq]
  generalize (if 2 ^ (-e).toNat ≤ m * 2 ^ e.toNat
      then ((exponent_up 10 400 (m * 2 ^ e.toNat) (2 ^ (-e).toNat) 0 : ℕ) : ℤ)
      else -((exponent_down 10 400 (m * 2 ^ e.toNat) (2 ^ (-e).toNat) 1 : ℕ) : ℤ)) = X0
    at hsearch ⊢
  obtain ⟨hX1, hX2⟩ := hsearch
  have hX0_hi : X0 < 401 := (zpow_lt_zpow_iff_right₀ h10).mp (lt_of_le_of_lt hX1 hq_hi)
  have hX0_lo : -401 < X0 + 1 := (zpow_lt_zpow_iff_right₀ h10).mp (lt_of_le_of_lt hq_lo hX2)
  -- the seventeen digits
  have hD := round_half_even_close (m * 2 ^ e.toNat * 10 ^ (16 - X0).toNat)
    (2 ^ (-e).toNat * 10 ^ (X0 - 16).toNat) (Nat.mul_pos hden (by positivity))
  have hratio := scaled_ratio (m * 2 ^ e.toNat) (2 ^ (-e).toNat) 10 (by norm_num) (16 - X0)
  rw [show -(16 - X0) = X0 - 16 by ring, hq, Nat.cast_ofNat] at hratio
  rw [hratio] at hD
  generalize round_half_even (m * 2 ^ e.toNat * 10 ^ (16 - X0).toNat)
    (2 ^ (-e).toNat * 10 ^ (X0 - 16).toNat) = D0 at hD ⊢
  have hP : (0 : ℚ) < 10 ^ (16 - X0) := zpow_pos (by norm_num) _
  have hP1 : (10 : ℚ) ^ X0 * 10 ^ (16 - X0) = 10 ^ 16 := by
    rw [← zpow_add₀ h10ne, show X0 + (16 - X0) = 16 by ring]
    norm_num
  have hP2 : (10 : ℚ) ^ (X0 + 1) * 10 ^ (16 - X0) = 10 ^ 17 := by
    rw [← zpow_add₀ h10ne, show X0 + 1 + (16 - X0) = 17 by ring]
    norm_num
  have hP3 : (10 : ℚ) ^ (16 - X0) * 10 ^ (X0 - 16) = 1 := by
    rw [← zpow_add₀ h10ne, show 16 - X0 + (X0 - 16) = 0 by ring, zpow_zero]
  have hP4 : (10 : ℚ) ^ (X0 - 16) * 10 ^ 16 = 10 ^ X0 := by
    rw [← hP1, mul_comm ((10 : ℚ) ^ X0), ← mul_assoc, mul_comm ((10 : ℚ) ^ (X0 - 16)), hP3,
      one_mul]
  have hQ : (0 : ℚ) < 10 ^ (X0 - 16) := zpow_pos (by norm_num) _
  generalize (10 : ℚ) ^ (16 - X0) = P at hD hP hP1 hP2 hP3
  have ht_lo : (10 : ℚ) ^ 16 ≤ m * 2 ^ e * P := by
    rw [← hP1]
    exact mul_le_mul_of_nonneg_right hX1 (le_of_lt hP)
  have ht_hi : (m : ℚ) * 2 ^ e * P < 10 ^ 17 := by
    rw [← hP2]
    exact mul_lt_mul_of_pos_right hX2 hP
  obtain ⟨hD_lo, hD_hi⟩ := abs_le.mp hD
  have hD0_lo : 10 ^ 16 ≤ D0 := by
    by_contra hlt
    have h1 : ((D0 + 1 : ℕ) : ℚ) ≤ ((10 ^ 16 : ℕ) : ℚ) := by
      exact_mod_cast (by omega : D0 + 1 ≤ 10 ^ 16)
    push_cast at h1
    linarith
  have hD0_hi : D0 ≤ 10 ^ 17 := by
    by_contra hlt
    have h1 : ((10 ^ 17 + 1 : ℕ) : ℚ) ≤ ((D0 : ℕ) : ℚ) := by
      exact_mod_cast (by omega : 10 ^ 17 + 1 ≤ D0)
    push_cast at h1
    linarith
  -- the printed number is nearer than a quarter of the last mantissa bit
  have hmain : |(D0 : ℚ) * 10 ^ (X0 - 16) - (m : ℚ) * 2 ^ e| * 2 ^ 54 < (m : ℚ) * 2 ^ e := by
    have h1 : (D0 : ℚ) * 10 ^ (X0 - 16) - (m : ℚ) * 2 ^ e
        = -((m : ℚ) * 2 ^ e * P - D0) * 10 ^ (X0 - 16) := by
      have : (m : ℚ) * 2 ^ e * P * 10 ^ (X0 - 16) = (m : ℚ) * 2 ^ e := by
        rw [mul_assoc, hP3, mul_one]
      linarith
    rw [h1, abs_mul, abs_neg, abs_of_pos hQ]
    have h2 : |(m : ℚ) * 2 ^ e * P - D0| * 10 ^ (X0 - 16) ≤ 1 / 2 * 10 ^ (X0 - 16) :=
      mul_le_mul_of_nonneg_right hD (le_of_lt hQ)
    have h3 : (10 : ℚ) ^ (X0 - 16) * 10 ^ 16 ≤ m * 2 ^ e := by
      rw [hP4]
      exact hX1
    norm_num at h3 ⊢
    linarith
  by_cases hcarry : D0 ≥ 10 ^ 17
  · have hD0 : D0 = 10 ^ 17 := by omega
    subst hD0
    simp only [if_pos hcarry]
    refine strtod_digits s m e hx hm (10 ^ 17 / 10) (X0 + 1) (by norm_num) (by norm_num)
      (lt_of_le_of_lt (by omega : (X0 + 1).natAbs ≤ 402) (by norm_num)) ?_
    have h5 : (((10 ^ 17 / 10 : ℕ) : ℚ)) * 10 ^ (X0 + 1 - 16)
        = ((10 ^ 17 : ℕ) : ℚ) * 10 ^ (X0 - 16) := by
      rw [show X0 + 1 - 16 = 1 + (X0 - 16) by ring, zpow_add₀ h10ne, ← mul_assoc]
      norm_num
    rw [h5]
    exact hmain
  · simp only [if_neg hcarry]
    exact strtod_digits s m e hx hm D0 X0 hD0_lo (by omega)
      (lt_of_le_of_lt (by omega : X0.natAbs ≤ 402) (by norm_num)) hmain

end pugi

/-! ## Floating-point values -/

namespace OpenXLSX

open pugi

namespace XLCellValue

theorem SetFloat_attribute_t (self : XLCellValue) (x : double)
    (ht : self.m_cellNode.attribute_at_most_once "t") :
    (self.SetFloat x).m_cellNode.attribute "t" = none := by
  simp only [SetFloat]
  rw [on_child_attribute, on_child_attribute]
  have : (if (self.m_cellNode.child "v").isNone then self.m_cellNode.append_child "v"
      else self.m_cellNode).attributes = self.m_cellNode.attributes := by
    split <;> rfl
  simp only [xml_node.remove_attribute, xml_node.attribute, this]
  exact find_attribute_erase "t" _ ht

theorem SetFloat_child_v (self : XLCellValue) (x : double) :
    ∃ v, (self.SetFloat x).m_cellNode.child "v" = some v ∧
      xml_text.get (some v) = snprintf_17g x := by
  simp only [SetFloat]
  obtain ⟨v, hv, -⟩ := ensure_child_v self.m_cellNode
  refine ⟨(xml_text.set_double v x).set_attribute_value "xml:space" "default", ?_, ?_⟩
  · rw [on_child_child _ _ (fun v => v.set_attribute_value "xml:space" "default") (fun m => rfl),
      on_child_child _ _ (fun v => xml_text.set_double v x) (fun m => assign_name m _),
      remove_attribute_child, hv]
    rfl
  · rw [text_get_set_attribute_value, xml_text.set_double, text_get_assign]

end XLCellValue

/-- C13 fails on the code: on the empty cell `<c r="A1"/>`, `SetFloat(3.0)` stores the text
`"3"` and `SetFloat(1e+20)` stores `"1e+20"`; in both cases `ValueType()` returns `Integer`
and `GetFloat()` fails with the type-mismatch error.  And on `<c t="b" t="b"/>`, where the
type attribute occurs twice, `SetFloat(0.5)` stores `"0.5"` but removes only the first
`t="b"`: `ValueType()` returns `Boolean` and `GetFloat()` fails as well. -/
theorem SetFloat_whole_value_is_Integer :
    xml_text.get ((XLCellValue.SetFloat (XLCellValue.mk ⟨"c", [⟨"r", "A1"⟩], []⟩ ⟨[]⟩)
      ⟨false, 3 * 2 ^ 51, -51⟩).m_cellNode.child "v") = "3" ∧
    (XLCellValue.SetFloat (XLCellValue.mk ⟨"c", [⟨"r", "A1"⟩], []⟩ ⟨[]⟩)
      ⟨false, 3 * 2 ^ 51, -51⟩).ValueType = XLValueType.Integer ∧
    (XLCellValue.SetFloat (XLCellValue.mk ⟨"c", [⟨"r", "A1"⟩], []⟩ ⟨[]⟩)
      ⟨false, 3 * 2 ^ 51, -51⟩).GetFloat strtod
        = .error (.XLException "Cell value is not Float") ∧
    xml_text.get ((XLCellValue.SetFloat (XLCellValue.mk ⟨"c", [⟨"r", "A1"⟩], []⟩ ⟨[]⟩)
      ⟨false, 5 ^ 20 * 2 ^ 6, 14⟩).m_cellNode.child "v") = "1e+20" ∧
    (XLCellValue.SetFloat (XLCellValue.mk ⟨"c", [⟨"r", "A1"⟩], []⟩ ⟨[]⟩)
      ⟨false, 5 ^ 20 * 2 ^ 6, 14⟩).ValueType = XLValueType.Integer ∧
    (XLCellValue.SetFloat (XLCellValue.mk ⟨"c", [⟨"r", "A1"⟩], []⟩ ⟨[]⟩)
      ⟨false, 5 ^ 20 * 2 ^ 6, 14⟩).GetFloat strtod
        = .error (.XLException "Cell value is not Float") ∧
    xml_text.get ((XLCellValue.SetFloat
      (XLCellValue.mk ⟨"c", [⟨"t", "b"⟩, ⟨"t", "b"⟩], []⟩ ⟨[]⟩)
      ⟨false, 2 ^ 52, -53⟩).m_cellNode.child "v") = "0.5" ∧
    (XLCellValue.SetFloat (XLCellValue.mk ⟨"c", [⟨"t", "b"⟩, ⟨"t", "b"⟩], []⟩ ⟨[]⟩)
      ⟨false, 2 ^ 52, -53⟩).ValueType = XLValueType.Boolean ∧
    (XLCellValue.SetFloat (XLCellValue.mk ⟨"c", [⟨"t", "b"⟩, ⟨"t", "b"⟩], []⟩ ⟨[]⟩)
      ⟨false, 2 ^ 52, -53⟩).GetFloat strtod
        = .error (.XLException "Cell value is not Float") := by
  refine ⟨rfl, by decide, rfl, rfl, by decide, rfl, rfl, by decide, rfl⟩

/-- C13, amended. Float round trip: for every finite floating-point value `x` (a binary64
number) and every prior state of the cell node that carries the type attribute `t` at most
once, after `SetFloat(x)` the value text is the `%.17g` text of `x`; when that text
contains a decimal point or a negative exponent, `ValueType()` returns `Float` and
`GetFloat()` succeeds and returns `x`; otherwise (whole values such as 3.0, values written
with a positive exponent such as 1e+20) `ValueType()` returns `Integer` and `GetFloat()`
fails with the type-mismatch error. -/
theorem SetFloat_round_trip (self : XLCellValue) (x : double) (hx : x.is_binary64)
    (ht : self.m_cellNode.attribute_at_most_once "t") :
    xml_text.get ((self.SetFloat x).m_cellNode.child "v") = snprintf_17g x ∧
    (has_decimal_point_or_negative_exponent (snprintf_17g x) →
      (self.SetFloat x).ValueType = XLValueType.Float ∧
      (self.SetFloat x).GetFloat strtod = .ok (.finite x)) ∧
    (¬ has_decimal_point_or_negative_exponent (snprintf_17g x) →
      (self.SetFloat x).ValueType = XLValueType.Integer ∧
      (self.SetFloat x).GetFloat strtod = .error (.XLException "Cell value is not Float")) := by
  obtain ⟨v, hv, hget⟩ := XLCellValue.SetFloat_child_v self x
  have hattr := XLCellValue.SetFloat_attribute_t self x ht
  have hcell : (self.SetFloat x).CellType = XLCellType.Number := by
    simp [XLCellValue.CellType, hattr, hv]
  refine ⟨by rw [hv, hget], ?_, ?_⟩
  · intro h
    have hd := (DetermineNumberType_Float_iff (snprintf_17g x)).mpr h
    have hvt : (self.SetFloat x).ValueType = XLValueType.Float := by
      simp [XLCellValue.ValueType, hcell, hv, hget, hd]
    refine ⟨hvt, ?_⟩
    simp only [XLCellValue.GetFloat, hvt, ne_eq, not_true_eq_false, if_false, hv, hget]
    rw [strtod_snprintf_17g x hx]
  · intro h
    have hd := (DetermineNumberType_Integer_iff (snprintf_17g x)).mpr h
    have hvt : (self.SetFloat x).ValueType = XLValueType.Integer := by
      simp [XLCellValue.ValueType, hcell, hv, hget, hd]
    exact ⟨hvt, by simp [XLCellValue.GetFloat, hvt]⟩

/-- Witness for the amended C13: 0.5 is the binary64 number `2 ^ 52 * 2 ^ (-53)`;
`SetFloat(0.5)` on the boolean cell `<c t="b"><v>1</v></c>` stores `"0.5"`, the cell is a
`Float` and `GetFloat()` returns 0.5. -/
theorem SetFloat_round_trip_witness :
    double.is_binary64 ⟨false, 2 ^ 52, -53⟩ ∧
    (pugi.xml_node.mk "c" [⟨"t", "b"⟩]
      [.node_element "v" [] [.node_pcdata "1"]]).attribute_at_most_once "t" ∧
    snprintf_17g ⟨false, 2 ^ 52, -53⟩ = "0.5" ∧
    ((XLCellValue.mk ⟨"c", [⟨"t", "b"⟩], [.node_element "v" [] [.node_pcdata "1"]]⟩
      ⟨[]⟩).SetFloat ⟨false, 2 ^ 52, -53⟩).ValueType = XLValueType.Float ∧
    ((XLCellValue.mk ⟨"c", [⟨"t", "b"⟩], [.node_element "v" [] [.node_pcdata "1"]]⟩
      ⟨[]⟩).SetFloat ⟨false, 2 ^ 52, -53⟩).GetFloat strtod = .ok (.finite ⟨false, 2 ^ 52, -53⟩) :=
  ⟨by decide, by decide, by decide,
    (SetFloat_round_trip
      (XLCellValue.mk ⟨"c", [⟨"t", "b"⟩], [.node_element "v" [] [.node_pcdata "1"]]⟩ ⟨[]⟩)
      ⟨false, 2 ^ 52, -53⟩ (by decide) (by decide)).2.1 (Or.inl (by decide))⟩

end OpenXLSX

/-! ## What the setters leave alone, and what they do to the whitespace marker -/

namespace pugi

theorem filter_modify_attribute (p : xml_attribute_struct → Bool) (nm : String)
    (f : xml_attribute_struct → xml_attribute_struct)
    (hp : ∀ a, a.name = nm → p a = false) (hf : ∀ a, a.name = nm → p (f a) = false)
    (as : List xml_attribute_struct) :
    (modify_attribute nm f as).filter p = as.filter p := by
  induction as with
  | nil => rfl
  | cons b rest ih =>
    simp only [modify_attribute]
    split
    · rename_i hb
      simp [List.filter_cons, hp b hb, hf b hb]
    · simp [List.filter_cons, ih]

theorem filter_erase_attribute (p : xml_attribute_struct → Bool) (nm : String)
    (hp : ∀ a, a.name = nm → p a = false) (as : List xml_attribute_struct) :
    (erase_attribute nm as).filter p = as.filter p := by
  induction as with
  | nil => rfl
  | cons b rest ih =>
    simp only [erase_attribute]
    split
    · rename_i hb
      simp [List.filter_cons, hp b hb]
    · simp [List.filter_cons, ih]

/-- The test that keeps every child except the elements called `v`. -/
theorem filter_modify_child (f : xml_node → xml_node) (hf : ∀ m, (f m).name = m.name)
    (cs : List xml_node_struct) :
    (modify_child "v" f cs).filter (fun c =>
        match c with
        | .node_element nm _ _ => nm != "v"
        | _ => true) =
      cs.filter (fun c =>
        match c with
        | .node_element nm _ _ => nm != "v"
        | _ => true) := by
  induction cs with
  | nil => rfl
  | cons b rest ih =>
    cases b with
    | node_element bn bas bcs =>
      simp only [modify_child]
      split
      · rename_i hb
        subst hb
        have := hf ⟨"v", bas, bcs⟩
        simp only at this
        simp [List.filter_cons, xml_node.internal_object, this]
      · simp [List.filter_cons, ih]
    | node_pcdata v => simp [modify_child, List.filter_cons, ih]
    | node_cdata v => simp [modify_child, List.filter_cons, ih]

theorem filter_erase_child (cs : List xml_node_struct) :
    (erase_child "v" cs).filter (fun c =>
        match c with
        | .node_element nm _ _ => nm != "v"
        | _ => true) =
      cs.filter (fun c =>
        match c with
        | .node_element nm _ _ => nm != "v"
        | _ => true) := by
  induction cs with
  | nil => rfl
  | cons b rest ih =>
    cases b with
    | node_element bn bas bcs =>
      simp only [erase_child]
      split
      · rename_i hb
        simp [List.filter_cons, hb]
      · simp [List.filter_cons, ih]
    | node_pcdata v => simp [erase_child, List.filter_cons, ih]
    | node_cdata v => simp [erase_child, List.filter_cons, ih]

theorem assign_attributes (n : xml_node) (chars : String) :
    (xml_text.assign n chars).attributes = n.attributes := by
  unfold xml_text.assign
  split <;> rfl

end pugi

namespace OpenXLSX

open pugi

theorem other_attributes_on_child (n : xml_node) (nm : String) (f : xml_node → xml_node) :
    other_attributes (n.on_child nm f) = other_attributes n := rfl

theorem other_children_on_child (n : xml_node) (f : xml_node → xml_node)
    (hf : ∀ m, (f m).name = m.name) :
    other_children (n.on_child "v" f) = other_children n :=
  filter_modify_child f hf n.children

theorem other_attributes_set_t (n : xml_node) (rhs : String) :
    other_attributes (n.set_attribute_value "t" rhs) = other_attributes n :=
  filter_modify_attribute _ "t" _ (fun a h => by simp [h]) (fun a h => by simp [h]) n.attributes

theorem other_attributes_remove_t (n : xml_node) :
    other_attributes (n.remove_attribute "t") = other_attributes n :=
  filter_erase_attribute _ "t" (fun a h => by simp [h]) n.attributes

theorem other_children_remove_v (n : xml_node) :
    other_children (n.remove_child "v") = other_children n :=
  filter_erase_child n.children

theorem other_attributes_ensure_t (n : xml_node) (c : Prop) [Decidable c] :
    other_attributes (if c then n.append_attribute "t" else n) = other_attributes n := by
  split
  · simp [other_attributes, xml_node.append_attribute, List.filter_append, strcpy_insitu_t]
  · rfl

theorem other_children_ensure_v (n : xml_node) (c : Prop) [Decidable c] :
    other_children (if c then n.append_child "v" else n) = other_children n := by
  split
  · simp [other_children, xml_node.append_child, List.filter_append, strcpy_insitu_v]
  · rfl

theorem other_attributes_ensure_v (n : xml_node) (c : Prop) [Decidable c] :
    other_attributes (if c then n.append_child "v" else n) = other_attributes n := by
  split <;> rfl

theorem other_children_ensure_t (n : xml_node) (c : Prop) [Decidable c] :
    other_children (if c then n.append_attribute "t" else n) = other_children n := by
  split <;> rfl

theorem name_ensure_t (n : xml_node) (c : Prop) [Decidable c] :
    (if c then n.append_attribute "t" else n).name = n.name := by
  split <;> rfl

theorem name_ensure_v (n : xml_node) (c : Prop) [Decidable c] :
    (if c then n.append_child "v" else n).name = n.name := by
  split <;> rfl

/-- The frame of `SetInteger`, `SetFloat`, `SetBoolean` and `Clear`: the name of the cell
node, its attributes other than `t` and its children other than `v` are what they were. -/
theorem setters_frame (self : XLCellValue) (n : Int) (x : double) (b : Bool) :
    ((self.SetInteger n).m_cellNode.name = self.m_cellNode.name ∧
      other_attributes (self.SetInteger n).m_cellNode = other_attributes self.m_cellNode ∧
      other_children (self.SetInteger n).m_cellNode = other_children self.m_cellNode) ∧
    ((self.SetFloat x).m_cellNode.name = self.m_cellNode.name ∧
      other_attributes (self.SetFloat x).m_cellNode = other_attributes self.m_cellNode ∧
      other_children (self.SetFloat x).m_cellNode = other_children self.m_cellNode) ∧
    ((self.SetBoolean b).m_cellNode.name = self.m_cellNode.name ∧
      other_attributes (self.SetBoolean b).m_cellNode = other_attributes self.m_cellNode ∧
      other_children (self.SetBoolean b).m_cellNode = other_children self.m_cellNode) ∧
    (self.Clear.m_cellNode.name = self.m_cellNode.name ∧
      other_attributes self.Clear.m_cellNode = other_attributes self.m_cellNode ∧
      other_children self.Clear.m_cellNode = other_children self.m_cellNode) := by
  refine ⟨⟨?_, ?_, ?_⟩, ⟨?_, ?_, ?_⟩, ⟨?_, ?_, ?_⟩, ⟨?_, ?_, ?_⟩⟩
  · exact name_ensure_v _ _
  · simp only [XLCellValue.SetInteger, other_attributes_on_child, other_attributes_remove_t,
      other_attributes_ensure_v]
  · simp only [XLCellValue.SetInteger]
    rw [other_children_on_child _ (fun v => v.set_attribute_value "xml:space" "default")
        (fun m => rfl),
      other_children_on_child _ (fun v => xml_text.set_llong v n) (fun m => set_llong_name m n)]
    exact other_children_ensure_v _ _
  · exact name_ensure_v _ _
  · simp only [XLCellValue.SetFloat, other_attributes_on_child, other_attributes_remove_t,
      other_attributes_ensure_v]
  · simp only [XLCellValue.SetFloat]
    rw [other_children_on_child _ (fun v => v.set_attribute_value "xml:space" "default")
        (fun m => rfl),
      other_children_on_child _ (fun v => xml_text.set_double v x) (fun m => assign_name m _)]
    exact other_children_ensure_v _ _
  · simp only [XLCellValue.SetBoolean]
    exact (name_ensure_v _ _).trans (name_ensure_t _ _)
  · simp only [XLCellValue.SetBoolean, other_attributes_on_child, other_attributes_set_t,
      other_attributes_ensure_v, other_attributes_ensure_t]
  · simp only [XLCellValue.SetBoolean]
    rw [other_children_on_child _ (fun v => v.set_attribute_value "xml:space" "default")
        (fun m => rfl),
      other_children_on_child _ (fun v => xml_text.set_int v (if b = true then 1 else 0))
        (fun m => set_int_name m _)]
    exact (other_children_ensure_v _ _).trans (other_children_ensure_t _ _)
  · rfl
  · exact other_attributes_remove_t _
  · exact other_children_remove_v _

/-- The frame of `Set`: the name of the cell node and its children other than `v` are what
they were, and so are its attributes other than `t` and `xml:space`. -/
theorem Set_frame (self : XLCellValue) (s : String) :
    (self.Set s).m_cellNode.name = self.m_cellNode.name ∧
    other_children (self.Set s).m_cellNode = other_children self.m_cellNode ∧
    (other_attributes (self.Set s).m_cellNode).filter (fun a => a.name != "xml:space") =
      (other_attributes self.m_cellNode).filter (fun a => a.name != "xml:space") := by
  refine ⟨?_, ?_, ?_⟩
  · simp only [XLCellValue.Set]
    exact (name_ensure_v _ _).trans (name_ensure_t _ _)
  · simp only [XLCellValue.Set]
    show other_children (xml_node.on_child _ "v" (fun v => xml_text.set v s)) = _
    rw [other_children_on_child _ (fun v => xml_text.set v s) (fun m => set_name m s)]
    exact (other_children_ensure_v _ _).trans (other_children_ensure_t _ _)
  · simp only [XLCellValue.Set]
    have h1 : ∀ n : xml_node, ∀ rhs : String,
        (other_attributes (n.set_attribute_value "xml:space" rhs)).filter
          (fun a => a.name != "xml:space") =
        (other_attributes n).filter (fun a => a.name != "xml:space") := by
      intro n rhs
      simp only [other_attributes, List.filter_filter]
      exact filter_modify_attribute _ "xml:space" _ (fun a h => by simp [h])
        (fun a h => by simp [h]) n.attributes
    rw [h1, other_attributes_on_child, other_attributes_set_t, other_attributes_ensure_v,
      other_attributes_ensure_t]

end OpenXLSX

namespace OpenXLSX

open pugi

/-- A store of the whitespace marker through `child("v").attribute("xml:space")` rewrites a
marker that is there and creates none. -/
theorem child_marker_after (n : xml_node) (f : xml_node → xml_node)
    (hname : ∀ m, (f m).name = m.name) (hattr : ∀ m, (f m).attributes = m.attributes)
    (rhs : String) :
    child_attribute (((n.on_child "v" f).on_child "v"
        (fun v => v.set_attribute_value "xml:space" rhs)).child "v") "xml:space" =
      (child_attribute (n.child "v") "xml:space").map
        (fun a => { a with value := strcpy_insitu rhs }) := by
  rw [on_child_child _ _ (fun v => v.set_attribute_value "xml:space" rhs) (fun m => rfl),
    on_child_child _ _ f hname]
  cases n.child "v" with
  | none => rfl
  | some v =>
    simp only [Option.map_some', child_attribute, xml_node.attribute,
      xml_node.set_attribute_value, hattr]
    exact find_attribute_modify "xml:space" (fun a => { a with value := strcpy_insitu rhs })
      (fun _ => rfl) v.attributes

theorem child_attribute_ensure_v (n : xml_node) (nm : String) :
    child_attribute ((if (n.child "v").isNone then n.append_child "v" else n).child "v") nm =
      child_attribute (n.child "v") nm := by
  obtain ⟨v, hv, -, h⟩ := ensure_child_v_text n
  rw [hv]
  exact h nm

/-- The whitespace marker of the value node after the numeric setters: a marker that was
there becomes `"default"`, and a value node without marker stays without one. -/
theorem numeric_setters_marker (self : XLCellValue) (n : Int) (x : double) (b : Bool) :
    child_attribute ((self.SetInteger n).m_cellNode.child "v") "xml:space" =
      (child_attribute (self.m_cellNode.child "v") "xml:space").map
        (fun a => { a with value := "default" }) ∧
    child_attribute ((self.SetFloat x).m_cellNode.child "v") "xml:space" =
      (child_attribute (self.m_cellNode.child "v") "xml:space").map
        (fun a => { a with value := "default" }) ∧
    child_attribute ((self.SetBoolean b).m_cellNode.child "v") "xml:space" =
      (child_attribute (self.m_cellNode.child "v") "xml:space").map
        (fun a => { a with value := "default" }) := by
  refine ⟨?_, ?_, ?_⟩
  · simp only [XLCellValue.SetInteger]
    rw [child_marker_after _ (fun v => xml_text.set_llong v n) (fun m => set_llong_name m n)
      (fun m => assign_attributes m _), remove_attribute_child, child_attribute_ensure_v,
      strcpy_insitu_default]
  · simp only [XLCellValue.SetFloat]
    rw [child_marker_after _ (fun v => xml_text.set_double v x) (fun m => assign_name m _)
      (fun m => assign_attributes m _), remove_attribute_child, child_attribute_ensure_v,
      strcpy_insitu_default]
  · simp only [XLCellValue.SetBoolean]
    rw [child_marker_after _ (fun v => xml_text.set_int v (if b = true then 1 else 0))
      (fun m => set_int_name m _) (fun m => assign_attributes m _), set_attribute_value_child,
      child_attribute_ensure_v, ite_append_attribute_child, strcpy_insitu_default]

/-- The whitespace marker of the value node after `Set`: what it was before. -/
theorem Set_marker (self : XLCellValue) (s : String) :
    child_attribute ((self.Set s).m_cellNode.child "v") "xml:space" =
      child_attribute (self.m_cellNode.child "v") "xml:space" := by
  simp only [XLCellValue.Set]
  rw [set_attribute_value_child,
    on_child_child _ _ (fun v => xml_text.set v s) (fun m => set_name m s),
    set_attribute_value_child]
  have hmap : ∀ c : Option xml_node,
      child_attribute (c.map (fun v => xml_text.set v s)) "xml:space" =
        child_attribute c "xml:space" := by
    intro c
    cases c with
    | none => rfl
    | some v =>
      simp only [Option.map_some', child_attribute, xml_node.attribute, xml_text.set,
        assign_attributes]
  rw [hmap, child_attribute_ensure_v, ite_append_attribute_child]

/-- What copy assignment does to the target: the type attribute receives the value of the
source's type attribute (the empty string when the source has none), a whitespace marker
that the target's value node carries receives the source's marker, and a value node
exists afterwards. -/
theorem operator_assign_type_attribute (self other : XLCellValue) :
    (self.operator_assign other).m_cellNode.attribute "t" =
      some ⟨"t", strcpy_insitu (xml_attribute.value (other.m_cellNode.attribute "t"))⟩ ∧
    ((self.operator_assign other).m_cellNode.child "v").isSome = true ∧
    child_attribute ((self.operator_assign other).m_cellNode.child "v") "xml:space" =
      (child_attribute (self.m_cellNode.child "v") "xml:space").map
        (fun a => xml_attribute_struct.mk a.name (strcpy_insitu
          (xml_attribute.value (child_attribute (other.m_cellNode.child "v") "xml:space"))))
    := by
  have hval : (if (other.m_cellNode.attribute "t").isNone then ""
      else xml_attribute.value (other.m_cellNode.attribute "t")) =
      xml_attribute.value (other.m_cellNode.attribute "t") := by
    cases other.m_cellNode.attribute "t" <;> rfl
  obtain ⟨a, ha, hn⟩ := ensure_attribute_t self.m_cellNode
  simp only [XLCellValue.operator_assign, hval]
  generalize hn1 : (if (self.m_cellNode.attribute "t").isNone then
        self.m_cellNode.append_attribute "t" else self.m_cellNode) = n1 at ha
  have hc : n1.child "v" = self.m_cellNode.child "v" := by
    rw [← hn1]
    exact ite_append_attribute_child _ _ _ _
  refine ⟨?_, ?_, ?_⟩
  · rw [set_attribute_value_attribute, on_child_attribute, on_child_attribute,
      ite_append_child_attribute, ha]
    cases a
    simp only at hn
    simp [hn]
  · obtain ⟨v, hv, -⟩ := ensure_child_v n1
    rw [set_attribute_value_child,
      on_child_child _ _ (fun v => v.set_attribute_value "xml:space" _) (fun m => rfl),
      on_child_child _ _ (fun v => v.set_value _) (fun m => by simp only [set_value_element]),
      hv]
    rfl
  · rw [set_attribute_value_child,
      child_marker_after _ (fun v => v.set_value _) (fun m => by simp only [set_value_element])
        (fun m => by simp only [set_value_element]),
      child_attribute_ensure_v, hc]

end OpenXLSX
